import Mathlib

/-!
# Verification of the quantity-math-js core

A shallow embedding, in Lean 4, of the core of the `quantity-math-js`
library: the dimension-vector algebra (`dimensions.ts`), the unit registry
and unit-string grammar (`units.ts`), the quantity value type with
uncertainty propagation (`quantity.ts`), and the greedy unit-selection
algorithm (`Quantity.pickUnitsFromList` /
`Quantity.pickUnitsFromListIterativeReduction`).

Modelling conventions:
* JavaScript numbers are modelled as exact rationals (`ℚ`); decimal
  literals from the source are read exactly.  Machine floating point
  rounding is not modelled.
* JavaScript truthiness tests on numbers (`if (x)`) are modelled as
  "`x` is present and nonzero".
* Fallible code (`throw new QuantityError(...)`) is modelled with
  `Except QuantityError`.
* JavaScript string comparison (`<`, used by `Array.prototype.sort`)
  compares code units; it is modelled by lexicographic comparison of the
  character lists of Lean strings (identical on the ASCII names that occur
  as custom dimension names).
-/

namespace QuantityMath

/-- Errors thrown by the library: the base class `QuantityError` (carrying a
message) and its subclass `InvalidConversionError` (from `error.ts`). -/
inductive QuantityError where
  | quantityError (msg : String)
  | invalidConversionError
deriving DecidableEq

/-- Decidable equality for `Except` results, used to evaluate the model on
concrete inputs. -/
instance {ε α : Type} [DecidableEq ε] [DecidableEq α] : DecidableEq (Except ε α) := by
  intro x y
  cases x <;> cases y
  case error.error a b =>
    exact if h : a = b then .isTrue (by rw [h]) else
      .isFalse (by intro hc; injection hc; contradiction)
  case error.ok a b => exact .isFalse (by intro hc; cases hc)
  case ok.error a b => exact .isFalse (by intro hc; cases hc)
  case ok.ok a b =>
    exact if h : a = b then .isTrue (by rw [h]) else
      .isFalse (by intro hc; injection hc; contradiction)

/-- A parsed single unit, e.g. `km^2` is `⟨some "k", "m", 2⟩`
(`ParsedUnit` in `units.ts`; the `prefix?` field is called `pfx` here
because `prefix` is a reserved word in Lean). -/
structure ParsedUnit where
  pfx : Option String
  unit : String
  power : Int
deriving DecidableEq

/-- A unit from a candidate list for `pickUnitsFromList`: a prefix and unit
symbol without a power (`PreferredUnit` in `units.ts`). -/
structure PreferredUnit where
  pfx : Option String
  unit : String
deriving DecidableEq

/-! ## Strings: code-unit comparison and sorting

JavaScript's `<` on strings and the default `Array.prototype.sort`
comparator order strings by their code units.  Lean's built-in `String`
order is not kernel-computable, so we define an executable lexicographic
comparison on the underlying character lists. -/

/-- Lexicographic strict order on character lists (JavaScript string `<`). -/
def charListLt : List Char → List Char → Bool
  | [], [] => false
  | [], _ :: _ => true
  | _ :: _, [] => false
  | a :: as, b :: bs => if a < b then true else if b < a then false else charListLt as bs

/-- JavaScript string `<` (code-unit lexicographic comparison). -/
def strLt (a b : String) : Bool := charListLt a.data b.data

/-- Non-strict string comparison used for sorting, `a ≤ b ↔ ¬(b < a)`. -/
def strLe (a b : String) : Bool := !(strLt b a)

/-- Insert an element into a list sorted by `le` (helper for `sortStr`). -/
def insertLe (x : String) : List String → List String
  | [] => [x]
  | y :: ys => if strLe x y then x :: y :: ys else y :: insertLe x ys

/-- Insertion sort by JavaScript string comparison (models
`Array.prototype.sort()` on an array of strings). -/
def sortStr : List String → List String
  | [] => []
  | x :: xs => insertLe x (sortStr xs)

theorem insertLe_perm (x : String) (l : List String) : (insertLe x l).Perm (x :: l) := by
  induction l with
  | nil => simp [insertLe]
  | cons y ys ih =>
    by_cases h : strLe x y = true
    · simp [insertLe, h]
    · simp only [insertLe, h]
      simp only [Bool.false_eq_true, if_false]
      exact ((ih.cons y).trans (List.Perm.swap x y ys))

theorem sortStr_perm (l : List String) : (sortStr l).Perm l := by
  induction l with
  | nil => simp [sortStr]
  | cons x xs ih =>
    exact (insertLe_perm x (sortStr xs)).trans (ih.cons x)

theorem mem_sortStr {a : String} {l : List String} : a ∈ sortStr l ↔ a ∈ l :=
  (sortStr_perm l).mem_iff

theorem nodup_sortStr {l : List String} (h : l.Nodup) : (sortStr l).Nodup :=
  ((sortStr_perm l).nodup_iff).mpr h

theorem charListLt_irrefl : ∀ l : List Char, charListLt l l = false := by
  intro l
  induction l with
  | nil => rfl
  | cons a as ih => simp [charListLt, ih]

theorem charListLt_trans :
    ∀ a b c : List Char, charListLt a b = true → charListLt b c = true → charListLt a c = true := by
  intro a
  induction a with
  | nil =>
    intro b c hab hbc
    cases b with
    | nil => exact hbc
    | cons y ys =>
      cases c with
      | nil => simp [charListLt] at hbc
      | cons z zs => rfl
  | cons x xs ih =>
    intro b c hab hbc
    cases b with
    | nil => simp [charListLt] at hab
    | cons y ys =>
      cases c with
      | nil => simp [charListLt] at hbc
      | cons z zs =>
        simp only [charListLt] at hab hbc ⊢
        rcases lt_trichotomy y z with hyz | hyz | hyz
        · -- y < z
          rcases lt_trichotomy x y with hxy | hxy | hxy
          · rw [if_pos (lt_trans hxy hyz)]
          · subst hxy; rw [if_pos hyz]
          · rw [if_neg (lt_asymm hxy), if_pos hxy] at hab
            exact absurd hab (by simp)
        · -- y = z
          subst hyz
          rcases lt_trichotomy x y with hxy | hxy | hxy
          · rw [if_pos hxy]
          · subst hxy
            rw [if_neg (lt_irrefl x), if_neg (lt_irrefl x)] at hab hbc ⊢
            exact ih ys zs hab hbc
          · rw [if_neg (lt_asymm hxy), if_pos hxy] at hab
            exact absurd hab (by simp)
        · -- z < y
          rw [if_neg (lt_asymm hyz), if_pos hyz] at hbc
          exact absurd hbc (by simp)

theorem strLt_irrefl (a : String) : strLt a a = false := charListLt_irrefl a.data

theorem strLt_trans {a b c : String} (h1 : strLt a b = true) (h2 : strLt b c = true) :
    strLt a c = true := charListLt_trans a.data b.data c.data h1 h2

/-- A list of custom dimension names in strictly ascending order, the
well-formedness check done by the `Dimensions` constructor
(`customDimensionNames.every((v, i, a) => i === 0 || v > a[i-1])`). -/
def namesStrictSorted : List String → Bool
  | [] => true
  | [_] => true
  | a :: b :: rest => strLt a b && namesStrictSorted (b :: rest)

theorem namesStrictSorted_pairwise :
    ∀ {l : List String}, namesStrictSorted l = true → l.Pairwise (fun a b => strLt a b = true) := by
  intro l
  induction l with
  | nil => intro _; exact List.Pairwise.nil
  | cons a rest ih =>
    intro h
    cases rest with
    | nil => exact List.pairwise_singleton _ a
    | cons b rest' =>
      simp only [namesStrictSorted, Bool.and_eq_true] at h
      have hp := ih h.2
      refine List.Pairwise.cons ?_ hp
      intro c hc0
      rcases List.mem_cons.mp hc0 with hc | hc
      · subst hc; exact h.1
      · have hbc := (List.pairwise_cons.mp hp).1 c hc
        exact strLt_trans h.1 hbc

theorem namesStrictSorted_nodup {l : List String} (h : namesStrictSorted l = true) : l.Nodup := by
  have hp := namesStrictSorted_pairwise h
  refine hp.imp ?_
  intro a b hab
  intro he
  subst he
  rw [strLt_irrefl] at hab
  exact Bool.false_ne_true hab

/-! ## Dimensions (`dimensions.ts`)

The source stores a dimension vector as a single array: nine basic integer
exponents (mass, length, time, temperature, current, substance, luminosity,
information, angle) followed by up to four custom exponents, whose names
are kept in the parallel, alphabetically sorted `customDimensionNames`
array.  We model the basic slots as a length-9 integer list `base` and pair
each custom exponent with its name in `customs`. -/

/-- How many basic dimensions there are (`numBasicDimensions` in
`dimensions.ts`). -/
def numBasicDimensions : Nat := 9

/-- A dimension vector: 9 basic integer exponents plus named custom
dimension exponents (class `Dimensions` in `dimensions.ts`). -/
structure Dimensions where
  base : List Int
  customs : List (String × Int)
deriving DecidableEq

/-- The well-formedness conditions enforced by the `Dimensions` constructor
and its TypeScript type: exactly 9 basic slots, custom names strictly
sorted (which also rules out duplicates), and at most 4 custom dimensions
(the `dimensions` tuple type allows length 9..13). -/
def Dimensions.Valid (d : Dimensions) : Prop :=
  d.base.length = numBasicDimensions ∧
    namesStrictSorted (d.customs.map Prod.fst) = true ∧ d.customs.length ≤ 4

instance (d : Dimensions) : Decidable d.Valid := by
  unfold Dimensions.Valid
  infer_instance

/-- The canonical all-zero vector (`Dimensionless` in `dimensions.ts`). -/
def Dimensionless : Dimensions := ⟨List.replicate numBasicDimensions 0, []⟩

/-- Get the dimensionality - the sum of the absolute values of all
dimensions (`Dimensions.dimensionality`). -/
def Dimensions.dimensionality (d : Dimensions) : Nat :=
  (d.base.map Int.natAbs).sum + (d.customs.map (fun p => p.2.natAbs)).sum

/-- Is this dimensionless? (all dimensions are zero)
(`Dimensions.isDimensionless`, current version: `dimensionality === 0`). -/
def Dimensions.isDimensionless (d : Dimensions) : Bool :=
  d.dimensionality == 0

/-- The exponent paired with name `n` in a name/exponent list, `0` when the
name is absent. -/
def lookupPairs (l : List (String × Int)) (n : String) : Int :=
  (((l.find? (fun p => p.1 == n)).map Prod.snd).getD 0)

/-- The exponent recorded for custom dimension `n`, `0` when the name is
absent (models `customDimensionNames.indexOf(name)` followed by reading
`dimensions[numBasicDimensions + idx]`, with `-1 ↦ 0`). -/
def lookupCustom (d : Dimensions) (n : String) : Int :=
  lookupPairs d.customs n

/-- The sorted union of both vectors' custom dimension names
(`Dimensions.combineCustomDimensionNames`). -/
def combineCustomDimensionNames (x y : Dimensions) : List String :=
  sortStr ((x.customs.map Prod.fst) ++ (y.customs.map Prod.fst)).dedup

/-- Check if the dimensions of this are equal to the dimensions of another
`Dimensions` object, ignoring custom dimensions that are zero in one object
but missing in the other (`Dimensions.equalTo`). -/
def Dimensions.equalTo (x y : Dimensions) : Bool :=
  ((List.range numBasicDimensions).all fun i => x.base.getD i 0 == y.base.getD i 0) &&
    (if x.customs.isEmpty && y.customs.isEmpty then true
     else (combineCustomDimensionNames x y).all fun n => lookupCustom x n == lookupCustom y n)

/-- Multiply these dimensions by another dimensions (`Dimensions.multiply`):
basic exponents add elementwise; custom exponents are summed over the
sorted union of names, failing when the union exceeds 4 names. -/
def Dimensions.multiply (x y : Dimensions) : Except QuantityError Dimensions :=
  if x.customs.isEmpty && y.customs.isEmpty then
    .ok ⟨x.base.zipWith (· + ·) y.base, []⟩
  else
    if 4 < (combineCustomDimensionNames x y).length then
      .error (.quantityError "Cannot have more than 4 custom dimensions.")
    else
      .ok ⟨x.base.zipWith (· + ·) y.base,
           (combineCustomDimensionNames x y).map
             fun n => (n, lookupCustom x n + lookupCustom y n)⟩

/-- Invert these dimensions: negate every exponent, names unchanged
(`Dimensions.invert`). -/
def Dimensions.invert (d : Dimensions) : Dimensions :=
  ⟨d.base.map (fun v => -v), d.customs.map fun p => (p.1, -p.2)⟩

/-- Raise these dimensions to an integer power (`Dimensions.pow`):
`n = 0` returns the canonical `Dimensionless`, otherwise every exponent is
multiplied by `n`.  (The source's runtime check that `n` is an integer is
vacuous here since `n : Int`.) -/
def Dimensions.pow (d : Dimensions) (n : Int) : Dimensions :=
  if n == 0 then Dimensionless
  else ⟨d.base.map (fun v => v * n), d.customs.map fun p => (p.1, p.2 * n)⟩

/-! ### Semantics of dimension vectors

`semBase d i` and `lookupCustom d n` read the vector as a total function;
two vectors are `equalTo` exactly when they have the same semantics
(theorem `equalTo_iff_sem` below). -/

/-- The `i`-th basic exponent, `0` out of range. -/
def semBase (d : Dimensions) (i : Nat) : Int := d.base.getD i 0

/-! ### List helper lemmas -/

theorem getD_zipWith_add :
    ∀ (a b : List Int), a.length = b.length →
      ∀ i, (List.zipWith (· + ·) a b).getD i 0 = a.getD i 0 + b.getD i 0 := by
  intro a
  induction a with
  | nil =>
    intro b h i
    cases b with
    | nil => simp [List.getD]
    | cons y ys => simp at h
  | cons x xs ih =>
    intro b h i
    cases b with
    | nil => simp at h
    | cons y ys =>
      cases i with
      | zero => simp [List.getD]
      | succ j =>
        simp only [List.zipWith_cons_cons, List.getD_cons_succ]
        exact ih ys (by simpa using h) j

theorem getD_map_hom (f : Int → Int) (hf : f 0 = 0) :
    ∀ (l : List Int) (i : Nat), (l.map f).getD i 0 = f (l.getD i 0) := by
  intro l
  induction l with
  | nil => intro i; simp [List.getD, hf]
  | cons x xs ih =>
    intro i
    cases i with
    | zero => simp [List.getD]
    | succ j => simpa [List.getD] using ih j

theorem getD_eq_zero_of_all_zero {l : List Int} (h : ∀ v ∈ l, v = 0) (i : Nat) :
    l.getD i 0 = 0 := by
  induction l generalizing i with
  | nil => simp [List.getD]
  | cons x xs ih =>
    cases i with
    | zero => simpa [List.getD] using h x (by simp)
    | succ j =>
      simp only [List.getD_cons_succ]
      exact ih (fun v hv => h v (by simp [hv])) j

theorem lookupPairs_map_names (names : List String) (f : String → Int) (m : String) :
    lookupPairs (names.map fun n => (n, f n)) m = if m ∈ names then f m else 0 := by
  induction names with
  | nil => simp [lookupPairs]
  | cons n rest ih =>
    by_cases h : n = m
    · subst h
      simp [lookupPairs, List.find?]
    · have hne : (n == m) = false := by simp [h]
      simp only [List.map_cons, lookupPairs, List.find?, hne]
      rw [show (((rest.map fun n => (n, f n)).find? fun p => p.1 == m).map Prod.snd).getD 0
            = lookupPairs (rest.map fun n => (n, f n)) m from rfl, ih]
      simp [List.mem_cons, (Ne.symm h : m ≠ n)]

theorem lookupPairs_eq_zero_of_not_mem {l : List (String × Int)} {m : String}
    (h : m ∉ l.map Prod.fst) : lookupPairs l m = 0 := by
  induction l with
  | nil => simp [lookupPairs]
  | cons p rest ih =>
    simp only [List.map_cons, List.mem_cons, not_or] at h
    have hne : (p.1 == m) = false := by simp [Ne.symm h.1]
    simp only [lookupPairs, List.find?, hne]
    exact ih h.2

theorem lookupPairs_map_pair (f : Int → Int) (hf : f 0 = 0) (l : List (String × Int)) (m : String) :
    lookupPairs (l.map fun p => (p.1, f p.2)) m = f (lookupPairs l m) := by
  induction l with
  | nil => simp [lookupPairs, hf]
  | cons p rest ih =>
    by_cases h : p.1 = m
    · simp [lookupPairs, List.find?, h]
    · have hne : (p.1 == m) = false := by simp [h]
      simp only [List.map_cons, lookupPairs, List.find?, hne]
      exact ih

theorem lookupPairs_eq_zero_of_all_zero {l : List (String × Int)}
    (h : ∀ p ∈ l, p.2 = (0 : Int)) (m : String) : lookupPairs l m = 0 := by
  induction l with
  | nil => simp [lookupPairs]
  | cons p rest ih =>
    rcases hb : (p.1 == m) with _ | _
    · simp only [lookupPairs, List.find?, hb]
      exact ih (fun q hq => h q (by simp [hq]))
    · simp only [lookupPairs, List.find?, hb]
      simpa using h p (by simp)

/-! ### Facts about the `Dimensions` operations -/

/-- The list of custom dimension names of a vector. -/
def namesOf (d : Dimensions) : List String := d.customs.map Prod.fst

theorem mem_combineCustomDimensionNames {x y : Dimensions} {n : String} :
    n ∈ combineCustomDimensionNames x y ↔ n ∈ namesOf x ∨ n ∈ namesOf y := by
  unfold combineCustomDimensionNames namesOf
  rw [mem_sortStr, List.mem_dedup, List.mem_append]

theorem nodup_combineCustomDimensionNames (x y : Dimensions) :
    (combineCustomDimensionNames x y).Nodup :=
  nodup_sortStr (List.nodup_dedup _)

theorem lookupCustom_eq_zero_of_not_mem {d : Dimensions} {n : String} (h : n ∉ namesOf d) :
    lookupCustom d n = 0 :=
  lookupPairs_eq_zero_of_not_mem h

theorem multiply_ok_semBase {x y z : Dimensions} (h : x.multiply y = .ok z)
    (hx : x.base.length = numBasicDimensions) (hy : y.base.length = numBasicDimensions) :
    ∀ i, semBase z i = semBase x i + semBase y i := by
  intro i
  unfold Dimensions.multiply at h
  split at h
  · cases h
    exact getD_zipWith_add x.base y.base (hx.trans hy.symm) i
  · split at h
    · cases h
    · cases h
      exact getD_zipWith_add x.base y.base (hx.trans hy.symm) i

theorem multiply_ok_base_length {x y z : Dimensions} (h : x.multiply y = .ok z)
    (hx : x.base.length = numBasicDimensions) (hy : y.base.length = numBasicDimensions) :
    z.base.length = numBasicDimensions := by
  unfold Dimensions.multiply at h
  split at h
  · cases h; simp [List.length_zipWith, hx, hy]
  · split at h
    · cases h
    · cases h; simp [List.length_zipWith, hx, hy]

theorem multiply_ok_lookupCustom {x y z : Dimensions} (h : x.multiply y = .ok z) :
    ∀ n, lookupCustom z n = lookupCustom x n + lookupCustom y n := by
  intro n
  unfold Dimensions.multiply at h
  split at h
  · rename_i hemp
    simp only [Bool.and_eq_true, List.isEmpty_iff] at hemp
    cases h
    show lookupPairs [] n = _
    rw [show lookupCustom x n = lookupPairs x.customs n from rfl,
        show lookupCustom y n = lookupPairs y.customs n from rfl, hemp.1, hemp.2]
    simp [lookupPairs]
  · split at h
    · cases h
    · cases h
      show lookupPairs ((combineCustomDimensionNames x y).map
        fun m => (m, lookupCustom x m + lookupCustom y m)) n = _
      rw [lookupPairs_map_names]
      by_cases hmem : n ∈ combineCustomDimensionNames x y
      · simp [hmem]
      · have hnx : n ∉ namesOf x := fun hc =>
          hmem (mem_combineCustomDimensionNames.mpr (Or.inl hc))
        have hny : n ∉ namesOf y := fun hc =>
          hmem (mem_combineCustomDimensionNames.mpr (Or.inr hc))
        simp [hmem, lookupCustom_eq_zero_of_not_mem hnx, lookupCustom_eq_zero_of_not_mem hny]

theorem map_fst_map_pair (l : List String) (f : String → Int) :
    (l.map fun n => (n, f n)).map Prod.fst = l := by
  induction l with
  | nil => rfl
  | cons a rest ih => simp [ih]

theorem multiply_ok_mem_names {x y z : Dimensions} (h : x.multiply y = .ok z) :
    ∀ n, n ∈ namesOf z ↔ n ∈ namesOf x ∨ n ∈ namesOf y := by
  intro n
  unfold Dimensions.multiply at h
  split at h
  · rename_i hemp
    simp only [Bool.and_eq_true, List.isEmpty_iff] at hemp
    cases h
    simp [namesOf, hemp.1, hemp.2]
  · split at h
    · cases h
    · cases h
      show n ∈ ((combineCustomDimensionNames x y).map
        fun m => (m, lookupCustom x m + lookupCustom y m)).map Prod.fst ↔ _
      rw [map_fst_map_pair]
      exact mem_combineCustomDimensionNames

theorem multiply_ok_names_nodup {x y z : Dimensions} (h : x.multiply y = .ok z) :
    (namesOf z).Nodup := by
  unfold Dimensions.multiply at h
  split at h
  · cases h; simp [namesOf]
  · split at h
    · cases h
    · cases h
      show (((combineCustomDimensionNames x y).map
        fun m => (m, lookupCustom x m + lookupCustom y m)).map Prod.fst).Nodup
      rw [map_fst_map_pair]
      exact nodup_combineCustomDimensionNames x y

theorem multiply_ok_customs_le4 {x y z : Dimensions} (h : x.multiply y = .ok z) :
    z.customs.length ≤ 4 := by
  unfold Dimensions.multiply at h
  split at h
  · cases h; simp
  · split at h
    · cases h
    · rename_i hlen
      cases h
      simpa using Nat.le_of_not_lt hlen

theorem invert_semBase (d : Dimensions) (i : Nat) : semBase d.invert i = -(semBase d i) :=
  getD_map_hom (fun v => -v) (by simp) d.base i

theorem invert_lookupCustom (d : Dimensions) (n : String) :
    lookupCustom d.invert n = -(lookupCustom d n) :=
  lookupPairs_map_pair (fun v => -v) (by simp) d.customs n

theorem invert_namesOf (d : Dimensions) : namesOf d.invert = namesOf d := by
  unfold namesOf Dimensions.invert
  rw [List.map_map]
  rfl

theorem pow_semBase (d : Dimensions) (n : Int) (i : Nat) :
    semBase (d.pow n) i = (semBase d i) * n := by
  unfold Dimensions.pow
  by_cases h : n = 0
  · subst h
    simp only [beq_self_eq_true, if_true]
    show (Dimensionless.base).getD i 0 = _
    unfold Dimensionless
    rw [getD_eq_zero_of_all_zero (fun v hv => List.eq_of_mem_replicate hv)]
    simp
  · have hb : (n == 0) = false := by simpa using h
    rw [hb]
    simp only [Bool.false_eq_true, if_false]
    exact getD_map_hom (fun v => v * n) (by simp) d.base i

theorem pow_lookupCustom (d : Dimensions) (n : Int) (m : String) :
    lookupCustom (d.pow n) m = (lookupCustom d m) * n := by
  unfold Dimensions.pow
  by_cases h : n = 0
  · subst h
    simp only [beq_self_eq_true, if_true]
    show lookupPairs [] m = _
    simp [lookupPairs]
  · have hb : (n == 0) = false := by simpa using h
    rw [hb]
    simp only [Bool.false_eq_true, if_false]
    exact lookupPairs_map_pair (fun v => v * n) (by simp) d.customs m

theorem pow_namesOf_subset (d : Dimensions) (n : Int) : namesOf (d.pow n) ⊆ namesOf d := by
  unfold Dimensions.pow
  by_cases h : n = 0
  · subst h
    simp only [beq_self_eq_true, if_true]
    intro a ha
    simp [namesOf, Dimensionless] at ha
  · have hb : (n == 0) = false := by simpa using h
    rw [hb]
    simp only [Bool.false_eq_true, if_false]
    intro a ha
    simp only [namesOf, List.map_map] at ha ⊢
    simpa using ha

theorem dimensionality_zero_semBase {d : Dimensions} (h : d.dimensionality = 0) :
    ∀ i, semBase d i = 0 := by
  intro i
  unfold Dimensions.dimensionality at h
  have hb : (d.base.map Int.natAbs).sum = 0 := by omega
  refine getD_eq_zero_of_all_zero ?_ i
  intro v hv
  have hmem : v.natAbs ∈ d.base.map Int.natAbs := List.mem_map_of_mem Int.natAbs hv
  have hz : v.natAbs = 0 := List.sum_eq_zero_iff.mp hb _ hmem
  omega

theorem dimensionality_zero_lookupCustom {d : Dimensions} (h : d.dimensionality = 0) :
    ∀ n, lookupCustom d n = 0 := by
  intro n
  unfold Dimensions.dimensionality at h
  have hc : (d.customs.map fun p => p.2.natAbs).sum = 0 := by omega
  refine lookupPairs_eq_zero_of_all_zero ?_ n
  intro p hp
  have hmem : p.2.natAbs ∈ d.customs.map fun p => p.2.natAbs :=
    List.mem_map_of_mem (fun p => p.2.natAbs) hp
  have hz : p.2.natAbs = 0 := List.sum_eq_zero_iff.mp hc _ hmem
  omega

theorem equalTo_iff_sem {x y : Dimensions}
    (hx : x.base.length = numBasicDimensions) (hy : y.base.length = numBasicDimensions) :
    x.equalTo y = true ↔
      (∀ i, semBase x i = semBase y i) ∧ (∀ n, lookupCustom x n = lookupCustom y n) := by
  unfold Dimensions.equalTo
  rw [Bool.and_eq_true]
  constructor
  · rintro ⟨hbase, hcust⟩
    constructor
    · intro i
      by_cases hi : i < numBasicDimensions
      · have := List.all_eq_true.mp hbase i (List.mem_range.mpr hi)
        simpa [semBase] using this
      · have hxz : semBase x i = 0 := by
          unfold semBase
          rw [List.getD_eq_default]
          omega
        have hyz : semBase y i = 0 := by
          unfold semBase
          rw [List.getD_eq_default]
          omega
        rw [hxz, hyz]
    · intro n
      split at hcust
      · rename_i hemp
        simp only [Bool.and_eq_true, List.isEmpty_iff] at hemp
        rw [show lookupCustom x n = lookupPairs x.customs n from rfl,
            show lookupCustom y n = lookupPairs y.customs n from rfl, hemp.1, hemp.2]
      · by_cases hmem : n ∈ combineCustomDimensionNames x y
        · have := List.all_eq_true.mp hcust n hmem
          simpa using this
        · have hnx : n ∉ namesOf x := fun hc =>
            hmem (mem_combineCustomDimensionNames.mpr (Or.inl hc))
          have hny : n ∉ namesOf y := fun hc =>
            hmem (mem_combineCustomDimensionNames.mpr (Or.inr hc))
          rw [lookupCustom_eq_zero_of_not_mem hnx, lookupCustom_eq_zero_of_not_mem hny]
  · rintro ⟨hbase, hcust⟩
    constructor
    · refine List.all_eq_true.mpr ?_
      intro i _
      simpa [semBase] using hbase i
    · split
      · rfl
      · refine List.all_eq_true.mpr ?_
        intro n _
        simpa using hcust n

end QuantityMath
namespace QuantityMath

theorem eq_zero_of_getD_eq_zero :
    ∀ (l : List Int), (∀ i, l.getD i 0 = 0) → ∀ v ∈ l, v = 0 := by
  intro l
  induction l with
  | nil => intro _ v hv; simp at hv
  | cons x xs ih =>
    intro h v hv
    rcases List.mem_cons.mp hv with hv | hv
    · subst hv; simpa [List.getD] using h 0
    · exact ih (fun i => by simpa [List.getD] using h (i + 1)) v hv

theorem lookupPairs_of_mem_nodup :
    ∀ {l : List (String × Int)}, (l.map Prod.fst).Nodup →
      ∀ p ∈ l, lookupPairs l p.1 = p.2 := by
  intro l
  induction l with
  | nil => intro _ p hp; simp at hp
  | cons q rest ih =>
    intro hnd p hp
    simp only [List.map_cons, List.nodup_cons] at hnd
    rcases List.mem_cons.mp hp with hp | hp
    · subst hp
      simp [lookupPairs, List.find?]
    · have hne : q.1 ≠ p.1 := by
        intro he
        exact hnd.1 (he ▸ List.mem_map_of_mem Prod.fst hp)
      have hb : (q.1 == p.1) = false := by simpa using hne
      simp only [lookupPairs, List.find?, hb]
      exact ih hnd.2 p hp

theorem eq_snd_zero_of_lookup_zero {l : List (String × Int)}
    (hnd : (l.map Prod.fst).Nodup) (h : ∀ n, lookupPairs l n = 0) :
    ∀ p ∈ l, p.2 = (0 : Int) := by
  intro p hp
  rw [← lookupPairs_of_mem_nodup hnd p hp]
  exact h p.1

theorem dimensionality_eq_zero_of {d : Dimensions}
    (hb : ∀ v ∈ d.base, v = (0 : Int)) (hc : ∀ p ∈ d.customs, p.2 = (0 : Int)) :
    d.dimensionality = 0 := by
  unfold Dimensions.dimensionality
  have h1 : (d.base.map Int.natAbs).sum = 0 := by
    refine List.sum_eq_zero_iff.mpr ?_
    intro v hv
    rcases List.mem_map.mp hv with ⟨w, hw, hww⟩
    rw [← hww, hb w hw]
    rfl
  have h2 : (d.customs.map fun p => p.2.natAbs).sum = 0 := by
    refine List.sum_eq_zero_iff.mpr ?_
    intro v hv
    rcases List.mem_map.mp hv with ⟨w, hw, hww⟩
    rw [← hww, hc w hw]
    rfl
  omega

theorem combine_comm_perm (x y : Dimensions) :
    (combineCustomDimensionNames x y).Perm (combineCustomDimensionNames y x) := by
  have h1 : (combineCustomDimensionNames x y).Nodup := nodup_combineCustomDimensionNames x y
  have h2 : (combineCustomDimensionNames y x).Nodup := nodup_combineCustomDimensionNames y x
  refine (List.perm_ext_iff_of_nodup h1 h2).mpr ?_
  intro a
  rw [mem_combineCustomDimensionNames, mem_combineCustomDimensionNames]
  exact or_comm

theorem combine_self_invert_perm (a : Dimensions) (hnd : (namesOf a).Nodup) :
    (combineCustomDimensionNames a a.invert).Perm (namesOf a) := by
  have h1 : (combineCustomDimensionNames a a.invert).Nodup :=
    nodup_combineCustomDimensionNames a a.invert
  refine (List.perm_ext_iff_of_nodup h1 hnd).mpr ?_
  intro n
  rw [mem_combineCustomDimensionNames, invert_namesOf]
  exact or_self_iff

end QuantityMath
namespace QuantityMath

/-- C6: For every two valid dimension vectors `a` and `b`, `equalTo` returns
`true` if and only if all 9 base exponents match and, over the union of both
vectors' custom dimension names, the exponent recorded for each name matches,
an absent name being treated as exponent 0.  (In particular — see the witness
— a vector carrying an explicit custom exponent 0 for a name `foo` is
`equalTo` an otherwise-identical vector that omits `foo` entirely.) -/
theorem C6_equalTo_iff_base_and_custom_match (x y : Dimensions)
    (hx : x.Valid) (hy : y.Valid) :
    x.equalTo y = true ↔
      ((∀ i < numBasicDimensions, semBase x i = semBase y i) ∧
        ∀ n ∈ combineCustomDimensionNames x y, lookupCustom x n = lookupCustom y n) := by
  rw [equalTo_iff_sem hx.1 hy.1]
  constructor
  · rintro ⟨hb, hc⟩
    exact ⟨fun i _ => hb i, fun n _ => hc n⟩
  · rintro ⟨hb, hc⟩
    constructor
    · intro i
      by_cases hi : i < numBasicDimensions
      · exact hb i hi
      · have hxz : semBase x i = 0 := by
          unfold semBase
          rw [List.getD_eq_default]
          rw [hx.1]; omega
        have hyz : semBase y i = 0 := by
          unfold semBase
          rw [List.getD_eq_default]
          rw [hy.1]; omega
        rw [hxz, hyz]
    · intro n
      by_cases hmem : n ∈ combineCustomDimensionNames x y
      · exact hc n hmem
      · have hnx : n ∉ namesOf x := fun hcn =>
          hmem (mem_combineCustomDimensionNames.mpr (Or.inl hcn))
        have hny : n ∉ namesOf y := fun hcn =>
          hmem (mem_combineCustomDimensionNames.mpr (Or.inr hcn))
        rw [lookupCustom_eq_zero_of_not_mem hnx, lookupCustom_eq_zero_of_not_mem hny]

/-- C6 witness: `[0,1,0,0,0,0,0,0,0, foo:0]` is `equalTo` `[0,1,0,0,0,0,0,0,0]`,
obtained by applying `C6_equalTo_iff_base_and_custom_match` at this concrete
pair. -/
theorem C6_equalTo_iff_base_and_custom_match_witness :
    (Dimensions.mk [0, 1, 0, 0, 0, 0, 0, 0, 0] [("foo", 0)]).Valid ∧
      (Dimensions.mk [0, 1, 0, 0, 0, 0, 0, 0, 0] []).Valid ∧
      (Dimensions.mk [0, 1, 0, 0, 0, 0, 0, 0, 0] [("foo", 0)]).equalTo
          (Dimensions.mk [0, 1, 0, 0, 0, 0, 0, 0, 0] []) = true :=
  ⟨by decide, by decide,
    (C6_equalTo_iff_base_and_custom_match _ _ (by decide) (by decide)).mpr
      (by constructor <;> decide)⟩

/-- C7: For every two valid dimension vectors `a` and `b` whose union of
custom dimension names has at most 4 entries, `a.multiply(b)` and
`b.multiply(a)` both succeed and are `equalTo` each other, and for every
valid vector `a`, `a.multiply(a.invert())` succeeds and is dimensionless. -/
theorem C7_multiply_comm_and_invert_dimensionless (a b : Dimensions)
    (ha : a.Valid) (hb : b.Valid)
    (hu : (combineCustomDimensionNames a b).length ≤ 4) :
    (∃ c1 c2, a.multiply b = .ok c1 ∧ b.multiply a = .ok c2 ∧ c1.equalTo c2 = true) ∧
      (∃ c, a.multiply a.invert = .ok c ∧ c.isDimensionless = true) := by
  have hlen_ba : (combineCustomDimensionNames b a).length ≤ 4 :=
    le_trans (le_of_eq (combine_comm_perm b a).length_eq) hu
  have hnd_a : (namesOf a).Nodup := namesStrictSorted_nodup ha.2.1
  constructor
  · -- commutativity
    have hok1 : ∃ c1, a.multiply b = .ok c1 := by
      unfold Dimensions.multiply
      split
      · exact ⟨_, rfl⟩
      · rw [if_neg (by omega)]
        exact ⟨_, rfl⟩
    have hok2 : ∃ c2, b.multiply a = .ok c2 := by
      unfold Dimensions.multiply
      split
      · exact ⟨_, rfl⟩
      · rw [if_neg (by omega)]
        exact ⟨_, rfl⟩
    rcases hok1 with ⟨c1, hc1⟩
    rcases hok2 with ⟨c2, hc2⟩
    refine ⟨c1, c2, hc1, hc2, ?_⟩
    rw [equalTo_iff_sem (multiply_ok_base_length hc1 ha.1 hb.1)
      (multiply_ok_base_length hc2 hb.1 ha.1)]
    constructor
    · intro i
      rw [multiply_ok_semBase hc1 ha.1 hb.1 i, multiply_ok_semBase hc2 hb.1 ha.1 i]
      ring
    · intro n
      rw [multiply_ok_lookupCustom hc1 n, multiply_ok_lookupCustom hc2 n]
      ring
  · -- a ⬝ a⁻¹ is dimensionless
    have hlen : (combineCustomDimensionNames a a.invert).length ≤ 4 := by
      rw [(combine_self_invert_perm a hnd_a).length_eq]
      have h1 : (namesOf a).length = a.customs.length := by simp [namesOf]
      have h4 := ha.2.2
      omega
    have hok : ∃ c, a.multiply a.invert = .ok c := by
      unfold Dimensions.multiply
      split
      · exact ⟨_, rfl⟩
      · rw [if_neg (by omega)]
        exact ⟨_, rfl⟩
    rcases hok with ⟨c, hc⟩
    refine ⟨c, hc, ?_⟩
    have hblen : (a.invert).base.length = numBasicDimensions := by
      unfold Dimensions.invert
      simpa using ha.1
    have hbz : ∀ v ∈ c.base, v = (0 : Int) := by
      refine eq_zero_of_getD_eq_zero c.base ?_
      intro i
      have := multiply_ok_semBase hc ha.1 hblen i
      rw [invert_semBase] at this
      unfold semBase at this
      omega
    have hcz : ∀ p ∈ c.customs, p.2 = (0 : Int) := by
      refine eq_snd_zero_of_lookup_zero (multiply_ok_names_nodup hc) ?_
      intro n
      have := multiply_ok_lookupCustom hc n
      rw [invert_lookupCustom] at this
      show lookupPairs c.customs n = 0
      rw [show lookupPairs c.customs n = lookupCustom c n from rfl, this]
      ring
    unfold Dimensions.isDimensionless
    rw [dimensionality_eq_zero_of hbz hcz]
    rfl

/-- C7 witness: applying `C7_multiply_comm_and_invert_dimensionless` to the
concrete vectors `[0,0,-1,…, direction:-1, pax:1]` (the dimensions of
`pphpd`) and `[1,0,…, pax:1]`. -/
theorem C7_multiply_comm_and_invert_dimensionless_witness :
    (Dimensions.mk [0, 0, -1, 0, 0, 0, 0, 0, 0] [("direction", -1), ("pax", 1)]).Valid ∧
      (Dimensions.mk [1, 0, 0, 0, 0, 0, 0, 0, 0] [("pax", 1)]).Valid ∧
      (combineCustomDimensionNames
          (Dimensions.mk [0, 0, -1, 0, 0, 0, 0, 0, 0] [("direction", -1), ("pax", 1)])
          (Dimensions.mk [1, 0, 0, 0, 0, 0, 0, 0, 0] [("pax", 1)])).length ≤ 4 ∧
      ((∃ c1 c2,
          (Dimensions.mk [0, 0, -1, 0, 0, 0, 0, 0, 0]
              [("direction", -1), ("pax", 1)]).multiply
            (Dimensions.mk [1, 0, 0, 0, 0, 0, 0, 0, 0] [("pax", 1)]) = .ok c1 ∧
          (Dimensions.mk [1, 0, 0, 0, 0, 0, 0, 0, 0] [("pax", 1)]).multiply
            (Dimensions.mk [0, 0, -1, 0, 0, 0, 0, 0, 0]
              [("direction", -1), ("pax", 1)]) = .ok c2 ∧
          c1.equalTo c2 = true) ∧
        (∃ c,
          (Dimensions.mk [0, 0, -1, 0, 0, 0, 0, 0, 0]
              [("direction", -1), ("pax", 1)]).multiply
            (Dimensions.mk [0, 0, -1, 0, 0, 0, 0, 0, 0]
              [("direction", -1), ("pax", 1)]).invert = .ok c ∧
          c.isDimensionless = true)) :=
  ⟨by decide, by decide, by decide,
    C7_multiply_comm_and_invert_dimensionless _ _ (by decide) (by decide) (by decide)⟩

end QuantityMath
namespace QuantityMath

/-! ## The unit registry (`units.ts`)

Scales are the source's decimal literals read exactly as rationals.  The
dimension arrays of the registry follow the current 9-slot layout (the
ninth, angle, slot is 0 for every built-in unit). -/

/-- A unit definition: scale to base units, dimensions, optional affine
offset, and whether metric prefixes may be attached (interface `Unit` in
`units.ts`). -/
structure UnitData where
  s : ℚ
  d : Dimensions
  offset : Option ℚ
  prefixable : Bool
deriving DecidableEq

/-- The SI/binary magnitude prefix table (`prefixes` in `units.ts`). -/
def prefixFactor : String → Option ℚ
  | "y" => some 1e-24
  | "z" => some 1e-21
  | "a" => some 1e-18
  | "f" => some 1e-15
  | "p" => some 1e-12
  | "n" => some 1e-9
  | "u" => some 1e-6
  | "m" => some 1e-3
  | "c" => some 1e-2
  | "d" => some 1e-1
  | "da" => some 1e1
  | "h" => some 1e2
  | "k" => some 1e3
  | "M" => some 1e6
  | "G" => some 1e9
  | "T" => some 1e12
  | "P" => some 1e15
  | "E" => some 1e18
  | "Z" => some 1e21
  | "Y" => some 1e24
  | "Ki" => some 1.024e3
  | "Mi" => some 1.048576e6
  | "Gi" => some 1.073741824e9
  | "Ti" => some 1.099511627776e12
  | "Pi" => some 1.125899906842624e15
  | "Ei" => some 1.152921504606847e18
  | "Zi" => some 1.1805916207174113e21
  | "Yi" => some 1.2089258196146292e24
  | _ => none

/-- Dimension-vector constants used by the registry (`MASS_DIMENSION` etc.
in `units.ts`). -/
def MASS_DIMENSION : Dimensions := ⟨[1, 0, 0, 0, 0, 0, 0, 0, 0], []⟩

/-- Distance dimension. -/
def DIST_DIMENSION : Dimensions := ⟨[0, 1, 0, 0, 0, 0, 0, 0, 0], []⟩

/-- Time dimension. -/
def TIME_DIMENSION : Dimensions := ⟨[0, 0, 1, 0, 0, 0, 0, 0, 0], []⟩

/-- Temperature dimension. -/
def TEMP_DIMENSION : Dimensions := ⟨[0, 0, 0, 1, 0, 0, 0, 0, 0], []⟩

/-- Energy dimensions. -/
def NRGY_DIMENSIONS : Dimensions := ⟨[1, 2, -2, 0, 0, 0, 0, 0, 0], []⟩

/-- Power dimensions. -/
def POWR_DIMENSIONS : Dimensions := ⟨[1, 2, -3, 0, 0, 0, 0, 0, 0], []⟩

/-- Volume dimensions. -/
def VOLM_DIMENSIONS : Dimensions := ⟨[0, 3, 0, 0, 0, 0, 0, 0, 0], []⟩

/-- The built-in unit table (`builtInUnits` in `units.ts`; the
commented-out entries of the source are omitted, as they are there). -/
def builtInUnits : String → Option UnitData
  | "%" => some ⟨1e-2, Dimensionless, none, false⟩
  | "ppm" => some ⟨1e-6, Dimensionless, none, false⟩
  | "g" => some ⟨1e-3, MASS_DIMENSION, none, true⟩
  | "lb" => some ⟨4.5359237e-1, MASS_DIMENSION, none, false⟩
  | "m" => some ⟨1e0, DIST_DIMENSION, none, true⟩
  | "in" => some ⟨2.54e-2, DIST_DIMENSION, none, false⟩
  | "ft" => some ⟨3.048e-1, DIST_DIMENSION, none, false⟩
  | "s" => some ⟨1e0, TIME_DIMENSION, none, true⟩
  | "min" => some ⟨6e1, TIME_DIMENSION, none, false⟩
  | "h" => some ⟨3.6e3, TIME_DIMENSION, none, false⟩
  | "day" => some ⟨8.64e4, TIME_DIMENSION, none, false⟩
  | "week" => some ⟨6.048e5, TIME_DIMENSION, none, false⟩
  | "yr" => some ⟨3.1536e7, TIME_DIMENSION, none, false⟩
  | "ka" => some ⟨3.1536e10, TIME_DIMENSION, none, false⟩
  | "Ma" => some ⟨3.1536e13, TIME_DIMENSION, none, false⟩
  | "Ga" => some ⟨3.1536e16, TIME_DIMENSION, none, false⟩
  | "K" => some ⟨1e0, TEMP_DIMENSION, none, true⟩
  | "deltaC" => some ⟨1e0, TEMP_DIMENSION, none, false⟩
  | "degF" => some ⟨5.555555555555556e-1, TEMP_DIMENSION, some 2.553722222222222e2, false⟩
  | "degC" => some ⟨1e0, TEMP_DIMENSION, some 2.7315e2, false⟩
  | "c" => some ⟨2.99792458e8, ⟨[0, 1, -1, 0, 0, 0, 0, 0, 0], []⟩, none, false⟩
  | "N" => some ⟨1e0, ⟨[1, 1, -2, 0, 0, 0, 0, 0, 0], []⟩, none, true⟩
  | "J" => some ⟨1e0, NRGY_DIMENSIONS, none, true⟩
  | "Wh" => some ⟨3.6e3, NRGY_DIMENSIONS, none, true⟩
  | "W" => some ⟨1e0, POWR_DIMENSIONS, none, true⟩
  | "HP" => some ⟨7.4569987158227e2, POWR_DIMENSIONS, none, false⟩
  | "L" => some ⟨1e-3, VOLM_DIMENSIONS, none, true⟩
  | "pphpd" =>
      some ⟨1 / 3600, ⟨[0, 0, -1, 0, 0, 0, 0, 0, 0], [("direction", -1), ("pax", 1)]⟩,
        none, false⟩
  | _ => none

/-- Modelled from the spec: `getUnitData` of the current `units.ts` (the
registry-lookup helper imported by `quantity.ts`; the file defining it is
not among the provided sources).  Per §4.2/§4.3 of the specification and
the README, a symbol is resolved against the built-in registry, and any
symbol starting with `_` is an ad hoc custom unit of scale 1 carrying one
custom dimension named after the token itself; any other symbol is an
error. -/
def getUnitData (u : String) : Except QuantityError UnitData :=
  match builtInUnits u with
  | some ud => .ok ud
  | none =>
    if u.data.head? = some '_' then
      .ok ⟨1, ⟨List.replicate numBasicDimensions 0, [(u, 1)]⟩, none, false⟩
    else
      .error (.quantityError ("Unknown/unsupported unit \"" ++ u ++ "\""))

theorem getUnitData_valid {u : String} {ud : UnitData} (h : getUnitData u = .ok ud) :
    ud.d.Valid := by
  unfold getUnitData at h
  rcases hb : builtInUnits u with _ | v
  · rw [hb] at h
    by_cases hc : u.data.head? = some '_'
    · rw [if_pos hc] at h
      cases h
      exact ⟨by simp [numBasicDimensions], rfl, by simp⟩
    · rw [if_neg hc] at h
      cases h
  · rw [hb] at h
    cases h
    revert hb
    unfold builtInUnits
    split <;> intro hb <;> first
      | (cases hb; decide)
      | (cases hb)

end QuantityMath
namespace QuantityMath

/-! ## Parsing unit strings (`parseSingleUnit` / `parseUnits` in `units.ts`) -/

/-- Whitespace as matched by the JavaScript `\s` character class (used by
the separator pattern `/\s+|⋅/` and trimmed by `Number(...)`): space, the
control whitespace `\t\n\v\f\r`, and the Unicode space separators. -/
def isSpaceChar (c : Char) : Bool :=
  c.toNat = 32 ∨ (9 ≤ c.toNat ∧ c.toNat ≤ 13) ∨ c.toNat = 160 ∨ c.toNat = 5760 ∨
    (8192 ≤ c.toNat ∧ c.toNat ≤ 8202) ∨ c.toNat = 8232 ∨ c.toNat = 8233 ∨
    c.toNat = 8239 ∨ c.toNat = 8287 ∨ c.toNat = 12288 ∨ c.toNat = 65279

/-- Remove leading and trailing whitespace (`String.prototype.trim`, and
the whitespace stripping of `Number(...)`). -/
def trimChars (l : List Char) : List Char :=
  ((l.dropWhile isSpaceChar).reverse.dropWhile isSpaceChar).reverse

/-- Is `c` an ASCII decimal digit? -/
def isDigitChar (c : Char) : Bool := 48 ≤ c.toNat && c.toNat ≤ 57

/-- The numeric value of a string of decimal digits (most significant
first). -/
def digitsToNat (l : List Char) : Nat :=
  l.foldl (fun acc c => acc * 10 + (c.toNat - 48)) 0

/-- The value of a decimal literal with integer digits `ip`, fraction
digits `fp` and decimal exponent `ex`. -/
def decValue (ip fp : List Char) (ex : Int) : ℚ :=
  ((digitsToNat ip : ℚ) + (digitsToNat fp : ℚ) / (10 : ℚ) ^ fp.length) * (10 : ℚ) ^ ex

/-- Parse the exponent part of a decimal literal (after the `e`/`E`):
an optional sign followed by at least one digit. -/
def parseExpPart (l : List Char) : Option Int :=
  match l with
  | '+' :: r => if r ≠ [] ∧ r.all isDigitChar then some (digitsToNat r) else none
  | '-' :: r => if r ≠ [] ∧ r.all isDigitChar then some (-(digitsToNat r : Int)) else none
  | r => if r ≠ [] ∧ r.all isDigitChar then some (digitsToNat r) else none

/-- Parse an unsigned decimal literal: `digits`, `digits.digits`,
`digits.`, `.digits`, optionally followed by `e`/`E` and an exponent. -/
def parseUnsigned (l : List Char) : Option ℚ :=
  let ip := l.takeWhile isDigitChar
  let rest := l.dropWhile isDigitChar
  match rest with
  | [] => if ip = [] then none else some (digitsToNat ip : ℚ)
  | c :: r2 =>
    if c = '.' then
      let fp := r2.takeWhile isDigitChar
      let rest2 := r2.dropWhile isDigitChar
      if ip = [] ∧ fp = [] then none
      else
        match rest2 with
        | [] => some (decValue ip fp 0)
        | c2 :: r3 =>
          if c2 = 'e' ∨ c2 = 'E' then (parseExpPart r3).map fun ex => decValue ip fp ex
          else none
    else if c = 'e' ∨ c = 'E' then
      if ip = [] then none else (parseExpPart r2).map fun ex => decValue ip [] ex
    else none

/-- The value of one hexadecimal digit character (`0`-`9`, `a`-`f`,
`A`-`F`); decimal, octal and binary digits are a subset. -/
def hexVal (c : Char) : Option Nat :=
  if 48 ≤ c.toNat ∧ c.toNat ≤ 57 then some (c.toNat - 48)
  else if 97 ≤ c.toNat ∧ c.toNat ≤ 102 then some (c.toNat - 87)
  else if 65 ≤ c.toNat ∧ c.toNat ≤ 70 then some (c.toNat - 55)
  else none

/-- Is `c` a digit of the given radix (2, 8 or 16)? -/
def isRadixDigit (radix : Nat) (c : Char) : Bool :=
  match hexVal c with
  | some v => v < radix
  | none => false

/-- The numeric value of a digit string in the given radix (most
significant digit first). -/
def radixToNat (radix : Nat) (l : List Char) : Nat :=
  l.foldl (fun acc c => acc * radix + (hexVal c).getD 0) 0

/-- The value of the body of a `0x`/`0o`/`0b` literal: `none` (`NaN`) when
the body is empty or contains a character that is not a digit of the
radix. -/
def radixValue (radix : Nat) (l : List Char) : Option Nat :=
  if l ≠ [] ∧ l.all (isRadixDigit radix) then some (radixToNat radix l) else none

/-- Models the JavaScript `Number(...)` conversion as used on exponent
strings.  Surrounding whitespace is trimmed and the empty (or
all-whitespace) string converts to `0`; a `0x`/`0X`, `0o`/`0O` or
`0b`/`0B` prefix introduces an unsigned hexadecimal, octal or binary
integer; otherwise an optional sign is followed by a decimal literal
(digits with optional fraction and `e`/`E` exponent); anything else is
`none`.  `none` stands for a result that fails `Number.isInteger` and has
no exact rational value — `NaN`, and also `±Infinity` (`"Infinity"`
parses to neither branch), whose only use in `parseSingleUnit` is that
same integer test.  Values are exact rationals: IEEE-754 rounding and
overflow are not modelled, so theorems about numeric forms bound their
digit counts to ranges where the `double` result provably agrees
(integers below `2^53` are exact, and with `i` integer digits and `f`
fraction digits, `i + f ≤ 15`, the value is at least `10^(-f) > 2^(-53)
· 10^i` away from every integer, farther than rounding can move it). -/
def jsNumber (l0 : List Char) : Option ℚ :=
  match trimChars l0 with
  | [] => some 0
  | c :: r =>
    if c = '0' then
      match r with
      | [] => some 0
      | x :: r2 =>
        if x = 'x' ∨ x = 'X' then (radixValue 16 r2).map (Nat.cast : Nat → ℚ)
        else if x = 'o' ∨ x = 'O' then (radixValue 8 r2).map (Nat.cast : Nat → ℚ)
        else if x = 'b' ∨ x = 'B' then (radixValue 2 r2).map (Nat.cast : Nat → ℚ)
        else parseUnsigned (c :: r)
    else if c = '-' then (parseUnsigned r).map fun q => -q
    else if c = '+' then parseUnsigned r
    else parseUnsigned (c :: r)

/-- The message of the invalid-exponent error of `parseSingleUnit`. -/
def invalidExponentMsg (tok : String) : String :=
  "Invalid exponent/power on unit \"" ++ tok ++ "\""

/-- The message of the unknown-unit error of `parseSingleUnit`. -/
def unableToParseMsg (tok : String) : String :=
  "Unable to parse the unit \"" ++ tok ++ "\""

/-- Is this unit symbol in the registry with the `prefixable` flag set?
(`units[rest]?.prefixable`). -/
def prefixableUnit (u : String) : Bool :=
  match builtInUnits u with
  | some ud => ud.prefixable
  | none => false

/-- Resolve the unit part of a token (the part before any `^`): an exact
registry match is used as-is; a `_`-prefixed symbol is an ad hoc custom
unit (modelled from the spec, §4.3 step 4b, like `getUnitData`); otherwise
a 1- or 2-character magnitude prefix is stripped and the remainder must be
a prefixable registry unit; otherwise parsing fails. -/
def resolvePrefixedUnit (full : String) (prefixedUnit : String) (power : Int) :
    Except QuantityError ParsedUnit :=
  match builtInUnits prefixedUnit with
  | some _ => .ok ⟨none, prefixedUnit, power⟩
  | none =>
    if prefixedUnit.data.head? = some '_' then .ok ⟨none, prefixedUnit, power⟩
    else
      match prefixedUnit.data with
      | [] => .error (.quantityError (unableToParseMsg full))
      | c1 :: rest1 =>
        if (prefixFactor (String.mk [c1])).isSome ∧ prefixableUnit (String.mk rest1) then
          .ok ⟨some (String.mk [c1]), String.mk rest1, power⟩
        else
          match rest1 with
          | [] => .error (.quantityError (unableToParseMsg full))
          | c2 :: rest2 =>
            if (prefixFactor (String.mk [c1, c2])).isSome ∧
                prefixableUnit (String.mk rest2) then
              .ok ⟨some (String.mk [c1, c2]), String.mk rest2, power⟩
            else .error (.quantityError (unableToParseMsg full))

/-- Parse a single unit token, e.g. `km^2` (function `parseSingleUnit` in
`units.ts`): split at the first `^`; the exponent's `Number(...)` value
must be an integer other than 0 (`power === 0 || !Number.isInteger(power)`
throws the invalid-exponent error); then resolve the prefixed unit. -/
def parseSingleUnit (unitStr : String) : Except QuantityError ParsedUnit :=
  let chars := unitStr.data
  let pre := chars.takeWhile (fun c => c ≠ '^')
  let rest := chars.dropWhile (fun c => c ≠ '^')
  match rest with
  | [] => resolvePrefixedUnit unitStr (String.mk pre) 1
  | _ :: powChars =>
    match jsNumber powChars with
    | none => .error (.quantityError (invalidExponentMsg unitStr))
    | some q =>
      if q = 0 ∨ q.den ≠ 1 then .error (.quantityError (invalidExponentMsg unitStr))
      else resolvePrefixedUnit unitStr (String.mk pre) q.num

theorem length_dropWhile_le (p : Char → Bool) (l : List Char) :
    (l.dropWhile p).length ≤ l.length := by
  induction l with
  | nil => simp
  | cons c r ih =>
    by_cases h : p c = true
    · simp only [List.dropWhile, h]
      simp only [List.length_cons]
      omega
    · simp [List.dropWhile, h]

/-- Split a character list into the segments separated by the JavaScript
regular expression `/\s+|⋅/` (a maximal whitespace run or a single `⋅`);
adjacent separators produce empty segments exactly as `String.split`
does. -/
def splitTokens : List Char → List (List Char)
  | [] => [[]]
  | c :: r =>
    if isSpaceChar c then [] :: splitTokens (r.dropWhile isSpaceChar)
    else if c = '⋅' then [] :: splitTokens r
    else
      match splitTokens r with
      | h :: t => (c :: h) :: t
      | [] => [[c]]
termination_by l => l.length
decreasing_by
  · simp only [List.length_cons]
    exact Nat.lt_succ_of_le (length_dropWhile_le _ _)
  · simp only [List.length_cons]
    exact Nat.lt_succ_self _
  · simp only [List.length_cons]
    exact Nat.lt_succ_self _

/-- Split a character list on a separator character (JavaScript
`String.prototype.split` with a single-character separator). -/
def splitOnChar (sep : Char) : List Char → List (List Char)
  | [] => [[]]
  | c :: r =>
    if c = sep then [] :: splitOnChar sep r
    else
      match splitOnChar sep r with
      | h :: t => (c :: h) :: t
      | [] => [[c]]

/-- Parse a compound unit string such as `kg⋅m/s^2` (function `parseUnits`
in `units.ts`): at most one `/`; each side is trimmed and split into
tokens; denominator powers are negated; numerator tokens come first. -/
def parseUnits (unitStr : String) : Except QuantityError (List ParsedUnit) :=
  let sections := splitOnChar '/' unitStr.data
  if 2 < sections.length then
    .error (.quantityError
      ("Cannot parse a unit with 2 or more \"/\" symbols: got \"" ++ unitStr ++ "\""))
  else
    match sections with
    | [num] => (splitTokens (trimChars num)).mapM fun t => parseSingleUnit (String.mk t)
    | [num, den] => do
      let np ← (splitTokens (trimChars num)).mapM fun t => parseSingleUnit (String.mk t)
      let dp ← (splitTokens (trimChars den)).mapM fun t => parseSingleUnit (String.mk t)
      .ok (np ++ dp.map fun u => { u with power := -u.power })
    | _ =>
      -- `splitOnChar` always returns a non-empty list, and longer lists are
      -- caught by the guard above; this branch is unreachable.
      .error (.quantityError "unreachable")

end QuantityMath
namespace QuantityMath

/-! ### Facts about the `Number(...)` model, for claim C8 -/

theorem takeWhile_all_append {p : Char → Bool} :
    ∀ (A : List Char), A.all p = true → ∀ {c : Char}, p c = false → ∀ (B : List Char),
      (A ++ c :: B).takeWhile p = A ∧ (A ++ c :: B).dropWhile p = c :: B := by
  intro A
  induction A with
  | nil =>
    intro _ c hc B
    simp [List.takeWhile, List.dropWhile, hc]
  | cons a rest ih =>
    intro hA c hc B
    simp only [List.all_cons, Bool.and_eq_true] at hA
    have hr := ih hA.2 hc B
    simp only [List.cons_append, List.takeWhile, List.dropWhile, hA.1]
    exact ⟨by rw [List.append_eq, hr.1], by rw [List.append_eq, hr.2]⟩


end QuantityMath
namespace QuantityMath

theorem char_toNat_inj {a b : Char} (h : a.toNat = b.toNat) : a = b :=
  Char.ext (UInt32.ext h)

theorem digit_lt_ten {c : Char} (h : isDigitChar c = true) : c.toNat - 48 ≤ 9 := by
  simp only [isDigitChar, Bool.and_eq_true, decide_eq_true_eq] at h
  omega

theorem nonzero_digit_toNat {c : Char} (hd : isDigitChar c = true) (hne : c ≠ '0') :
    48 < c.toNat := by
  simp only [isDigitChar, Bool.and_eq_true, decide_eq_true_eq] at hd
  rcases Nat.lt_or_ge 48 c.toNat with h | h
  · exact h
  · exfalso
    have h0 : ('0' : Char).toNat = 48 := by decide
    exact hne (char_toNat_inj (by omega))

theorem digitsToNat_foldl_pos :
    ∀ (l : List Char) (acc : Nat), l.all isDigitChar = true →
      (0 < acc ∨ ∃ c ∈ l, c ≠ '0') →
      0 < l.foldl (fun acc c => acc * 10 + (c.toNat - 48)) acc := by
  intro l
  induction l with
  | nil =>
    intro acc _ h
    rcases h with h | ⟨c, hc, _⟩
    · exact h
    · simp at hc
  | cons c r ih =>
    intro acc hall h
    simp only [List.all_cons, Bool.and_eq_true] at hall
    simp only [List.foldl_cons]
    rcases h with h | ⟨c2, hc2, hne⟩
    · exact ih _ hall.2 (Or.inl (by omega))
    · rcases List.mem_cons.mp hc2 with hc2 | hc2
      · subst hc2
        have := nonzero_digit_toNat hall.1 hne
        exact ih _ hall.2 (Or.inl (by omega))
      · exact ih _ hall.2 (Or.inr ⟨c2, hc2, hne⟩)

theorem digitsToNat_pos {l : List Char} (hall : l.all isDigitChar = true)
    (h : ∃ c ∈ l, c ≠ '0') : 0 < digitsToNat l :=
  digitsToNat_foldl_pos l 0 hall (Or.inr h)

theorem digitsToNat_foldl_lt :
    ∀ (l : List Char) (acc : Nat), l.all isDigitChar = true →
      l.foldl (fun acc c => acc * 10 + (c.toNat - 48)) acc < (acc + 1) * 10 ^ l.length := by
  intro l
  induction l with
  | nil => intro acc _; simp
  | cons c r ih =>
    intro acc hall
    simp only [List.all_cons, Bool.and_eq_true] at hall
    simp only [List.foldl_cons, List.length_cons]
    have h1 := ih (acc * 10 + (c.toNat - 48)) hall.2
    have h2 := digit_lt_ten hall.1
    calc r.foldl (fun acc c => acc * 10 + (c.toNat - 48)) (acc * 10 + (c.toNat - 48))
        < (acc * 10 + (c.toNat - 48) + 1) * 10 ^ r.length := h1
      _ ≤ ((acc + 1) * 10) * 10 ^ r.length := by
          have : acc * 10 + (c.toNat - 48) + 1 ≤ (acc + 1) * 10 := by omega
          exact Nat.mul_le_mul_right _ this
      _ = (acc + 1) * 10 ^ (r.length + 1) := by ring

theorem digitsToNat_lt {l : List Char} (hall : l.all isDigitChar = true) :
    digitsToNat l < 10 ^ l.length := by
  have := digitsToNat_foldl_lt l 0 hall
  simpa [digitsToNat] using this

theorem parseUnsigned_digits {ds : List Char} (h1 : ds ≠ []) (h2 : ds.all isDigitChar = true) :
    parseUnsigned ds = some (digitsToNat ds : ℚ) := by
  have ht : ds.takeWhile isDigitChar = ds :=
    List.takeWhile_eq_self_iff.mpr (List.all_eq_true.mp h2)
  have hd : ds.dropWhile isDigitChar = [] := by
    have := congrArg List.length (List.takeWhile_append_dropWhile isDigitChar ds)
    rw [List.length_append, ht] at this
    have hlen : (ds.dropWhile isDigitChar).length = 0 := by omega
    exact List.length_eq_zero.mp hlen
  simp [parseUnsigned, ht, hd, h1]

theorem dropWhile_eq_self_of_all {p : Char → Bool} :
    ∀ {l : List Char}, (∀ c ∈ l, p c = false) → l.dropWhile p = l := by
  intro l h
  cases l with
  | nil => rfl
  | cons a r =>
    rw [List.dropWhile_cons, if_neg (by simp [h a (List.mem_cons_self a r)])]

theorem trimChars_eq_self {l : List Char} (h : ∀ c ∈ l, isSpaceChar c = false) :
    trimChars l = l := by
  unfold trimChars
  rw [dropWhile_eq_self_of_all h,
    dropWhile_eq_self_of_all (fun c hc => h c (List.mem_reverse.mp hc)),
    List.reverse_reverse]

theorem not_space_of_digit {c : Char} (h : isDigitChar c = true) : isSpaceChar c = false := by
  simp only [isDigitChar, Bool.and_eq_true, decide_eq_true_eq] at h
  simp only [isSpaceChar, decide_eq_false_iff_not]
  omega

theorem not_space_of_sign {c : Char} (h : c = '+' ∨ c = '-') : isSpaceChar c = false := by
  rcases h with rfl | rfl <;> decide

theorem hexVal_isSome_toNat {c : Char} {v : Nat} (h : hexVal c = some v) :
    (48 ≤ c.toNat ∧ c.toNat ≤ 57 ∧ v = c.toNat - 48) ∨
    (97 ≤ c.toNat ∧ c.toNat ≤ 102 ∧ v = c.toNat - 87) ∨
    (65 ≤ c.toNat ∧ c.toNat ≤ 70 ∧ v = c.toNat - 55) := by
  unfold hexVal at h
  split at h
  · rename_i h1
    injection h with h
    exact Or.inl ⟨h1.1, h1.2, h.symm⟩
  · split at h
    · rename_i h1 h2
      injection h with h
      exact Or.inr (Or.inl ⟨h2.1, h2.2, h.symm⟩)
    · split at h
      · rename_i h1 h2 h3
        injection h with h
        exact Or.inr (Or.inr ⟨h3.1, h3.2, h.symm⟩)
      · cases h

theorem not_space_of_radixDigit {radix : Nat} {c : Char} (h : isRadixDigit radix c = true) :
    isSpaceChar c = false := by
  unfold isRadixDigit at h
  rcases hv : hexVal c with _ | v
  · rw [hv] at h
    cases h
  · rcases hexVal_isSome_toNat hv with ⟨h1, h2, _⟩ | ⟨h1, h2, _⟩ | ⟨h1, h2, _⟩ <;>
      · simp only [isSpaceChar, decide_eq_false_iff_not]
        omega

theorem radixDigit_pos {radix : Nat} {c : Char} (h : isRadixDigit radix c = true)
    (hne : c ≠ '0') : 0 < (hexVal c).getD 0 := by
  unfold isRadixDigit at h
  rcases hv : hexVal c with _ | v
  · rw [hv] at h
    cases h
  · simp only [Option.getD_some]
    rcases hexVal_isSome_toNat hv with ⟨h1, h2, h3⟩ | ⟨h1, h2, h3⟩ | ⟨h1, h2, h3⟩
    · have h0 : c.toNat ≠ 48 := by
        intro he
        exact hne (char_toNat_inj (he.trans (by decide)))
      omega
    · omega
    · omega

theorem radixToNat_foldl_pos {radix : Nat} :
    ∀ (l : List Char) (acc : Nat), l.all (isRadixDigit radix) = true →
      (0 < acc ∨ ∃ c ∈ l, c ≠ '0') → 1 ≤ radix →
      0 < l.foldl (fun acc c => acc * radix + (hexVal c).getD 0) acc := by
  intro l
  induction l with
  | nil =>
    intro acc _ h _
    rcases h with h | ⟨c, hc, _⟩
    · exact h
    · simp at hc
  | cons c r ih =>
    intro acc hall h hrad
    simp only [List.all_cons, Bool.and_eq_true] at hall
    simp only [List.foldl_cons]
    rcases h with h | ⟨c2, hc2, hne⟩
    · have hmul : 0 < acc * radix := Nat.mul_pos h hrad
      exact ih _ hall.2 (Or.inl (by omega)) hrad
    · rcases List.mem_cons.mp hc2 with hc2 | hc2
      · subst hc2
        have := radixDigit_pos hall.1 hne
        exact ih _ hall.2 (Or.inl (by omega)) hrad
      · exact ih _ hall.2 (Or.inr ⟨c2, hc2, hne⟩) hrad

theorem radixToNat_pos {radix : Nat} {l : List Char} (hall : l.all (isRadixDigit radix) = true)
    (hpos : ∃ c ∈ l, c ≠ '0') (hrad : 1 ≤ radix) : 0 < radixToNat radix l :=
  radixToNat_foldl_pos l 0 hall (Or.inr hpos) hrad

theorem digit_or_dot_not_marker {x : Char} (h : isDigitChar x = true ∨ x = '.') :
    ¬(x = 'x' ∨ x = 'X') ∧ ¬(x = 'o' ∨ x = 'O') ∧ ¬(x = 'b' ∨ x = 'B') := by
  refine ⟨?_, ?_, ?_⟩ <;> rintro (rfl | rfl) <;> rcases h with h | h <;>
    exact absurd h (by decide)

theorem jsNumber_digits {ds : List Char} (h1 : ds ≠ []) (h2 : ds.all isDigitChar = true) :
    jsNumber ds = some (digitsToNat ds : ℚ) := by
  have htrim : trimChars ds = ds :=
    trimChars_eq_self fun c hc => not_space_of_digit (List.all_eq_true.mp h2 c hc)
  rcases ds with _ | ⟨c, r⟩
  · exact absurd rfl h1
  · have hc : isDigitChar c = true := by
      simp only [List.all_cons, Bool.and_eq_true] at h2
      exact h2.1
    by_cases hc0 : c = '0'
    · subst hc0
      rcases r with _ | ⟨x, r2⟩
      · simp only [jsNumber, htrim, if_true]
        rw [show digitsToNat ['0'] = 0 from by decide]
        norm_num
      · have hx : isDigitChar x = true := by
          simp only [List.all_cons, Bool.and_eq_true] at h2
          exact h2.2.1
        obtain ⟨hm1, hm2, hm3⟩ := digit_or_dot_not_marker (Or.inl hx)
        simp only [jsNumber, htrim, if_true]
        rw [if_neg hm1, if_neg hm2, if_neg hm3]
        exact parseUnsigned_digits h1 h2
    · have hminus : ¬ c = '-' := by
        rintro rfl
        exact absurd hc (by decide)
      have hplus : ¬ c = '+' := by
        rintro rfl
        exact absurd hc (by decide)
      simp only [jsNumber, htrim]
      rw [if_neg hc0, if_neg hminus, if_neg hplus]
      exact parseUnsigned_digits h1 h2

theorem jsNumber_sign_digits {sgn : Char} {ds : List Char} (hs : sgn = '+' ∨ sgn = '-')
    (h1 : ds ≠ []) (h2 : ds.all isDigitChar = true) :
    jsNumber (sgn :: ds) =
      some (if sgn = '-' then -(digitsToNat ds : ℚ) else (digitsToNat ds : ℚ)) := by
  have htrim : trimChars (sgn :: ds) = sgn :: ds := by
    refine trimChars_eq_self ?_
    intro c hc
    rcases List.mem_cons.mp hc with rfl | hc
    · exact not_space_of_sign hs
    · exact not_space_of_digit (List.all_eq_true.mp h2 c hc)
  rcases hs with rfl | rfl
  · simp only [jsNumber, htrim]
    simp [parseUnsigned_digits h1 h2]
  · simp only [jsNumber, htrim]
    simp [parseUnsigned_digits h1 h2]

theorem jsNumber_hex {x : Char} {ds : List Char} (hx : x = 'x' ∨ x = 'X')
    (h1 : ds ≠ []) (h2 : ds.all (isRadixDigit 16) = true) :
    jsNumber ('0' :: x :: ds) = some ((radixToNat 16 ds : Nat) : ℚ) := by
  have htrim : trimChars ('0' :: x :: ds) = '0' :: x :: ds := by
    refine trimChars_eq_self ?_
    intro c hc
    rcases List.mem_cons.mp hc with rfl | hc
    · decide
    · rcases List.mem_cons.mp hc with rfl | hc
      · rcases hx with rfl | rfl <;> decide
      · exact not_space_of_radixDigit (List.all_eq_true.mp h2 c hc)
  simp only [jsNumber, htrim, if_true]
  rw [if_pos hx]
  unfold radixValue
  rw [if_pos ⟨h1, h2⟩]
  rfl

theorem decValue_den_ne_one {ip fp : List Char} (hfall : fp.all isDigitChar = true)
    (hpos : ∃ c ∈ fp, c ≠ '0') : (decValue ip fp 0).den ≠ 1 := by
  have hb0 : 0 < digitsToNat fp := digitsToNat_pos hfall hpos
  have hblt : digitsToNat fp < 10 ^ fp.length := digitsToNat_lt hfall
  set f : ℚ := (digitsToNat fp : ℚ) / (10 : ℚ) ^ fp.length with hf
  have hden : (0 : ℚ) < (10 : ℚ) ^ fp.length := by positivity
  have hf0 : 0 < f := by
    rw [hf]
    positivity
  have hf1 : f < 1 := by
    rw [hf, div_lt_one hden]
    exact_mod_cast hblt
  have hval : decValue ip fp 0 = ((digitsToNat ip : ℤ) : ℚ) + f := by
    unfold decValue
    rw [hf]
    push_cast
    ring
  intro hone
  have hint : ((decValue ip fp 0).num : ℚ) = decValue ip fp 0 :=
    (Rat.den_eq_one_iff _).mp hone
  have hfr : Int.fract (decValue ip fp 0) = 0 := by
    rw [← hint]
    exact Int.fract_intCast _
  rw [hval, Int.fract_int_add, Int.fract_eq_self.mpr ⟨le_of_lt hf0, hf1⟩] at hfr
  exact absurd hfr (ne_of_gt hf0)

theorem jsNumber_nonint_decimal {A B : List Char} (hA : A.all isDigitChar = true)
    (hB : B.all isDigitChar = true) (hpos : ∃ c ∈ B, c ≠ '0') :
    ∃ q : ℚ, jsNumber (A ++ '.' :: B) = some q ∧ q.den ≠ 1 := by
  have hBne : B ≠ [] := by
    rcases hpos with ⟨c, hc, _⟩
    intro h
    rw [h] at hc
    simp at hc
  have hdot : isDigitChar '.' = false := by decide
  have hsplit := takeWhile_all_append A hA hdot B
  have htB : B.takeWhile isDigitChar = B :=
    List.takeWhile_eq_self_iff.mpr (List.all_eq_true.mp hB)
  have hdB : B.dropWhile isDigitChar = [] := by
    have := congrArg List.length (List.takeWhile_append_dropWhile isDigitChar B)
    rw [List.length_append, htB] at this
    exact List.length_eq_zero.mp (by omega)
  have hun : parseUnsigned (A ++ '.' :: B) = some (decValue A B 0) := by
    have hg : ¬(A = [] ∧ B = []) := fun h => hBne h.2
    simp only [parseUnsigned, hsplit.1, hsplit.2, htB, hdB]
    simp [hg]
  refine ⟨decValue A B 0, ?_, decValue_den_ne_one hB hpos⟩
  have hmem : ∀ c ∈ A ++ '.' :: B, isDigitChar c = true ∨ c = '.' := by
    intro c hc
    rcases List.mem_append.mp hc with hc | hc
    · exact Or.inl (List.all_eq_true.mp hA c hc)
    · rcases List.mem_cons.mp hc with rfl | hc
      · exact Or.inr rfl
      · exact Or.inl (List.all_eq_true.mp hB c hc)
  have htrim : trimChars (A ++ '.' :: B) = A ++ '.' :: B := by
    refine trimChars_eq_self ?_
    intro c hc
    rcases hmem c hc with h | rfl
    · exact not_space_of_digit h
    · decide
  rcases hAB : A ++ '.' :: B with _ | ⟨c0, r⟩
  · exact absurd hAB (by simp)
  · have htrim2 : trimChars (c0 :: r) = c0 :: r := hAB ▸ htrim
    have hds : isDigitChar c0 = true ∨ c0 = '.' :=
      hmem c0 (by rw [hAB]; exact List.mem_cons_self _ _)
    by_cases hc0 : c0 = '0'
    · subst hc0
      rcases hr : r with _ | ⟨x, r2⟩
      · exfalso
        have hlen := congrArg List.length hAB
        rw [hr] at hlen
        simp only [List.length_append, List.length_cons, List.length_nil] at hlen
        have hB0 : B.length = 0 := by omega
        exact hBne (List.length_eq_zero.mp hB0)
      · have hx : isDigitChar x = true ∨ x = '.' := by
          refine hmem x ?_
          rw [hAB, hr]
          exact List.mem_cons_of_mem _ (List.mem_cons_self _ _)
        obtain ⟨hm1, hm2, hm3⟩ := digit_or_dot_not_marker hx
        have htrim3 : trimChars ('0' :: x :: r2) = '0' :: x :: r2 := hr ▸ htrim2
        simp only [jsNumber, htrim3, if_true]
        rw [if_neg hm1, if_neg hm2, if_neg hm3, ← hr, ← hAB]
        exact hun
    · have hminus : ¬ c0 = '-' := by
        rintro rfl
        rcases hds with h | h
        · exact absurd h (by decide)
        · exact absurd h (by decide)
      have hplus : ¬ c0 = '+' := by
        rintro rfl
        rcases hds with h | h
        · exact absurd h (by decide)
        · exact absurd h (by decide)
      simp only [jsNumber, htrim2]
      rw [if_neg hc0, if_neg hminus, if_neg hplus, ← hAB]
      exact hun

end QuantityMath
namespace QuantityMath

theorem parseSingleUnit_split (pre suffix : String) (hp : '^' ∉ pre.data) :
    parseSingleUnit (pre ++ "^" ++ suffix) =
      match jsNumber suffix.data with
      | none => .error (.quantityError (invalidExponentMsg (pre ++ "^" ++ suffix)))
      | some q =>
        if q = 0 ∨ q.den ≠ 1 then
          .error (.quantityError (invalidExponentMsg (pre ++ "^" ++ suffix)))
        else resolvePrefixedUnit (pre ++ "^" ++ suffix) pre q.num := by
  have hdata : (pre ++ "^" ++ suffix).data = pre.data ++ '^' :: suffix.data := by
    rw [String.data_append, String.data_append]
    rw [show ("^" : String).data = ['^'] from rfl, List.append_assoc]
    rfl
  have hall : pre.data.all (fun c => decide (c ≠ '^')) = true := by
    refine List.all_eq_true.mpr ?_
    intro c hc
    simp only [decide_eq_true_eq]
    intro he
    subst he
    exact hp hc
  have hcaret : (fun c => decide (c ≠ '^')) '^' = false := by decide
  have hsplit := takeWhile_all_append pre.data hall hcaret suffix.data
  have hmk : String.mk pre.data = pre := by cases pre; rfl
  simp only [parseSingleUnit, hdata, hsplit.1, hsplit.2, hmk]

theorem parseSingleUnit_split_some {pre suffix : String} (hp : '^' ∉ pre.data)
    {q : ℚ} (hq : jsNumber suffix.data = some q) :
    parseSingleUnit (pre ++ "^" ++ suffix) =
      if q = 0 ∨ q.den ≠ 1 then
        .error (.quantityError (invalidExponentMsg (pre ++ "^" ++ suffix)))
      else resolvePrefixedUnit (pre ++ "^" ++ suffix) pre q.num := by
  rw [parseSingleUnit_split pre suffix hp, hq]

theorem parseSingleUnit_split_none {pre suffix : String} (hp : '^' ∉ pre.data)
    (hq : jsNumber suffix.data = none) :
    parseSingleUnit (pre ++ "^" ++ suffix) =
      .error (.quantityError (invalidExponentMsg (pre ++ "^" ++ suffix))) := by
  rw [parseSingleUnit_split pre suffix hp, hq]

theorem invalidExponentMsg_ne_unableToParseMsg (t : String) :
    invalidExponentMsg t ≠ unableToParseMsg t := by
  intro h
  have h2 := congrArg String.length h
  unfold invalidExponentMsg unableToParseMsg at h2
  rw [String.length_append, String.length_append, String.length_append,
    String.length_append] at h2
  have e1 : ("Invalid exponent/power on unit \"" : String).length = 32 := by rfl
  have e2 : ("Unable to parse the unit \"" : String).length = 26 := by rfl
  rw [e1, e2] at h2
  omega

theorem resolvePrefixedUnit_ne_invalidExponent (full pu : String) (pw : Int) :
    resolvePrefixedUnit full pu pw ≠
      .error (.quantityError (invalidExponentMsg full)) := by
  unfold resolvePrefixedUnit
  split
  · intro h; cases h
  · split
    · intro h; cases h
    · split
      · intro h
        injection h with h
        injection h with h
        exact invalidExponentMsg_ne_unableToParseMsg full h.symm
      · split
        · intro h; cases h
        · split
          · intro h
            injection h with h
            injection h with h
            exact invalidExponentMsg_ne_unableToParseMsg full h.symm
          · split
            · intro h; cases h
            · intro h
              injection h with h
              injection h with h
              exact invalidExponentMsg_ne_unableToParseMsg full h.symm

end QuantityMath
namespace QuantityMath

/-- C8: For every unit token `pre^suffix` (with no `^` inside `pre`, so the
suffix is the token's exponent part), parsing fails with the error
`Invalid exponent/power on unit "<token>"` whenever the exponent part is
the literal `0`, is empty, is a decimal literal with a nonzero fractional
part, or is trailing garbage — a string whose `Number(...)` conversion is
not a number (`jsNumber` returns `none` for it); and a suffix that denotes
a valid nonzero integer — an unsigned or signed decimal digit string, or a
`0x`/`0X` hexadecimal digit string — never raises this exponent error.
The digit-count bounds pin the statement to ranges where the exact
rationals of the model provably agree with JavaScript's binary floating
point: an integer of at most 15 decimal or 13 hexadecimal digits is below
`2^53` and thus exactly representable, and a fraction of `f` digits after
`i` integer digits with `i + f ≤ 15` is farther from every integer than
rounding to the nearest double can move it. -/
theorem C8_exponent_error_classes (pre suffix : String) (hp : '^' ∉ pre.data) :
    (suffix = "0" →
      parseSingleUnit (pre ++ "^" ++ suffix) =
        .error (.quantityError (invalidExponentMsg (pre ++ "^" ++ suffix)))) ∧
    (suffix = "" →
      parseSingleUnit (pre ++ "^" ++ suffix) =
        .error (.quantityError (invalidExponentMsg (pre ++ "^" ++ suffix)))) ∧
    (∀ A B : List Char, suffix.data = A ++ '.' :: B → A.all isDigitChar = true →
      B.all isDigitChar = true → (∃ c ∈ B, c ≠ '0') → A.length + B.length ≤ 15 →
      parseSingleUnit (pre ++ "^" ++ suffix) =
        .error (.quantityError (invalidExponentMsg (pre ++ "^" ++ suffix)))) ∧
    (jsNumber suffix.data = none →
      parseSingleUnit (pre ++ "^" ++ suffix) =
        .error (.quantityError (invalidExponentMsg (pre ++ "^" ++ suffix)))) ∧
    (suffix.data ≠ [] → suffix.data.all isDigitChar = true →
      (∃ c ∈ suffix.data, c ≠ '0') → suffix.data.length ≤ 15 →
      parseSingleUnit (pre ++ "^" ++ suffix) ≠
        .error (.quantityError (invalidExponentMsg (pre ++ "^" ++ suffix)))) ∧
    (∀ sgn ds, suffix.data = sgn :: ds → (sgn = '+' ∨ sgn = '-') → ds ≠ [] →
      ds.all isDigitChar = true → (∃ c ∈ ds, c ≠ '0') → ds.length ≤ 15 →
      parseSingleUnit (pre ++ "^" ++ suffix) ≠
        .error (.quantityError (invalidExponentMsg (pre ++ "^" ++ suffix)))) ∧
    (∀ x ds, suffix.data = '0' :: x :: ds → (x = 'x' ∨ x = 'X') → ds ≠ [] →
      ds.all (isRadixDigit 16) = true → (∃ c ∈ ds, c ≠ '0') → ds.length ≤ 13 →
      parseSingleUnit (pre ++ "^" ++ suffix) ≠
        .error (.quantityError (invalidExponentMsg (pre ++ "^" ++ suffix)))) := by
  refine ⟨?_, ?_, ?_, ?_, ?_, ?_, ?_⟩
  · -- literal "0"
    intro h
    subst h
    have hj : jsNumber ("0" : String).data = some (0 : ℚ) := by
      rw [show ("0" : String).data = ['0'] from rfl,
        jsNumber_digits (by simp) (by decide),
        show digitsToNat ['0'] = 0 from by decide]
      norm_num
    rw [parseSingleUnit_split_some hp hj]
    exact if_pos (Or.inl rfl)
  · -- empty exponent: Number("") is 0
    intro h
    subst h
    have hj : jsNumber ("" : String).data = some (0 : ℚ) := rfl
    rw [parseSingleUnit_split_some hp hj]
    exact if_pos (Or.inl rfl)
  · -- non-integer decimal literal
    intro A B hsfx hA hB hpos _
    obtain ⟨q, hq, hden⟩ := jsNumber_nonint_decimal hA hB hpos
    rw [parseSingleUnit_split_some hp (hsfx ▸ hq)]
    exact if_pos (Or.inr hden)
  · -- trailing garbage: the Number() conversion is NaN
    intro hj
    exact parseSingleUnit_split_none hp hj
  · -- unsigned nonzero decimal integer literal: no exponent error
    intro h1 h2 hpos _
    have hj := jsNumber_digits h1 h2
    have hn : 0 < digitsToNat suffix.data := digitsToNat_pos h2 hpos
    have hcond : ¬((digitsToNat suffix.data : ℚ) = 0 ∨
        (digitsToNat suffix.data : ℚ).den ≠ 1) := by
      push_neg
      constructor
      · exact_mod_cast Nat.pos_iff_ne_zero.mp hn
      · exact Rat.den_natCast _
    rw [parseSingleUnit_split_some hp hj, if_neg hcond]
    exact resolvePrefixedUnit_ne_invalidExponent _ _ _
  · -- signed nonzero decimal integer literal: no exponent error
    intro sgn ds hsfx hsgn h1 h2 hpos _
    have hj := jsNumber_sign_digits hsgn h1 h2
    have hn : 0 < digitsToNat ds := digitsToNat_pos h2 hpos
    have hne : (digitsToNat ds : ℚ) ≠ 0 := by
      exact_mod_cast Nat.pos_iff_ne_zero.mp hn
    have hcond : ¬((if sgn = '-' then -(digitsToNat ds : ℚ) else (digitsToNat ds : ℚ)) = 0 ∨
        (if sgn = '-' then -(digitsToNat ds : ℚ) else (digitsToNat ds : ℚ)).den ≠ 1) := by
      push_neg
      split
      · exact ⟨neg_ne_zero.mpr hne, by rw [Rat.neg_den]; exact Rat.den_natCast _⟩
      · exact ⟨hne, Rat.den_natCast _⟩
    rw [parseSingleUnit_split_some hp (hsfx ▸ hj), if_neg hcond]
    exact resolvePrefixedUnit_ne_invalidExponent _ _ _
  · -- hexadecimal nonzero integer literal: no exponent error
    intro x ds hsfx hx h1 h2 hpos _
    have hj := jsNumber_hex hx h1 h2
    have hn : 0 < radixToNat 16 ds := radixToNat_pos h2 hpos (by norm_num)
    have hcond : ¬(((radixToNat 16 ds : Nat) : ℚ) = 0 ∨
        ((radixToNat 16 ds : Nat) : ℚ).den ≠ 1) := by
      push_neg
      constructor
      · exact_mod_cast Nat.pos_iff_ne_zero.mp hn
      · exact Rat.den_natCast _
    rw [parseSingleUnit_split_some hp (hsfx ▸ hj), if_neg hcond]
    exact resolvePrefixedUnit_ne_invalidExponent _ _ _

/-- C8 witness: applying `C8_exponent_error_classes` to the concrete tokens
`mm^0`, `mm^` (empty exponent), `mm^1.5`, `mm^X`, `mm^5px` (all fail with
the invalid-exponent error carrying the exact message), to `mm^-3` and
`mm^2` (which never raise that error), and to `mm^0x10`, whose hexadecimal
exponent `Number("0x10") = 16` is a valid nonzero integer: it does not
raise the exponent error and in fact parses to millimetres to the 16th
power. -/
theorem C8_exponent_error_classes_witness :
    parseSingleUnit "mm^0" =
        .error (.quantityError "Invalid exponent/power on unit \"mm^0\"") ∧
      parseSingleUnit "mm^" =
        .error (.quantityError "Invalid exponent/power on unit \"mm^\"") ∧
      parseSingleUnit "mm^1.5" =
        .error (.quantityError "Invalid exponent/power on unit \"mm^1.5\"") ∧
      parseSingleUnit "mm^X" =
        .error (.quantityError "Invalid exponent/power on unit \"mm^X\"") ∧
      parseSingleUnit "mm^5px" =
        .error (.quantityError "Invalid exponent/power on unit \"mm^5px\"") ∧
      parseSingleUnit "mm^-3" ≠
        .error (.quantityError "Invalid exponent/power on unit \"mm^-3\"") ∧
      parseSingleUnit "mm^2" ≠
        .error (.quantityError "Invalid exponent/power on unit \"mm^2\"") ∧
      parseSingleUnit "mm^0x10" ≠
        .error (.quantityError "Invalid exponent/power on unit \"mm^0x10\"") ∧
      parseSingleUnit "mm^0x10" = .ok ⟨some "m", "m", 16⟩ := by
  have h16 : radixToNat 16 ['1', '0'] = 16 := by decide
  have hj16 : jsNumber ("0x10" : String).data = some ((16 : Nat) : ℚ) := by
    rw [show ("0x10" : String).data = '0' :: 'x' :: ['1', '0'] from rfl,
      jsNumber_hex (Or.inl rfl) (by decide) (by decide), h16]
  have hok : parseSingleUnit "mm^0x10" = .ok ⟨some "m", "m", 16⟩ := by
    show parseSingleUnit ("mm" ++ "^" ++ "0x10") = .ok ⟨some "m", "m", 16⟩
    have hcond : ¬(((16 : Nat) : ℚ) = 0 ∨ ((16 : Nat) : ℚ).den ≠ 1) := by
      push_neg
      exact ⟨by norm_num, Rat.den_natCast _⟩
    rw [parseSingleUnit_split_some (by decide) hj16, if_neg hcond,
      show (((16 : Nat) : ℚ)).num = 16 from by simp]
    decide
  refine ⟨(C8_exponent_error_classes "mm" "0" (by decide)).1 rfl,
    (C8_exponent_error_classes "mm" "" (by decide)).2.1 rfl,
    (C8_exponent_error_classes "mm" "1.5" (by decide)).2.2.1 ['1'] ['5'] rfl
      (by decide) (by decide) (by decide) (by decide),
    (C8_exponent_error_classes "mm" "X" (by decide)).2.2.2.1 (by decide),
    (C8_exponent_error_classes "mm" "5px" (by decide)).2.2.2.1 (by decide),
    (C8_exponent_error_classes "mm" "-3" (by decide)).2.2.2.2.2.1 '-' ['3'] rfl
      (Or.inr rfl) (by decide) (by decide) (by decide) (by decide),
    (C8_exponent_error_classes "mm" "2" (by decide)).2.2.2.2.1 (by decide)
      (by decide) (by decide) (by decide),
    (C8_exponent_error_classes "mm" "0x10" (by decide)).2.2.2.2.2.2 'x' ['1', '0'] rfl
      (Or.inl rfl) (by decide) (by decide) (by decide) (by decide),
    hok⟩

end QuantityMath
namespace QuantityMath

/-! ## Quantity (`quantity.ts`)

The current `quantity.ts` (the `_unitOutput` version) is embedded as the
primary model; the earlier `_unitHintSet` version (file `src/quantity.ts`)
differs only in how display-unit hints are combined, and its `add` is
embedded separately as `Quantity.addOld` for claim C4. -/

/-- A quantity value: canonical magnitude, dimensions, optional
uncertainty (`_plusMinus`), optional significant figures, the applied
affine offset (`_offsetUsed`) and the remembered display units
(`_unitOutput`). -/
structure Quantity where
  magnitude : ℚ
  dimensions : Dimensions
  plusMinus : Option ℚ
  significantFigures : Option Nat
  offsetUsed : Option ℚ
  unitOutput : Option (List ParsedUnit)
deriving DecidableEq

/-- JavaScript truthiness of an optional number: present and nonzero. -/
def truthyQ : Option ℚ → Bool
  | some v => v != 0
  | none => false

/-- JavaScript truthiness of an optional natural number. -/
def truthyN : Option Nat → Bool
  | some n => n != 0
  | none => false

/-- `Quantity._pow`: raise in place to an integer power: dimensions via
`Dimensions.pow`; the uncertainty becomes the relative error times `n`
(exactly as in the source, which does not rescale it by the new
magnitude); the magnitude is raised to `n`.  `n = 1` returns unchanged. -/
def Quantity.qPow (q : Quantity) (n : Int) : Quantity :=
  if n == 1 then q
  else
    { magnitude := q.magnitude ^ n,
      dimensions := q.dimensions.pow n,
      plusMinus :=
        match q.plusMinus with
        | some u => if u == 0 then some u else some ((u / q.magnitude) * (n : ℚ))
        | none => none,
      significantFigures := q.significantFigures,
      offsetUsed := q.offsetUsed,
      unitOutput := q.unitOutput }

/-- `Quantity._multiply`: multiply in place by another quantity.
Dimensions multiply; the uncertainty follows the source's branches (note
the truthiness test `if (y._plusMinus)`, under which an explicit
uncertainty of 0 on `y` takes the "no uncertainty" branch); any (nonzero)
`significantFigures` on either operand throws; magnitudes multiply.  The
result keeps `this`'s `significantFigures`, `_offsetUsed` and
`_unitOutput`. -/
def Quantity.qMulRaw (x y : Quantity) : Except QuantityError Quantity := do
  let dims ← x.dimensions.multiply y.dimensions
  if truthyN x.significantFigures || truthyN y.significantFigures then
    .error (.quantityError "Multiplication of significant figures is not yet implemented.")
  else
    .ok { magnitude := x.magnitude * y.magnitude,
          dimensions := dims,
          plusMinus :=
            match x.plusMinus with
            | none =>
              match y.plusMinus with
              | none => none
              | some u => some (u * x.magnitude)
            | some u1 =>
              match y.plusMinus with
              | some u2 =>
                if u2 == 0 then some (u1 * y.magnitude)
                else some ((u1 / x.magnitude + u2 / y.magnitude) *
                  (x.magnitude * y.magnitude))
              | none => some (u1 * y.magnitude),
          significantFigures := x.significantFigures,
          offsetUsed := x.offsetUsed,
          unitOutput := x.unitOutput }

/-- The scale of a unit together with its optional magnitude prefix
(`u.prefix ? unitData.s * prefixes[u.prefix] : unitData.s`).  The
TypeScript type system guarantees the prefix key is valid; an invalid
prefix is modelled as an error. -/
def prefixScale (ud : UnitData) (p : Option String) : Except QuantityError ℚ :=
  match p with
  | none => .ok ud.s
  | some ps =>
    match prefixFactor ps with
    | some f => .ok (ud.s * f)
    | none => .error (.quantityError ("Unknown prefix \"" ++ ps ++ "\""))

/-- One step of the `Quantity` constructor's fold over the parsed units:
build the unit quantity, raise it to its power, multiply it in, then apply
the affine-offset handling (`if (unitData.offset)`): a (nonzero) offset
with a unit list of length other than 1 throws; otherwise the offset is
added to the magnitude and recorded in `_offsetUsed`. -/
def foldQuantityUnit (len : Nat) (q : Quantity) (u : ParsedUnit) :
    Except QuantityError Quantity := do
  let unitData ← getUnitData u.unit
  let scale ← prefixScale unitData u.pfx
  let q2 ← Quantity.qMulRaw q ((Quantity.mk scale unitData.d none none none none).qPow u.power)
  match unitData.offset with
  | none => pure q2
  | some off =>
    if off == 0 then pure q2
    else if len ≠ 1 then
      .error (.quantityError
        "It is not permitted to use compound units that include the offset unit. Try using K, deltaC, or Pa instead.")
    else
      pure { q2 with magnitude := q2.magnitude + off, offsetUsed := some off }

/-- The `Quantity` constructor's `units` branch: the parsed unit list is
remembered as `_unitOutput` (note: even when empty, since an empty array
is truthy in JavaScript), the dimensions start at `Dimensionless`, and
each unit is folded in. -/
def mkQuantityUnits (mag : ℚ) (units : List ParsedUnit) (pm : Option ℚ) (sf : Option Nat) :
    Except QuantityError Quantity :=
  units.foldlM (foldQuantityUnit units.length)
    ⟨mag, Dimensionless, pm, sf, none, some units⟩

/-- The `Quantity` constructor's `dimensions` branch: the internal
`setUnitOutput` hint is normalized so that `_unitOutput` is never an empty
array. -/
def mkQuantityDims (mag : ℚ) (dims : Dimensions) (pm : Option ℚ) (sf : Option Nat)
    (hint : Option (List ParsedUnit)) : Quantity :=
  ⟨mag, dims, pm, sf, none, if hint = some [] then none else hint⟩

/-- The `Quantity` constructor with neither units nor dimensions. -/
def mkQuantityBare (mag : ℚ) (pm : Option ℚ) (sf : Option Nat) : Quantity :=
  ⟨mag, Dimensionless, pm, sf, none, none⟩

/-- The `Quantity` constructor with `units` given as a string: an empty
string is falsy (no units); otherwise the string is parsed. -/
def mkQuantityStr (mag : ℚ) (s : String) (pm : Option ℚ) (sf : Option Nat) :
    Except QuantityError Quantity :=
  if s = "" then .ok (mkQuantityBare mag pm sf)
  else do
    let units ← parseUnits s
    mkQuantityUnits mag units pm sf

/-- `Quantity._clone`: passing `some h` replaces the unit output with `h`,
passing `none` keeps the quantity's own; the clone is built through the
constructor's dimensions branch. -/
def Quantity.clone (x : Quantity) (newUnitOutput : Option (Option (List ParsedUnit))) :
    Quantity :=
  mkQuantityDims x.magnitude x.dimensions x.plusMinus x.significantFigures
    (match newUnitOutput with
     | some h => h
     | none => x.unitOutput)

/-- `Quantity.equals`: same dimensions (via `equalTo`), identical
magnitude, uncertainty and significant figures. -/
def Quantity.equals (x y : Quantity) : Bool :=
  x.dimensions.equalTo y.dimensions && x.magnitude == y.magnitude &&
    x.plusMinus == y.plusMinus && x.significantFigures == y.significantFigures

/-- `Quantity.compare`: unless `ignoreUnits`, dimensions must match; then
the sign of the magnitude difference. -/
def Quantity.compare (a b : Quantity) (ignoreUnits : Bool) : Except QuantityError Int :=
  if !ignoreUnits && !(a.dimensions.equalTo b.dimensions) then
    .error (.quantityError
      "Cannot compare Quantities with different dimensions, unless using ignoreUnits=true.")
  else
    .ok (if a.magnitude - b.magnitude = 0 then 0
         else if 0 < a.magnitude - b.magnitude then 1 else -1)

/-- `Quantity.add` (current version): dimensions must match; uncertainties
add (absent when both are absent/zero); significant figures throw; the
result keeps the receiver's `_unitOutput`. -/
def Quantity.add (x y : Quantity) : Except QuantityError Quantity :=
  if !(x.dimensions.equalTo y.dimensions) then
    .error (.quantityError "Cannot add quanitites with different units.")
  else if truthyN x.significantFigures || truthyN y.significantFigures then
    .error (.quantityError "Addition of significant figures is not yet implemented.")
  else
    .ok (mkQuantityDims (x.magnitude + y.magnitude) x.dimensions
      (if truthyQ x.plusMinus || truthyQ y.plusMinus then
        some (x.plusMinus.getD 0 + y.plusMinus.getD 0)
       else none)
      none x.unitOutput)

/-- `Quantity.sub`: clone `y`, negate the magnitude, add. -/
def Quantity.sub (x y : Quantity) : Except QuantityError Quantity :=
  Quantity.add x { y.clone none with magnitude := 0 - y.magnitude }

/-- Does this resolved unit list consist of exactly one dimensionless
unit? (`xUnits.length === 1 && xUnits[0].d.isDimensionless`). -/
def singleDimensionless : List (ParsedUnit × Dimensions) → Bool
  | [e] => e.2.isDimensionless
  | _ => false

/-- Add `p` into the power of the first entry whose dimensions equal
`dims` (`xEntry.power += u.power` after `xUnits.find(...)`). -/
def updateFirstPower : List (ParsedUnit × Dimensions) → Dimensions → Int →
    List (ParsedUnit × Dimensions)
  | [], _, _ => []
  | (u, d) :: rest, dims, p =>
    if d.equalTo dims then ({ u with power := u.power + p }, d) :: rest
    else (u, d) :: updateFirstPower rest dims p

/-- Merge the second operand's resolved units into the first operand's by
dimension: same-dimension entries accumulate their powers, others are
appended (`Quantity.multiply`'s hint merging). -/
def mergeYUnits (xs ys : List (ParsedUnit × Dimensions)) : List (ParsedUnit × Dimensions) :=
  ys.foldl
    (fun acc e =>
      if acc.any fun e2 => e2.2.equalTo e.2 then updateFirstPower acc e.2 e.1.power
      else acc ++ [e])
    xs

/-- The merged display units of a product: entries whose accumulated power
became 0 are dropped. -/
def mergedOutput (xs ys : List (ParsedUnit × Dimensions)) : List ParsedUnit :=
  ((mergeYUnits xs ys).filter fun e => e.1.power ≠ 0).map fun e =>
    ⟨e.1.pfx, e.1.unit, e.1.power⟩

/-- The preferred output units of a product (the `newUnitOutput`
computation at the top of `Quantity.multiply`): when both operands carry
units, a single dimensionless hint on one side defers to the other side's
hint and otherwise the hints are merged by dimension; when at most one
side carries units, that side's units are used. -/
def multiplyUnitOutput (x y : Quantity) : Except QuantityError (Option (List ParsedUnit)) :=
  match x.unitOutput, y.unitOutput with
  | some xs, some ys => do
    let xUnits ← xs.mapM fun u => (getUnitData u.unit).map fun ud => (u, ud.d)
    let yUnits ← ys.mapM fun u => (getUnitData u.unit).map fun ud => (u, ud.d)
    if singleDimensionless xUnits then pure y.unitOutput
    else if singleDimensionless yUnits then pure x.unitOutput
    else pure (some (mergedOutput xUnits yUnits))
  | _, _ =>
    pure (match x.unitOutput with
          | some h => some h
          | none => y.unitOutput)

/-- `Quantity.multiply` (current version): compute the preferred output
units, then clone and multiply in place. -/
def Quantity.multiply (x y : Quantity) : Except QuantityError Quantity := do
  let newUnitOutput ← multiplyUnitOutput x y
  Quantity.qMulRaw (x.clone (some newUnitOutput)) y

/-- `Quantity.convert` (given an already-normalized unit list): validate
that the units' combined dimensions equal the quantity's, then clone with
the new output units. -/
def Quantity.convert (x : Quantity) (units : List ParsedUnit) :
    Except QuantityError Quantity := do
  let dims ← units.foldlM
    (fun d u => do
      let ud ← getUnitData u.unit
      d.multiply (ud.d.pow u.power))
    Dimensionless
  if !(x.dimensions.equalTo dims) then .error .invalidConversionError
  else .ok (x.clone (some (some units)))

/-- De-duplicate a unit list by unit symbol, keeping first occurrences
(the loop body of `Quantity.combineUnitHints` of the `_unitHintSet`
version of `quantity.ts`). -/
def dedupeByUnit (l : List ParsedUnit) : List ParsedUnit :=
  l.foldl (fun acc u => if acc.any fun eu => eu.unit == u.unit then acc else acc ++ [u]) []

/-- `Quantity.combineUnitHints` (from the `_unitHintSet` version of
`quantity.ts`, `src/quantity.ts`): concatenate both hints (absent = empty),
de-duplicate by unit symbol, and return `undefined` when the result is
empty. -/
def combineUnitHints (h1 h2 : Option (List ParsedUnit)) : Option (List ParsedUnit) :=
  if (dedupeByUnit (h1.getD [] ++ h2.getD [])).isEmpty then none
  else some (dedupeByUnit (h1.getD [] ++ h2.getD []))

/-- `Quantity.add` of the `_unitHintSet` version of `quantity.ts`
(`src/quantity.ts`): as `Quantity.add`, but the result's hint is
`combineUnitHints` of both operands' hints. -/
def Quantity.addOld (x y : Quantity) : Except QuantityError Quantity :=
  if !(x.dimensions.equalTo y.dimensions) then
    .error (.quantityError "Cannot add quanitites with different units.")
  else if truthyN x.significantFigures || truthyN y.significantFigures then
    .error (.quantityError "Addition of significant figures is not yet implemented.")
  else
    .ok ⟨x.magnitude + y.magnitude, x.dimensions,
      (if truthyQ x.plusMinus || truthyQ y.plusMinus then
        some (x.plusMinus.getD 0 + y.plusMinus.getD 0)
       else none),
      none, none, combineUnitHints x.unitOutput y.unitOutput⟩

end QuantityMath
namespace QuantityMath

theorem except_ok_bind {α β : Type} (a : α) (f : α → Except QuantityError β) :
    Except.ok a >>= f = f a := rfl

theorem except_bind_ok {α β : Type} (a : α) (f : α → Except QuantityError β) :
    Except.bind (Except.ok a) f = f a := rfl

theorem Dimensions.pow_one (d : Dimensions) : d.pow 1 = d := by
  unfold Dimensions.pow
  rw [if_neg (by decide)]
  cases d with
  | mk base customs =>
    simp only [Dimensions.mk.injEq]
    constructor
    · simp
    · simp

theorem qPow_simple (s : ℚ) (d : Dimensions) (n : Int) :
    (Quantity.mk s d none none none none).qPow n =
      ⟨s ^ n, d.pow n, none, none, none, none⟩ := by
  unfold Quantity.qPow
  by_cases h : n = 1
  · subst h
    rw [if_pos (by decide)]
    simp [Dimensions.pow_one]
  · rw [if_neg (by simpa using h)]

theorem qMulRaw_yNone (q : Quantity) (hsf : q.significantFigures = none)
    (m2 : ℚ) (d2 d3 : Dimensions) (hd : q.dimensions.multiply d2 = .ok d3) :
    Quantity.qMulRaw q ⟨m2, d2, none, none, none, none⟩ =
      .ok ⟨q.magnitude * m2, d3, q.plusMinus.map (fun v => v * m2), none,
        q.offsetUsed, q.unitOutput⟩ := by
  unfold Quantity.qMulRaw
  rw [hd]
  show (if _ then _ else _) = _
  rw [hsf]
  rw [if_neg (by simp [truthyN])]
  cases hpm : q.plusMinus <;> simp [hpm]

theorem foldQuantityUnit_step (len : Nat) (q : Quantity) (hsf : q.significantFigures = none)
    (u : ParsedUnit) (ud : UnitData) (scale : ℚ) (d3 : Dimensions)
    (hud : getUnitData u.unit = .ok ud) (hsc : prefixScale ud u.pfx = .ok scale)
    (hoff : ud.offset = none) (hd : q.dimensions.multiply (ud.d.pow u.power) = .ok d3) :
    foldQuantityUnit len q u =
      .ok ⟨q.magnitude * scale ^ u.power, d3,
        q.plusMinus.map (fun v => v * scale ^ u.power), none, q.offsetUsed,
        q.unitOutput⟩ := by
  unfold foldQuantityUnit
  rw [hud]
  simp only [except_ok_bind, except_bind_ok]
  rw [hsc]
  simp only [except_ok_bind, except_bind_ok]
  rw [qPow_simple, qMulRaw_yNone q hsf (scale ^ u.power) (ud.d.pow u.power) d3 hd]
  simp only [except_ok_bind, except_bind_ok]
  rw [hoff]
  rfl

theorem foldQuantityUnit_step_offset (len : Nat) (q : Quantity)
    (hsf : q.significantFigures = none)
    (u : ParsedUnit) (ud : UnitData) (scale : ℚ) (d3 : Dimensions) (off : ℚ)
    (hud : getUnitData u.unit = .ok ud) (hsc : prefixScale ud u.pfx = .ok scale)
    (hoff : ud.offset = some off) (hne : off ≠ 0) (hlen : len = 1)
    (hd : q.dimensions.multiply (ud.d.pow u.power) = .ok d3) :
    foldQuantityUnit len q u =
      .ok ⟨q.magnitude * scale ^ u.power + off, d3,
        q.plusMinus.map (fun v => v * scale ^ u.power), none, some off,
        q.unitOutput⟩ := by
  unfold foldQuantityUnit
  rw [hud]
  simp only [except_ok_bind, except_bind_ok]
  rw [hsc]
  simp only [except_ok_bind, except_bind_ok]
  rw [qPow_simple, qMulRaw_yNone q hsf (scale ^ u.power) (ud.d.pow u.power) d3 hd]
  simp only [except_ok_bind, except_bind_ok]
  rw [hoff]
  simp [pure, Except.pure, hne, hlen]

theorem mkQuantityUnits_single (mag : ℚ) (pm : Option ℚ) (u : ParsedUnit)
    (ud : UnitData) (scale : ℚ) (d3 : Dimensions)
    (hud : getUnitData u.unit = .ok ud) (hsc : prefixScale ud u.pfx = .ok scale)
    (hoff : ud.offset = none) (hd : Dimensionless.multiply (ud.d.pow u.power) = .ok d3) :
    mkQuantityUnits mag [u] pm none =
      .ok ⟨mag * scale ^ u.power, d3, pm.map (fun v => v * scale ^ u.power), none,
        none, some [u]⟩ := by
  unfold mkQuantityUnits
  rw [List.foldlM_cons]
  rw [foldQuantityUnit_step [u].length ⟨mag, Dimensionless, pm, none, none, some [u]⟩ rfl
    u ud scale d3 hud hsc hoff hd]
  rfl

theorem mkQuantityUnits_single_offset (mag : ℚ) (pm : Option ℚ) (u : ParsedUnit)
    (ud : UnitData) (scale : ℚ) (d3 : Dimensions) (off : ℚ)
    (hud : getUnitData u.unit = .ok ud) (hsc : prefixScale ud u.pfx = .ok scale)
    (hoff : ud.offset = some off) (hne : off ≠ 0)
    (hd : Dimensionless.multiply (ud.d.pow u.power) = .ok d3) :
    mkQuantityUnits mag [u] pm none =
      .ok ⟨mag * scale ^ u.power + off, d3, pm.map (fun v => v * scale ^ u.power),
        none, some off, some [u]⟩ := by
  unfold mkQuantityUnits
  rw [List.foldlM_cons]
  rw [foldQuantityUnit_step_offset [u].length ⟨mag, Dimensionless, pm, none, none, some [u]⟩ rfl
    u ud scale d3 off hud hsc hoff hne rfl hd]
  rfl

end QuantityMath
namespace QuantityMath

/-- C10: `Quantity.equals` and `Quantity.compare` are independent of the
remembered display-unit hint: replacing either argument's `_unitOutput` by
anything else leaves the result unchanged, since only dimensions,
magnitude, `plusMinus` and `significantFigures` are read.  In particular
(third conjunct) a quantity built from `10 J` and one built from
`10 N⋅m` are `equals` despite carrying different hints. -/
theorem C10_equals_compare_hint_independent :
    (∀ (x y : Quantity) (h1 h2 : Option (List ParsedUnit)),
      Quantity.equals { x with unitOutput := h1 } { y with unitOutput := h2 } =
        Quantity.equals x y) ∧
    (∀ (x y : Quantity) (h1 h2 : Option (List ParsedUnit)) (ig : Bool),
      Quantity.compare { x with unitOutput := h1 } { y with unitOutput := h2 } ig =
        Quantity.compare x y ig) ∧
    (∃ qJ qNm : Quantity,
      mkQuantityUnits 10 [⟨none, "J", 1⟩] none none = .ok qJ ∧
        mkQuantityUnits 10 [⟨none, "N", 1⟩, ⟨none, "m", 1⟩] none none = .ok qNm ∧
        qJ.equals qNm = true ∧ qJ.unitOutput ≠ qNm.unitOutput) := by
  refine ⟨fun x y h1 h2 => rfl, fun x y h1 h2 ig => rfl, ?_⟩
  have hJ := mkQuantityUnits_single 10 none ⟨none, "J", 1⟩
    ⟨1e0, NRGY_DIMENSIONS, none, true⟩ 1e0 ⟨[1, 2, -2, 0, 0, 0, 0, 0, 0], []⟩
    rfl rfl rfl (by decide)
  have hNm : mkQuantityUnits 10 [⟨none, "N", 1⟩, ⟨none, "m", 1⟩] none none =
      .ok ⟨10 * 1e0 ^ (1 : Int) * 1e0 ^ (1 : Int), ⟨[1, 2, -2, 0, 0, 0, 0, 0, 0], []⟩,
        none, none, none, some [⟨none, "N", 1⟩, ⟨none, "m", 1⟩]⟩ := by
    unfold mkQuantityUnits
    rw [List.foldlM_cons]
    rw [foldQuantityUnit_step [ParsedUnit.mk none "N" 1, ParsedUnit.mk none "m" 1].length
      ⟨10, Dimensionless, none, none, none,
        some [⟨none, "N", 1⟩, ⟨none, "m", 1⟩]⟩ rfl
      ⟨none, "N", 1⟩ ⟨1e0, ⟨[1, 1, -2, 0, 0, 0, 0, 0, 0], []⟩, none, true⟩ 1e0
      ⟨[1, 1, -2, 0, 0, 0, 0, 0, 0], []⟩ rfl rfl rfl (by decide)]
    simp only [except_ok_bind, except_bind_ok, Option.map_none']
    rw [List.foldlM_cons]
    rw [foldQuantityUnit_step [ParsedUnit.mk none "N" 1, ParsedUnit.mk none "m" 1].length
      ⟨10 * 1e0 ^ (1 : Int), ⟨[1, 1, -2, 0, 0, 0, 0, 0, 0], []⟩, none, none, none,
        some [⟨none, "N", 1⟩, ⟨none, "m", 1⟩]⟩ rfl
      ⟨none, "m", 1⟩ ⟨1e0, DIST_DIMENSION, none, true⟩ 1e0
      ⟨[1, 2, -2, 0, 0, 0, 0, 0, 0], []⟩ rfl rfl rfl (by decide)]
    simp only [except_ok_bind, except_bind_ok, Option.map_none']
    rw [List.foldlM_nil]
    rfl
  refine ⟨_, _, hJ, hNm, ?_, ?_⟩
  · have heq : Dimensions.equalTo ⟨[1, 2, -2, 0, 0, 0, 0, 0, 0], []⟩
        ⟨[1, 2, -2, 0, 0, 0, 0, 0, 0], []⟩ = true := by decide
    norm_num [Quantity.equals, heq]
  · simp

end QuantityMath
namespace QuantityMath

theorem pow_customs_length_le (d : Dimensions) (n : Int) :
    (d.pow n).customs.length ≤ d.customs.length := by
  unfold Dimensions.pow
  split
  · simp [Dimensionless]
  · simp

theorem multiply_dimensionless_ok (d : Dimensions) (h4 : d.customs.length ≤ 4) :
    ∃ d3, Dimensionless.multiply d = .ok d3 := by
  unfold Dimensions.multiply
  split
  · exact ⟨_, rfl⟩
  · rw [if_neg ?_]
    · exact ⟨_, rfl⟩
    · have h1 : (combineCustomDimensionNames Dimensionless d).length =
          ((Dimensionless.customs.map Prod.fst ++ d.customs.map Prod.fst).dedup).length :=
        (sortStr_perm _).length_eq
      have h2 : ((Dimensionless.customs.map Prod.fst ++ d.customs.map Prod.fst).dedup).length ≤
          (Dimensionless.customs.map Prod.fst ++ d.customs.map Prod.fst).length :=
        (List.dedup_sublist _).length_le
      have h3 : (Dimensionless.customs.map Prod.fst ++ d.customs.map Prod.fst).length =
          d.customs.length := by
        simp [Dimensionless]
      omega

theorem foldQuantityUnit_offset_error {len : Nat} (hlen : len ≠ 1) (q : Quantity)
    {u : ParsedUnit} {ud : UnitData} {off : ℚ}
    (hud : getUnitData u.unit = .ok ud) (hoff : ud.offset = some off) (hne : off ≠ 0) :
    ∃ e, foldQuantityUnit len q u = .error e := by
  unfold foldQuantityUnit
  rw [hud]
  simp only [except_ok_bind, except_bind_ok]
  rcases hsc : prefixScale ud u.pfx with e | scale
  · exact ⟨e, rfl⟩
  · simp only [except_ok_bind, except_bind_ok]
    rcases hmul : Quantity.qMulRaw q
        ((Quantity.mk scale ud.d none none none none).qPow u.power) with e | q2
    · exact ⟨e, rfl⟩
    · simp only [except_ok_bind, except_bind_ok]
      rw [hoff]
      refine ⟨.quantityError
        "It is not permitted to use compound units that include the offset unit. Try using K, deltaC, or Pa instead.",
        ?_⟩
      have hb : (off == 0) = false := by simpa using hne
      simp [hb, hlen]

theorem foldlM_error_of_mem {α : Type} (step : Quantity → α → Except QuantityError Quantity) :
    ∀ (l : List α) (u : α), u ∈ l → (∀ q, ∃ e, step q u = .error e) →
      ∀ init, ∃ e, l.foldlM step init = .error e := by
  intro l
  induction l with
  | nil => intro u hu _ _; simp at hu
  | cons v rest ih =>
    intro u hu herr init
    rw [List.foldlM_cons]
    rcases List.mem_cons.mp hu with hu | hu
    · subst hu
      obtain ⟨e, he⟩ := herr init
      rw [he]
      exact ⟨e, rfl⟩
    · rcases hs : step init v with e | q2
      · exact ⟨e, rfl⟩
      · obtain ⟨e, he⟩ := ih u hu herr q2
        exact ⟨e, he⟩

/-- C3: Constructing a `Quantity` from a unit list raises a `QuantityError`
whenever the list contains a unit with a nonzero affine offset (e.g. `degC`,
`degF`) together with any other unit entry (list length different from 1);
when the offset unit (with a resolvable prefix) is the sole entry and no
`significantFigures` option is given, construction succeeds, the offset is
added to the magnitude after scaling, and the applied offset is recorded on
the quantity (`_offsetUsed`) for later inverse conversion. -/
theorem C3_offset_unit_construction (mag : ℚ) (pm : Option ℚ) :
    (∀ (units : List ParsedUnit) (sf : Option Nat), units.length ≠ 1 →
      (∃ u ∈ units, ∃ ud off, getUnitData u.unit = .ok ud ∧
        ud.offset = some off ∧ off ≠ 0) →
      ∃ e, mkQuantityUnits mag units pm sf = .error e) ∧
    (∀ (u : ParsedUnit) (ud : UnitData) (off scale : ℚ),
      getUnitData u.unit = .ok ud → ud.offset = some off → off ≠ 0 →
      prefixScale ud u.pfx = .ok scale →
      ∃ q, mkQuantityUnits mag [u] pm none = .ok q ∧
        q.magnitude = mag * scale ^ u.power + off ∧ q.offsetUsed = some off) := by
  constructor
  · intro units sf hlen hex
    obtain ⟨u, hu, ud, off, hud, hoff, hne⟩ := hex
    exact foldlM_error_of_mem (foldQuantityUnit units.length) units u hu
      (fun q => foldQuantityUnit_offset_error hlen q hud hoff hne) _
  · intro u ud off scale hud hoff hne hsc
    have hval : ud.d.Valid := getUnitData_valid hud
    obtain ⟨d3, hd⟩ := multiply_dimensionless_ok (ud.d.pow u.power)
      (le_trans (pow_customs_length_le ud.d u.power) hval.2.2)
    refine ⟨_, mkQuantityUnits_single_offset mag pm u ud scale d3 off hud hsc hoff hne hd,
      rfl, rfl⟩

/-- C3 witness: applying `C3_offset_unit_construction` to `100 degC` (sole
entry: succeeds with magnitude `100 + 273.15 = 373.15` K and
`_offsetUsed = 273.15`) and to the compound list `degC⋅m` (raises). -/
theorem C3_offset_unit_construction_witness :
    (∃ q, mkQuantityUnits 100 [⟨none, "degC", 1⟩] none none = .ok q ∧
      q.magnitude = 373.15 ∧ q.offsetUsed = some 2.7315e2) ∧
    (∃ e, mkQuantityUnits 100 [⟨none, "degC", 1⟩, ⟨none, "m", 1⟩] none none = .error e) := by
  constructor
  · obtain ⟨q, hok, hmag, hoff⟩ := (C3_offset_unit_construction 100 none).2
      ⟨none, "degC", 1⟩ ⟨1e0, TEMP_DIMENSION, some 2.7315e2, false⟩ 2.7315e2 1e0
      rfl rfl (by norm_num) rfl
    refine ⟨q, hok, ?_, hoff⟩
    rw [hmag]
    norm_num
  · exact (C3_offset_unit_construction 100 none).1
      [⟨none, "degC", 1⟩, ⟨none, "m", 1⟩] none (by simp)
      ⟨⟨none, "degC", 1⟩, by simp, ⟨1e0, TEMP_DIMENSION, some 2.7315e2, false⟩,
        2.7315e2, rfl, rfl, by norm_num⟩

end QuantityMath
namespace QuantityMath

theorem except_error_bind {α β : Type} (e : QuantityError) (f : α → Except QuantityError β) :
    (Except.error e : Except QuantityError α) >>= f = Except.error e := rfl

theorem except_bind_error {α β : Type} (e : QuantityError) (f : α → Except QuantityError β) :
    Except.bind (Except.error e : Except QuantityError α) f = Except.error e := rfl

/-- `_multiply`'s output fields, read off a successful run: the magnitude is
the product, and the uncertainty is the source's four-way branch. -/
theorem qMulRaw_ok_fields {x y z : Quantity} (h : Quantity.qMulRaw x y = .ok z) :
    z.magnitude = x.magnitude * y.magnitude ∧
    z.plusMinus =
      (match x.plusMinus with
       | none =>
         match y.plusMinus with
         | none => none
         | some u => some (u * x.magnitude)
       | some u1 =>
         match y.plusMinus with
         | some u2 =>
           if u2 == 0 then some (u1 * y.magnitude)
           else some ((u1 / x.magnitude + u2 / y.magnitude) *
             (x.magnitude * y.magnitude))
         | none => some (u1 * y.magnitude)) := by
  unfold Quantity.qMulRaw at h
  rcases hd : x.dimensions.multiply y.dimensions with e | dims
  · rw [hd] at h
    simp only [except_error_bind, except_bind_error] at h
    cases h
  · rw [hd] at h
    simp only [except_ok_bind, except_bind_ok] at h
    by_cases hsf : (truthyN x.significantFigures || truthyN y.significantFigures) = true
    · rw [if_pos hsf] at h
      cases h
    · rw [if_neg hsf] at h
      cases h
      exact ⟨rfl, rfl⟩

/-- C5 (amended): for quantities with nonzero magnitudes, a successful
`multiply` has the product magnitude, and its uncertainty is: absent when
neither operand carries one; `u × otherMagnitude` when exactly one operand
carries `u`; and `(u1/m1 + u2/m2) × (m1 × m2)` when both do.  (The
nonzero-magnitude hypotheses are needed: with `m1 = 0` and `u2 = 0` the
code's `u1 × m2` shortcut differs from the claimed formula, whose `u1/m1`
is not a finite number in JavaScript.) -/
theorem C5_multiply_uncertainty (x y z : Quantity)
    (hm1 : x.magnitude ≠ 0) (hm2 : y.magnitude ≠ 0)
    (h : Quantity.multiply x y = .ok z) :
    z.magnitude = x.magnitude * y.magnitude ∧
    (x.plusMinus = none → y.plusMinus = none → z.plusMinus = none) ∧
    (∀ u, x.plusMinus = some u → y.plusMinus = none →
      z.plusMinus = some (u * y.magnitude)) ∧
    (∀ u, x.plusMinus = none → y.plusMinus = some u →
      z.plusMinus = some (u * x.magnitude)) ∧
    (∀ u1 u2, x.plusMinus = some u1 → y.plusMinus = some u2 →
      z.plusMinus = some ((u1 / x.magnitude + u2 / y.magnitude) *
        (x.magnitude * y.magnitude))) := by
  unfold Quantity.multiply at h
  rcases hq : multiplyUnitOutput x y with e | nuo
  · rw [hq, except_error_bind] at h
    cases h
  · rw [hq, except_ok_bind] at h
    obtain ⟨hmag, hpm⟩ := qMulRaw_ok_fields h
    have hcm : (x.clone (some nuo)).magnitude = x.magnitude := rfl
    have hcp : (x.clone (some nuo)).plusMinus = x.plusMinus := rfl
    rw [hcm] at hmag hpm
    rw [hcp] at hpm
    refine ⟨hmag, ?_, ?_, ?_, ?_⟩
    · intro hx hy
      rw [hx, hy] at hpm
      simpa using hpm
    · intro u hx hy
      rw [hx, hy] at hpm
      simpa using hpm
    · intro u hx hy
      rw [hx, hy] at hpm
      simpa using hpm
    · intro u1 u2 hx hy
      rw [hx, hy] at hpm
      simp only [beq_iff_eq] at hpm
      by_cases hu2 : u2 = 0
      · rw [if_pos hu2] at hpm
        subst hu2
        have hval : (u1 / x.magnitude + (0 : ℚ) / y.magnitude) *
            (x.magnitude * y.magnitude) = u1 * y.magnitude := by
          field_simp
          ring
        rw [hpm, hval]
      · rw [if_neg hu2] at hpm
        exact hpm

/-- C5 counterexample: the claim's both-carry formula fails when a magnitude
is zero.  With `x = 0 ± 1` and `y = 2 ± 0` (both uncertainties present, so
the claim's third case applies), the code's `_multiply` takes the truthiness
branch `if (y._plusMinus)` and returns uncertainty `u1 × m2 = 2`, while the
claimed formula `(u1/m1 + u2/m2) × (m1 × m2)` gives `0` in exact arithmetic
(and `Infinity × 0 = NaN` in JavaScript) — not `2`. -/
theorem C5_multiply_uncertainty_counterexample :
    ∃ z, Quantity.multiply ⟨0, Dimensionless, some 1, none, none, none⟩
        ⟨2, Dimensionless, some 0, none, none, none⟩ = .ok z ∧
      z.plusMinus = some 2 ∧
      ((1 : ℚ) / 0 + (0 : ℚ) / 2) * (0 * 2) = 0 ∧ (2 : ℚ) ≠ 0 := by
  refine ⟨⟨0, Dimensionless, some 2, none, none, none⟩, ?_, rfl, by norm_num, by norm_num⟩
  unfold Quantity.multiply
  rw [show multiplyUnitOutput ⟨0, Dimensionless, some 1, none, none, none⟩
      ⟨2, Dimensionless, some 0, none, none, none⟩ = .ok none from rfl,
    except_ok_bind]
  norm_num [Quantity.clone, mkQuantityDims, Quantity.qMulRaw,
    show Dimensions.multiply Dimensionless Dimensionless = .ok Dimensionless from by decide,
    except_ok_bind, except_bind_ok, truthyN]

end QuantityMath
namespace QuantityMath

/-- C5 witness: the spec's own example, `4.52 ± 0.02` times `2.0 ± 0.2`
(in the same length unit): magnitude `9.04` and uncertainty
`(0.02/4.52 + 0.2/2) × 9.04 = 0.944`. -/
theorem C5_multiply_uncertainty_witness :
    (4.52 : ℚ) ≠ 0 ∧ (2 : ℚ) ≠ 0 ∧
    ∃ z, Quantity.multiply ⟨4.52, Dimensionless, some 0.02, none, none, none⟩
        ⟨2, Dimensionless, some 0.2, none, none, none⟩ = .ok z ∧
      z.magnitude = 4.52 * 2 ∧
      z.plusMinus = some ((0.02 / 4.52 + 0.2 / 2) * (4.52 * 2)) ∧
      z.magnitude = 9.04 ∧ z.plusMinus = some 0.944 := by
  have hmul : Quantity.multiply ⟨4.52, Dimensionless, some 0.02, none, none, none⟩
      ⟨2, Dimensionless, some 0.2, none, none, none⟩ =
      .ok ⟨9.04, Dimensionless, some 0.944, none, none, none⟩ := by
    unfold Quantity.multiply
    rw [show multiplyUnitOutput ⟨4.52, Dimensionless, some 0.02, none, none, none⟩
        ⟨2, Dimensionless, some 0.2, none, none, none⟩ = .ok none from rfl,
      except_ok_bind]
    norm_num [Quantity.clone, mkQuantityDims, Quantity.qMulRaw,
      show Dimensions.multiply Dimensionless Dimensionless = .ok Dimensionless from by decide,
      except_ok_bind, except_bind_ok, truthyN]
  obtain ⟨hmag, h1, h2, h3, hboth⟩ :=
    C5_multiply_uncertainty _ _ _ (by norm_num) (by norm_num) hmul
  exact ⟨by norm_num, by norm_num, _, hmul, hmag, hboth 0.02 0.2 rfl rfl, rfl, rfl⟩

end QuantityMath
namespace QuantityMath

/-- Modelled from the spec: the claimed hint union — both operands' entries
in first-seen order, de-duplicated by unit symbol (`seen` carries the unit
symbols already taken). -/
def firstSeen : List ParsedUnit → List String → List ParsedUnit
  | [], _ => []
  | u :: rest, seen =>
    if u.unit ∈ seen then firstSeen rest seen
    else u :: firstSeen rest (u.unit :: seen)

theorem firstSeen_congr : ∀ (l : List ParsedUnit) (s1 s2 : List String),
    (∀ a, a ∈ s1 ↔ a ∈ s2) → firstSeen l s1 = firstSeen l s2 := by
  intro l
  induction l with
  | nil => intro s1 s2 _; rfl
  | cons u rest ih =>
    intro s1 s2 hs
    simp only [firstSeen]
    by_cases hm : u.unit ∈ s1
    · rw [if_pos hm, if_pos ((hs u.unit).mp hm), ih s1 s2 hs]
    · rw [if_neg hm, if_neg (fun hc => hm ((hs u.unit).mpr hc))]
      rw [ih (u.unit :: s1) (u.unit :: s2) fun a => by simp [hs a]]

theorem dedupe_foldl_firstSeen : ∀ (l acc : List ParsedUnit),
    l.foldl (fun acc u => if acc.any fun eu => eu.unit == u.unit then acc else acc ++ [u]) acc
      = acc ++ firstSeen l (acc.map fun v => v.unit) := by
  intro l
  induction l with
  | nil => intro acc; simp [firstSeen]
  | cons u rest ih =>
    intro acc
    simp only [List.foldl_cons]
    by_cases hmem : (acc.any fun eu => eu.unit == u.unit) = true
    · rw [if_pos hmem, ih]
      have hin : u.unit ∈ acc.map fun v => v.unit := by
        obtain ⟨eu, heu, he⟩ := List.any_eq_true.mp hmem
        exact List.mem_map.mpr ⟨eu, heu, by simpa using he⟩
      simp only [firstSeen]
      rw [if_pos hin]
    · rw [if_neg hmem, ih]
      have hin : ¬ u.unit ∈ acc.map fun v => v.unit := by
        intro hc
        obtain ⟨eu, heu, he⟩ := List.mem_map.mp hc
        exact hmem (List.any_eq_true.mpr ⟨eu, heu, by simpa using he⟩)
      simp only [firstSeen]
      rw [if_neg hin]
      rw [List.map_append, List.append_assoc]
      simp only [List.map_cons, List.map_nil, List.singleton_append]
      rw [firstSeen_congr rest ((acc.map fun v => v.unit) ++ [u.unit])
        (u.unit :: acc.map fun v => v.unit) fun a => by simp [or_comm]]

theorem dedupeByUnit_eq_firstSeen (l : List ParsedUnit) :
    dedupeByUnit l = firstSeen l [] := by
  unfold dedupeByUnit
  rw [dedupe_foldl_firstSeen]
  simp

end QuantityMath
namespace QuantityMath

/-- C4 (amended): the current `add` does not union hints at all — a
successful `x.add(y)` keeps exactly the receiver `x`'s display-unit hint
(normalized through the constructor, so an empty hint becomes absent);
the historical `_unitHintSet` version (`src/quantity.ts`) is the one that
returns the union of both operands' hints de-duplicated by unit symbol in
first-seen order, and its result hint is absent exactly when that union is
empty (not only when both operand hints are absent: an explicitly empty
hint array on an operand also yields an absent hint). -/
theorem C4_add_hint_union (x y z zOld : Quantity) :
    (Quantity.add x y = .ok z →
      z.unitOutput = if x.unitOutput = some [] then none else x.unitOutput) ∧
    (Quantity.addOld x y = .ok zOld →
      zOld.unitOutput =
        if (firstSeen (x.unitOutput.getD [] ++ y.unitOutput.getD []) []).isEmpty
        then none
        else some (firstSeen (x.unitOutput.getD [] ++ y.unitOutput.getD []) [])) := by
  constructor
  · intro h
    unfold Quantity.add at h
    by_cases h1 : (!(x.dimensions.equalTo y.dimensions)) = true
    · rw [if_pos h1] at h
      cases h
    · rw [if_neg h1] at h
      by_cases h2 : (truthyN x.significantFigures || truthyN y.significantFigures) = true
      · rw [if_pos h2] at h
        cases h
      · rw [if_neg h2] at h
        cases h
        rfl
  · intro h
    unfold Quantity.addOld at h
    by_cases h1 : (!(x.dimensions.equalTo y.dimensions)) = true
    · rw [if_pos h1] at h
      cases h
    · rw [if_neg h1] at h
      by_cases h2 : (truthyN x.significantFigures || truthyN y.significantFigures) = true
      · rw [if_pos h2] at h
        cases h
      · rw [if_neg h2] at h
        cases h
        show combineUnitHints x.unitOutput y.unitOutput = _
        rw [combineUnitHints, dedupeByUnit_eq_firstSeen]

/-- C4 counterexample: (1) under the current `add`, `1 m  +  1 ft` (equal
dimensions, hints `[m]` and `[ft]`) keeps only the receiver's hint `[m]`,
while the claimed union in first-seen order is `[m, ft]`; (2) under the
historical `_unitHintSet` `add`, an operand with an explicitly empty hint
array added to an operand with no hint gives an absent hint even though not
both operand hints are absent. -/
theorem C4_add_hint_union_counterexample :
    (∃ z, Quantity.add ⟨1, DIST_DIMENSION, none, none, none, some [⟨none, "m", 1⟩]⟩
        ⟨1, DIST_DIMENSION, none, none, none, some [⟨none, "ft", 1⟩]⟩ = .ok z ∧
      z.unitOutput = some [⟨none, "m", 1⟩] ∧
      firstSeen ([⟨none, "m", 1⟩] ++ [⟨none, "ft", 1⟩]) [] =
        [⟨none, "m", 1⟩, ⟨none, "ft", 1⟩] ∧
      z.unitOutput ≠ some [⟨none, "m", 1⟩, ⟨none, "ft", 1⟩]) ∧
    (∃ z, Quantity.addOld ⟨1, Dimensionless, none, none, none, some []⟩
        ⟨1, Dimensionless, none, none, none, none⟩ = .ok z ∧
      z.unitOutput = none ∧
      ¬ ((some [] : Option (List ParsedUnit)) = none ∧
         (none : Option (List ParsedUnit)) = none)) := by
  constructor
  · have hadd : Quantity.add ⟨1, DIST_DIMENSION, none, none, none, some [⟨none, "m", 1⟩]⟩
        ⟨1, DIST_DIMENSION, none, none, none, some [⟨none, "ft", 1⟩]⟩ =
        .ok (mkQuantityDims (1 + 1) DIST_DIMENSION none none (some [⟨none, "m", 1⟩])) := by
      unfold Quantity.add
      rw [if_neg (by decide), if_neg (by decide)]
      rfl
    exact ⟨_, hadd, by decide, by decide, by decide⟩
  · have hold : Quantity.addOld ⟨1, Dimensionless, none, none, none, some []⟩
        ⟨1, Dimensionless, none, none, none, none⟩ =
        .ok ⟨1 + 1, Dimensionless, none, none, none, none⟩ := by
      unfold Quantity.addOld
      rw [if_neg (by decide), if_neg (by decide)]
      rfl
    exact ⟨_, hold, rfl, by decide⟩

/-- C4 witness: `5 kg + 500 g` (hints `[kg]` and `[g]`).  The current `add`
keeps the receiver's hint `[kg]`; the historical version unions and
de-duplicates by unit symbol, which here also gives `[kg]` since both
entries share the symbol `g`. -/
theorem C4_add_hint_union_witness :
    (∃ z, Quantity.add ⟨5, MASS_DIMENSION, none, none, none, some [⟨some "k", "g", 1⟩]⟩
        ⟨1/2, MASS_DIMENSION, none, none, none, some [⟨none, "g", 1⟩]⟩ = .ok z ∧
      z.unitOutput = some [⟨some "k", "g", 1⟩]) ∧
    (∃ z, Quantity.addOld ⟨5, MASS_DIMENSION, none, none, none, some [⟨some "k", "g", 1⟩]⟩
        ⟨1/2, MASS_DIMENSION, none, none, none, some [⟨none, "g", 1⟩]⟩ = .ok z ∧
      z.unitOutput = some [⟨some "k", "g", 1⟩]) := by
  have hadd : Quantity.add ⟨5, MASS_DIMENSION, none, none, none, some [⟨some "k", "g", 1⟩]⟩
      ⟨1/2, MASS_DIMENSION, none, none, none, some [⟨none, "g", 1⟩]⟩ =
      .ok (mkQuantityDims (5 + 1/2) MASS_DIMENSION none none (some [⟨some "k", "g", 1⟩])) := by
    unfold Quantity.add
    rw [if_neg (by decide), if_neg (by decide)]
    rfl
  have haddOld : Quantity.addOld ⟨5, MASS_DIMENSION, none, none, none, some [⟨some "k", "g", 1⟩]⟩
      ⟨1/2, MASS_DIMENSION, none, none, none, some [⟨none, "g", 1⟩]⟩ =
      .ok ⟨5 + 1/2, MASS_DIMENSION, none, none, none,
        combineUnitHints (some [⟨some "k", "g", 1⟩]) (some [⟨none, "g", 1⟩])⟩ := by
    unfold Quantity.addOld
    rw [if_neg (by decide), if_neg (by decide)]
    rfl
  constructor
  · refine ⟨_, hadd, ?_⟩
    rw [(C4_add_hint_union _ _ _ (mkQuantityBare 0 none none)).1 hadd]
    decide
  · refine ⟨_, haddOld, ?_⟩
    rw [(C4_add_hint_union ⟨5, MASS_DIMENSION, none, none, none, some [⟨some "k", "g", 1⟩]⟩
      ⟨1/2, MASS_DIMENSION, none, none, none, some [⟨none, "g", 1⟩]⟩
      (mkQuantityBare 0 none none) _).2 haddOld]
    decide

end QuantityMath
namespace QuantityMath

theorem splitOnChar_ne_nil (sep : Char) : ∀ l, splitOnChar sep l ≠ [] := by
  intro l
  cases l with
  | nil => simp [splitOnChar]
  | cons c r =>
    simp only [splitOnChar]
    by_cases h : c = sep
    · simp [h]
    · rw [if_neg h]
      rcases splitOnChar sep r with _ | ⟨a, b⟩ <;> simp

theorem splitTokens_ne_nil : ∀ l, splitTokens l ≠ [] := by
  intro l
  cases l with
  | nil => simp [splitTokens]
  | cons c r =>
    simp only [splitTokens]
    by_cases h1 : isSpaceChar c = true
    · simp [h1]
    · rw [if_neg h1]
      by_cases h2 : c = '⋅'
      · simp [h2]
      · rw [if_neg h2]
        rcases splitTokens r with _ | ⟨a, b⟩ <;> simp

theorem mapM_ok_length {α β : Type} (f : α → Except QuantityError β) :
    ∀ (l : List α) (res : List β), l.mapM f = .ok res → res.length = l.length := by
  intro l
  induction l with
  | nil =>
    intro res h
    simp only [List.mapM_nil] at h
    cases h
    rfl
  | cons a rest ih =>
    intro res h
    rw [List.mapM_cons] at h
    rcases hf : f a with e | b
    · rw [hf] at h
      cases h
    · rw [hf] at h
      rcases hr : rest.mapM f with e | bs
      · rw [hr] at h
        cases h
      · rw [hr] at h
        cases h
        simp [ih bs hr]

theorem parseUnits_ok_ne_nil {s : String} {units : List ParsedUnit}
    (h : parseUnits s = .ok units) : units ≠ [] := by
  simp only [parseUnits] at h
  rcases hsec : splitOnChar '/' s.data with _ | ⟨num, rest⟩
  · exact absurd hsec (splitOnChar_ne_nil '/' s.data)
  · rw [hsec] at h
    rcases rest with _ | ⟨den, rest2⟩
    · rw [if_neg (by simp)] at h
      have hlen := mapM_ok_length _ _ _ h
      have := splitTokens_ne_nil (trimChars num)
      intro hc
      subst hc
      simp only [List.length_nil] at hlen
      exact this (List.length_eq_zero.mp hlen.symm)
    · rcases rest2 with _ | ⟨x3, rest3⟩
      · rw [if_neg (by simp)] at h
        replace h : (do
            let np ← (splitTokens (trimChars num)).mapM fun t => parseSingleUnit (String.mk t)
            let dp ← (splitTokens (trimChars den)).mapM fun t => parseSingleUnit (String.mk t)
            Except.ok (np ++ dp.map fun u => { u with power := -u.power })) =
            Except.ok units := h
        rcases hnp : (splitTokens (trimChars num)).mapM
            (fun t => parseSingleUnit (String.mk t)) with e | np
        · rw [hnp] at h
          cases h
        · rw [hnp] at h
          simp only [except_ok_bind, except_bind_ok] at h
          rcases hdp : (splitTokens (trimChars den)).mapM
              (fun t => parseSingleUnit (String.mk t)) with e | dp
          · rw [hdp] at h
            cases h
          · rw [hdp] at h
            simp only [except_ok_bind, except_bind_ok] at h
            cases h
            have hlen := mapM_ok_length _ _ _ hnp
            have := splitTokens_ne_nil (trimChars num)
            intro hc
            rcases List.append_eq_nil.mp hc with ⟨h1, h2⟩
            subst h1
            simp only [List.length_nil] at hlen
            exact this (List.length_eq_zero.mp hlen.symm)
      · rw [if_pos (by simp only [List.length_cons]; omega)] at h
        cases h

theorem mkQuantityDims_hint_ne_empty (mag : ℚ) (dims : Dimensions) (pm : Option ℚ)
    (sf : Option Nat) (hint : Option (List ParsedUnit)) :
    (mkQuantityDims mag dims pm sf hint).unitOutput ≠ some [] := by
  simp only [mkQuantityDims]
  by_cases hh : hint = some []
  · rw [if_pos hh]
    simp
  · rw [if_neg hh]
    exact hh

theorem qMulRaw_ok_unitOutput {x y z : Quantity} (h : Quantity.qMulRaw x y = .ok z) :
    z.unitOutput = x.unitOutput := by
  unfold Quantity.qMulRaw at h
  rcases hd : x.dimensions.multiply y.dimensions with e | dims
  · rw [hd] at h
    simp only [except_error_bind, except_bind_error] at h
    cases h
  · rw [hd] at h
    simp only [except_ok_bind, except_bind_ok] at h
    by_cases hsf : (truthyN x.significantFigures || truthyN y.significantFigures) = true
    · rw [if_pos hsf] at h
      cases h
    · rw [if_neg hsf] at h
      cases h
      rfl

theorem foldQuantityUnit_ok_unitOutput {len : Nat} {q q2 : Quantity} {u : ParsedUnit}
    (h : foldQuantityUnit len q u = .ok q2) : q2.unitOutput = q.unitOutput := by
  unfold foldQuantityUnit at h
  rcases hud : getUnitData u.unit with e | ud
  · rw [hud] at h
    simp only [except_error_bind, except_bind_error] at h
    cases h
  · rw [hud] at h
    simp only [except_ok_bind, except_bind_ok] at h
    rcases hsc : prefixScale ud u.pfx with e | scale
    · rw [hsc] at h
      cases h
    · rw [hsc] at h
      simp only [except_ok_bind, except_bind_ok] at h
      rcases hmul : Quantity.qMulRaw q
          ((Quantity.mk scale ud.d none none none none).qPow u.power) with e | q3
      · rw [hmul] at h
        cases h
      · rw [hmul] at h
        simp only [except_ok_bind, except_bind_ok] at h
        have hq3 : q3.unitOutput = q.unitOutput := qMulRaw_ok_unitOutput hmul
        rcases hoff : ud.offset with _ | off
        · rw [hoff] at h
          cases h
          exact hq3
        · rw [hoff] at h
          simp only at h
          by_cases h0 : (off == 0) = true
          · rw [if_pos h0] at h
            cases h
            exact hq3
          · rw [if_neg h0] at h
            by_cases hlen : len ≠ 1
            · rw [if_pos hlen] at h
              cases h
            · rw [if_neg hlen] at h
              cases h
              exact hq3

theorem foldlM_units_preserves_unitOutput {len : Nat} :
    ∀ (l : List ParsedUnit) (init q : Quantity),
      l.foldlM (foldQuantityUnit len) init = .ok q → q.unitOutput = init.unitOutput := by
  intro l
  induction l with
  | nil =>
    intro init q h
    cases h
    rfl
  | cons u rest ih =>
    intro init q h
    rw [List.foldlM_cons] at h
    rcases hs : foldQuantityUnit len init u with e | q2
    · rw [hs] at h
      cases h
    · rw [hs] at h
      simp only [except_ok_bind, except_bind_ok] at h
      rw [ih q2 q h, foldQuantityUnit_ok_unitOutput hs]

theorem mkQuantityUnits_ok_unitOutput {mag : ℚ} {units : List ParsedUnit} {pm : Option ℚ}
    {sf : Option Nat} {q : Quantity} (h : mkQuantityUnits mag units pm sf = .ok q) :
    q.unitOutput = some units := by
  unfold mkQuantityUnits at h
  exact foldlM_units_preserves_unitOutput units _ q h

theorem add_ok_hint_ne_empty {x y z : Quantity} (h : Quantity.add x y = .ok z) :
    z.unitOutput ≠ some [] := by
  unfold Quantity.add at h
  by_cases h1 : (!(x.dimensions.equalTo y.dimensions)) = true
  · rw [if_pos h1] at h
    cases h
  · rw [if_neg h1] at h
    by_cases h2 : (truthyN x.significantFigures || truthyN y.significantFigures) = true
    · rw [if_pos h2] at h
      cases h
    · rw [if_neg h2] at h
      cases h
      exact mkQuantityDims_hint_ne_empty _ _ _ _ _

end QuantityMath
namespace QuantityMath

/-- C9 (amended): the never-an-empty-hint normalization holds on the
dimensions branch of the constructor and in every arithmetic result
(`add`, `sub`, `multiply`, `convert` all build their result through it)
and on the string path (a unit string parses to a non-empty unit list);
but the explicit `ParsedUnit`-list constructor path stores the given list
verbatim — even an empty one, since an empty array is truthy in
JavaScript — so the invariant fails exactly there. -/
theorem C9_hint_never_empty :
    (∀ (mag : ℚ) (dims : Dimensions) (pm : Option ℚ) (sf : Option Nat)
       (hint : Option (List ParsedUnit)),
      (mkQuantityDims mag dims pm sf hint).unitOutput ≠ some []) ∧
    (∀ (mag : ℚ) (pm : Option ℚ) (sf : Option Nat),
      (mkQuantityBare mag pm sf).unitOutput = none) ∧
    (∀ (mag : ℚ) (s : String) (pm : Option ℚ) (sf : Option Nat) (q : Quantity),
      mkQuantityStr mag s pm sf = .ok q → q.unitOutput ≠ some []) ∧
    (∀ (mag : ℚ) (units : List ParsedUnit) (pm : Option ℚ) (sf : Option Nat) (q : Quantity),
      mkQuantityUnits mag units pm sf = .ok q → q.unitOutput = some units) ∧
    (∀ x y z : Quantity, Quantity.add x y = .ok z → z.unitOutput ≠ some []) ∧
    (∀ x y z : Quantity, Quantity.sub x y = .ok z → z.unitOutput ≠ some []) ∧
    (∀ x y z : Quantity, Quantity.multiply x y = .ok z → z.unitOutput ≠ some []) ∧
    (∀ (x : Quantity) (units : List ParsedUnit) (z : Quantity),
      Quantity.convert x units = .ok z → z.unitOutput ≠ some []) := by
  refine ⟨mkQuantityDims_hint_ne_empty, fun _ _ _ => rfl, ?_, ?_, ?_, ?_, ?_, ?_⟩
  · intro mag s pm sf q h
    unfold mkQuantityStr at h
    by_cases hs : s = ""
    · rw [if_pos hs] at h
      cases h
      simp [mkQuantityBare]
    · rw [if_neg hs] at h
      rcases hp : parseUnits s with e | units
      · rw [hp] at h
        simp only [except_error_bind, except_bind_error] at h
        cases h
      · rw [hp] at h
        simp only [except_ok_bind, except_bind_ok] at h
        rw [mkQuantityUnits_ok_unitOutput h]
        intro hc
        exact parseUnits_ok_ne_nil hp (by simpa using hc)
  · intro mag units pm sf q h
    exact mkQuantityUnits_ok_unitOutput h
  · intro x y z h
    exact add_ok_hint_ne_empty h
  · intro x y z h
    unfold Quantity.sub at h
    exact add_ok_hint_ne_empty h
  · intro x y z h
    unfold Quantity.multiply at h
    rcases hq : multiplyUnitOutput x y with e | nuo
    · rw [hq] at h
      simp only [except_error_bind, except_bind_error] at h
      cases h
    · rw [hq] at h
      simp only [except_ok_bind, except_bind_ok] at h
      rw [qMulRaw_ok_unitOutput h]
      exact mkQuantityDims_hint_ne_empty _ _ _ _ _
  · intro x units z h
    unfold Quantity.convert at h
    rcases hd : units.foldlM
        (fun d u => do
          let ud ← getUnitData u.unit
          d.multiply (ud.d.pow u.power))
        Dimensionless with e | dims
    · rw [hd] at h
      simp only [except_error_bind, except_bind_error] at h
      cases h
    · rw [hd] at h
      simp only [except_ok_bind, except_bind_ok] at h
      by_cases he : (!(x.dimensions.equalTo dims)) = true
      · rw [if_pos he] at h
        cases h
      · rw [if_neg he] at h
        cases h
        exact mkQuantityDims_hint_ne_empty _ _ _ _ _

/-- C9 counterexample: constructing a `Quantity` with an explicitly empty
`ParsedUnit` list (truthy in JavaScript) stores the empty list as the hint
— present and empty, not normalized to absent. -/
theorem C9_hint_never_empty_counterexample :
    mkQuantityUnits 5 [] none none = .ok ⟨5, Dimensionless, none, none, none, some []⟩ ∧
    (some ([] : List ParsedUnit)) ≠ none := by
  exact ⟨rfl, by decide⟩

/-- C9 witness: the theorem applied to concrete constructions — the
dimensions branch with an empty internal hint (normalized away), the empty
unit string (no hint), a one-unit `5 m` list (hint `[m]`), and
`1 + 1`, `1 - 1`, `1 × 1`, `convert` to no units on plain numbers. -/
theorem C9_hint_never_empty_witness :
    (mkQuantityDims 5 Dimensionless none none (some [])).unitOutput ≠ some [] ∧
    (∃ q, mkQuantityStr 5 "" none none = .ok q ∧ q.unitOutput ≠ some []) ∧
    (∃ q, mkQuantityUnits 5 [⟨none, "m", 1⟩] none none = .ok q ∧
      q.unitOutput = some [⟨none, "m", 1⟩]) ∧
    (∃ z, Quantity.add ⟨1, Dimensionless, none, none, none, none⟩
      ⟨1, Dimensionless, none, none, none, none⟩ = .ok z ∧ z.unitOutput ≠ some []) ∧
    (∃ z, Quantity.sub ⟨1, Dimensionless, none, none, none, none⟩
      ⟨1, Dimensionless, none, none, none, none⟩ = .ok z ∧ z.unitOutput ≠ some []) ∧
    (∃ z, Quantity.multiply ⟨1, Dimensionless, none, none, none, none⟩
      ⟨1, Dimensionless, none, none, none, none⟩ = .ok z ∧ z.unitOutput ≠ some []) ∧
    (∃ z, Quantity.convert ⟨1, Dimensionless, none, none, none, none⟩ [] = .ok z ∧
      z.unitOutput ≠ some []) := by
  obtain ⟨hdims, hbare, hstr, hunits, hadd, hsub, hmul, hconv⟩ := C9_hint_never_empty
  have hstr0 : mkQuantityStr 5 "" none none = .ok (mkQuantityBare 5 none none) := rfl
  have hu0 : mkQuantityUnits 5 [⟨none, "m", 1⟩] none none =
      .ok ⟨5 * (1e0 : ℚ) ^ (1 : Int), DIST_DIMENSION, none, none, none,
        some [⟨none, "m", 1⟩]⟩ := by
    have := mkQuantityUnits_single 5 none ⟨none, "m", 1⟩ ⟨1e0, DIST_DIMENSION, none, true⟩
      1e0 DIST_DIMENSION rfl rfl rfl (by decide)
    simpa using this
  have hadd0 : Quantity.add ⟨1, Dimensionless, none, none, none, none⟩
      ⟨1, Dimensionless, none, none, none, none⟩ =
      .ok (mkQuantityDims (1 + 1) Dimensionless none none none) := by
    unfold Quantity.add
    rw [if_neg (by decide), if_neg (by decide)]
    rfl
  have hsub0 : Quantity.sub ⟨1, Dimensionless, none, none, none, none⟩
      ⟨1, Dimensionless, none, none, none, none⟩ =
      .ok (mkQuantityDims (1 + (0 - 1)) Dimensionless none none none) := by
    unfold Quantity.sub Quantity.add
    rw [if_neg (by decide), if_neg (by decide)]
    rfl
  have hmul0 : Quantity.multiply ⟨1, Dimensionless, none, none, none, none⟩
      ⟨1, Dimensionless, none, none, none, none⟩ =
      .ok ⟨1 * 1, Dimensionless, none, none, none, none⟩ := by
    unfold Quantity.multiply
    rw [show multiplyUnitOutput ⟨1, Dimensionless, none, none, none, none⟩
        ⟨1, Dimensionless, none, none, none, none⟩ = .ok none from rfl,
      except_ok_bind]
    unfold Quantity.qMulRaw
    rw [show Dimensions.multiply (Quantity.clone
        ⟨1, Dimensionless, none, none, none, none⟩ (some none)).dimensions
        Dimensionless = .ok Dimensionless from by decide]
    rw [except_ok_bind]
    rfl
  have hconv0 : Quantity.convert ⟨1, Dimensionless, none, none, none, none⟩ [] =
      .ok ⟨1, Dimensionless, none, none, none, none⟩ := rfl
  refine ⟨hdims 5 Dimensionless none none (some []), ⟨_, hstr0, hstr 5 "" none none _ hstr0⟩,
    ⟨_, hu0, hunits 5 [⟨none, "m", 1⟩] none none _ hu0⟩,
    ⟨_, hadd0, hadd _ _ _ hadd0⟩, ⟨_, hsub0, hsub _ _ _ hsub0⟩,
    ⟨_, hmul0, hmul _ _ _ hmul0⟩, ⟨_, hconv0, hconv _ _ _ hconv0⟩⟩

end QuantityMath
namespace QuantityMath

/-! ## The unit simplifier (`Quantity.pickUnitsFromListIterativeReduction`)

The scan state mirrors the JavaScript locals: `none` stands for the initial
`bestIdx = -1`, `bestInv = 0`, `bestRemainder = remainder`, and
`some (bestIdx, bestInv, bestRemainder)` for the state after an update. -/

/-- The labelled `unitsLoop` scan of one iteration: for each candidate unit
try the inverted form (`isInv = 1`) and then the direct form (`isInv = -1`);
a candidate that beats the best so far (strictly smaller remainder
dimensionality, or equal dimensionality in the numerator when the best so
far is in the denominator) becomes the new best and skips the direct form;
a numerator candidate that cancels every dimension stops the whole scan
(`break unitsLoop`). -/
def scanUnits (rem : Dimensions) : List Dimensions → Nat → Option (Nat × Int × Dimensions) →
    Except QuantityError (Option (Nat × Int × Dimensions))
  | [], _, best => .ok best
  | d :: rest, idx, best =>
    let bestRem := match best with | some b => b.2.2 | none => rem
    let bestInv : Int := match best with | some b => b.2.1 | none => 0
    do
      let r1 ← rem.multiply d.invert
      if r1.dimensionality < bestRem.dimensionality ∨
          (r1.dimensionality = bestRem.dimensionality ∧ bestInv = -1) then
        if r1.isDimensionless then .ok (some (idx, 1, r1))
        else scanUnits rem rest (idx + 1) (some (idx, 1, r1))
      else do
        let r2 ← rem.multiply d
        if r2.dimensionality < bestRem.dimensionality then
          scanUnits rem rest (idx + 1) (some (idx, -1, r2))
        else scanUnits rem rest (idx + 1) best

/-- Record the chosen unit index and power: an index already present
accumulates its power (`useUnitsPower[existingIdx] += bestInv`), a new
index is appended (`useUnits.push(bestIdx)`). -/
def mergePower : List (Nat × Int) → Nat → Int → List (Nat × Int)
  | [], i, p => [(i, p)]
  | (j, q) :: rest, i, p =>
    if j = i then (j, q + p) :: rest else (j, q) :: mergePower rest i p

/-- The `while (remainder.dimensionality > 0)` loop of
`pickUnitsFromListIterativeReduction`: scan for the best unit; if the best
(including the untouched initial state) does not strictly reduce the
remainder's dimensionality, raise `InvalidConversionError`; otherwise
record it and continue on the reduced remainder. -/
def iterReduce (unitArray : List Dimensions) (rem : Dimensions) (acc : List (Nat × Int)) :
    Except QuantityError (List (Nat × Int)) :=
  if rem.dimensionality = 0 then .ok acc
  else
    match scanUnits rem unitArray 0 none with
    | .error e => .error e
    | .ok none => .error .invalidConversionError
    | .ok (some (bestIdx, bestInv, bestRem)) =>
      if h : bestRem.dimensionality < rem.dimensionality then
        iterReduce unitArray bestRem (mergePower acc bestIdx bestInv)
      else .error .invalidConversionError
termination_by rem.dimensionality
decreasing_by exact h

/-- The same loop with an explicit iteration budget: `none` when the budget
is exhausted before the remainder reaches dimensionality 0.  Used to state
that the loop runs at most `dimensionality`-many iterations. -/
def iterReduceFuel (unitArray : List Dimensions) : Nat → Dimensions → List (Nat × Int) →
    Option (Except QuantityError (List (Nat × Int)))
  | 0, rem, acc => if rem.dimensionality = 0 then some (.ok acc) else none
  | fuel + 1, rem, acc =>
    if rem.dimensionality = 0 then some (.ok acc)
    else
      match scanUnits rem unitArray 0 none with
      | .error e => some (.error e)
      | .ok none => some (.error .invalidConversionError)
      | .ok (some (bestIdx, bestInv, bestRem)) =>
        if bestRem.dimensionality < rem.dimensionality then
          iterReduceFuel unitArray fuel bestRem (mergePower acc bestIdx bestInv)
        else some (.error .invalidConversionError)

/-- The index of the first dimensionless entry, if any (the special-case
loop at the end of `pickUnitsFromList`). -/
def findDimensionlessIdx : List Dimensions → Nat → Option Nat
  | [], _ => none
  | d :: rest, i => if d.isDimensionless then some i else findDimensionlessIdx rest (i + 1)

/-- `Quantity.pickUnitsFromList`: resolve the candidate units to dimension
vectors, run the iterative reduction, apply the dimensionless special case
(a single candidate such as `%` that matched nothing is still used when it
is dimensionless), and map the chosen indexes back to the candidate units
with their accumulated powers.  (The chosen indexes are always in range;
out-of-range reads of the JavaScript arrays are modelled by a default.) -/
def pickUnitsFromList (dims : Dimensions) (unitList : List PreferredUnit) :
    Except QuantityError (List ParsedUnit) := do
  let unitArray ← unitList.mapM fun u => (getUnitData u.unit).map fun ud => ud.d
  let pairs ← iterReduce unitArray dims []
  let final :=
    if unitList.length = 1 ∧ pairs = [] then
      match findDimensionlessIdx unitArray 0 with
      | some i => [(i, (1 : Int))]
      | none => []
    else pairs
  .ok (final.map fun p =>
    ⟨(unitList.getD p.1 ⟨none, ""⟩).pfx, (unitList.getD p.1 ⟨none, ""⟩).unit, p.2⟩)

/-- The combined registry dimensions of a parsed unit list: the product of
each unit's dimensions raised to its power (the same fold `convert` and
the constructor use to resolve a unit list). -/
def parsedProduct (l : List ParsedUnit) : Except QuantityError Dimensions :=
  l.foldlM
    (fun d u => do
      let ud ← getUnitData u.unit
      d.multiply (ud.d.pow u.power))
    Dimensionless

/-- The product of the chosen `(index, power)` pairs over a resolved
dimension array. -/
def unitsProduct (unitArray : List Dimensions) (pairs : List (Nat × Int)) :
    Except QuantityError Dimensions :=
  pairs.foldlM (fun d p => d.multiply ((unitArray.getD p.1 Dimensionless).pow p.2)) Dimensionless

end QuantityMath
namespace QuantityMath

theorem iterReduce_unfold (unitArray : List Dimensions) (rem : Dimensions)
    (acc : List (Nat × Int)) :
    iterReduce unitArray rem acc =
      if rem.dimensionality = 0 then .ok acc
      else
        match scanUnits rem unitArray 0 none with
        | .error e => .error e
        | .ok none => .error .invalidConversionError
        | .ok (some (bestIdx, bestInv, bestRem)) =>
          if bestRem.dimensionality < rem.dimensionality then
            iterReduce unitArray bestRem (mergePower acc bestIdx bestInv)
          else .error .invalidConversionError := by
  rw [iterReduce]
  rfl

theorem iterReduceFuel_adequate (unitArray : List Dimensions) :
    ∀ (fuel : Nat) (rem : Dimensions) (acc : List (Nat × Int)),
      rem.dimensionality ≤ fuel →
      iterReduceFuel unitArray fuel rem acc = some (iterReduce unitArray rem acc) := by
  intro fuel
  induction fuel with
  | zero =>
    intro rem acc h
    have h0 : rem.dimensionality = 0 := Nat.le_zero.mp h
    simp only [iterReduceFuel, if_pos h0]
    rw [iterReduce_unfold, if_pos h0]
  | succ n ih =>
    intro rem acc h
    rw [iterReduce_unfold]
    by_cases h0 : rem.dimensionality = 0
    · simp only [iterReduceFuel, if_pos h0]
    · simp only [iterReduceFuel, if_neg h0]
      rcases hscan : scanUnits rem unitArray 0 none with e | ob
      · rfl
      · rcases ob with _ | ⟨bestIdx, bestInv, bestRem⟩
        · rfl
        · simp only
          by_cases hlt : bestRem.dimensionality < rem.dimensionality
          · rw [if_pos hlt, if_pos hlt]
            exact ih bestRem (mergePower acc bestIdx bestInv) (by omega)
          · rw [if_neg hlt, if_neg hlt]

end QuantityMath
namespace QuantityMath

theorem prov_shift {rem d : Dimensions} {rest : List Dimensions} {idx i : Nat}
    {inv : Int} {br : Dimensions}
    (h : idx + 1 ≤ i ∧ i - (idx + 1) < rest.length ∧
      ((inv = 1 ∧ rem.multiply (rest.getD (i - (idx + 1)) Dimensionless).invert = .ok br) ∨
       (inv = -1 ∧ rem.multiply (rest.getD (i - (idx + 1)) Dimensionless) = .ok br))) :
    idx ≤ i ∧ i - idx < (d :: rest).length ∧
      ((inv = 1 ∧ rem.multiply ((d :: rest).getD (i - idx) Dimensionless).invert = .ok br) ∨
       (inv = -1 ∧ rem.multiply ((d :: rest).getD (i - idx) Dimensionless) = .ok br)) := by
  obtain ⟨h1, h2, h3⟩ := h
  have hk : i - idx = (i - (idx + 1)) + 1 := by omega
  refine ⟨by omega, by simp only [List.length_cons]; omega, ?_⟩
  rw [hk, List.getD_cons_succ]
  exact h3

/-- Where a scan result comes from: either it is the initial best untouched,
or it is a successful multiplication of the remainder with a listed unit
(inverted for power `+1`, direct for power `-1`), recorded with that unit's
index. -/
theorem scanUnits_ok_provenance (rem : Dimensions) :
    ∀ (l : List Dimensions) (idx : Nat) (best : Option (Nat × Int × Dimensions))
      (i : Nat) (inv : Int) (br : Dimensions),
      scanUnits rem l idx best = .ok (some (i, inv, br)) →
      best = some (i, inv, br) ∨
      (idx ≤ i ∧ i - idx < l.length ∧
        ((inv = 1 ∧ rem.multiply (l.getD (i - idx) Dimensionless).invert = .ok br) ∨
         (inv = -1 ∧ rem.multiply (l.getD (i - idx) Dimensionless) = .ok br))) := by
  intro l
  induction l with
  | nil =>
    intro idx best i inv br h
    simp only [scanUnits] at h
    cases h
    exact Or.inl rfl
  | cons d rest ih =>
    intro idx best i inv br h
    simp only [scanUnits] at h
    rcases hr1 : rem.multiply d.invert with e | r1
    · rw [hr1] at h
      simp only [except_error_bind, except_bind_error] at h
      cases h
    · rw [hr1] at h
      simp only [except_ok_bind, except_bind_ok] at h
      by_cases hc1 : r1.dimensionality <
            (match best with | some b => b.2.2 | none => rem).dimensionality ∨
          (r1.dimensionality =
            (match best with | some b => b.2.2 | none => rem).dimensionality ∧
           (match best with | some b => b.2.1 | none => (0 : Int)) = -1)
      · rw [if_pos hc1] at h
        by_cases hdim : r1.isDimensionless = true
        · rw [if_pos hdim] at h
          cases h
          refine Or.inr ⟨le_refl idx, by simp, Or.inl ⟨rfl, ?_⟩⟩
          simpa using hr1
        · rw [if_neg hdim] at h
          rcases ih (idx + 1) (some (idx, 1, r1)) i inv br h with hl | hr
          · cases hl
            refine Or.inr ⟨le_refl idx, by simp, Or.inl ⟨rfl, ?_⟩⟩
            simpa using hr1
          · exact Or.inr (prov_shift hr)
      · rw [if_neg hc1] at h
        rcases hr2 : rem.multiply d with e | r2
        · rw [hr2] at h
          simp only [except_error_bind, except_bind_error] at h
          cases h
        · rw [hr2] at h
          simp only [except_ok_bind, except_bind_ok] at h
          by_cases hc2 : r2.dimensionality <
              (match best with | some b => b.2.2 | none => rem).dimensionality
          · rw [if_pos hc2] at h
            rcases ih (idx + 1) (some (idx, -1, r2)) i inv br h with hl | hr
            · cases hl
              refine Or.inr ⟨le_refl idx, by simp, Or.inr ⟨rfl, ?_⟩⟩
              simpa using hr2
            · exact Or.inr (prov_shift hr)
          · rw [if_neg hc2] at h
            rcases ih (idx + 1) best i inv br h with hl | hr
            · exact Or.inl hl
            · exact Or.inr (prov_shift hr)

end QuantityMath
namespace QuantityMath

/-- If the scan completes without an error, and a listed unit strictly
reduces the remainder's dimensionality (in inverted or direct form, with a
successful multiplication), then the final best strictly reduces it too.
The `best` argument carries the invariant that any prior best already
reduces strictly. -/
theorem scanUnits_ok_best_strict (rem : Dimensions) :
    ∀ (l : List Dimensions) (idx : Nat) (best : Option (Nat × Int × Dimensions))
      (res : Option (Nat × Int × Dimensions)),
      scanUnits rem l idx best = .ok res →
      (∀ b, best = some b → b.2.2.dimensionality < rem.dimensionality) →
      ((∃ b, best = some b) ∨
       ∃ d ∈ l,
         (∃ r, rem.multiply d.invert = .ok r ∧ r.dimensionality < rem.dimensionality) ∨
         (∃ r, rem.multiply d = .ok r ∧ r.dimensionality < rem.dimensionality)) →
      ∃ i inv br, res = some (i, inv, br) ∧ br.dimensionality < rem.dimensionality := by
  intro l
  induction l with
  | nil =>
    intro idx best res h hinv hor
    simp only [scanUnits] at h
    cases h
    rcases hor with ⟨b, hb⟩ | hex
    · subst hb
      exact ⟨b.1, b.2.1, b.2.2, rfl, hinv b rfl⟩
    · simp at hex
  | cons d rest ih =>
    intro idx best res h hinv hor
    simp only [scanUnits] at h
    rcases hr1 : rem.multiply d.invert with e | r1
    · rw [hr1] at h
      simp only [except_error_bind, except_bind_error] at h
      cases h
    · rw [hr1] at h
      simp only [except_ok_bind, except_bind_ok] at h
      have hbestle : (match best with | some b => b.2.2 | none => rem).dimensionality ≤
          rem.dimensionality := by
        rcases best with _ | b
        · exact le_refl _
        · exact le_of_lt (hinv b rfl)
      by_cases hc1 : r1.dimensionality <
            (match best with | some b => b.2.2 | none => rem).dimensionality ∨
          (r1.dimensionality =
            (match best with | some b => b.2.2 | none => rem).dimensionality ∧
           (match best with | some b => b.2.1 | none => (0 : Int)) = -1)
      · have hr1strict : r1.dimensionality < rem.dimensionality := by
          rcases hc1 with hlt | ⟨heq, hbi⟩
          · omega
          · rcases best with _ | b
            · simp at hbi
            · have := hinv b rfl
              simp only at heq
              omega
        rw [if_pos hc1] at h
        by_cases hdim : r1.isDimensionless = true
        · rw [if_pos hdim] at h
          cases h
          exact ⟨idx, 1, r1, rfl, hr1strict⟩
        · rw [if_neg hdim] at h
          exact ih (idx + 1) (some (idx, 1, r1)) res h
            (fun b hb => by cases hb; exact hr1strict) (Or.inl ⟨_, rfl⟩)
      · rw [if_neg hc1] at h
        rcases hr2 : rem.multiply d with e | r2
        · rw [hr2] at h
          simp only [except_error_bind, except_bind_error] at h
          cases h
        · rw [hr2] at h
          simp only [except_ok_bind, except_bind_ok] at h
          by_cases hc2 : r2.dimensionality <
              (match best with | some b => b.2.2 | none => rem).dimensionality
          · have hr2strict : r2.dimensionality < rem.dimensionality := by omega
            rw [if_pos hc2] at h
            exact ih (idx + 1) (some (idx, -1, r2)) res h
              (fun b hb => by cases hb; exact hr2strict) (Or.inl ⟨_, rfl⟩)
          · rw [if_neg hc2] at h
            rcases best with _ | b
            · rcases hor with ⟨b, hb⟩ | hex
              · cases hb
              · rcases hex with ⟨d2, hd2, hred⟩
                rcases List.mem_cons.mp hd2 with hd2 | hd2
                · subst hd2
                  rcases hred with ⟨r, hr, hlt⟩ | ⟨r, hr, hlt⟩
                  · rw [hr1] at hr
                    cases hr
                    exact absurd (Or.inl hlt) hc1
                  · rw [hr2] at hr
                    cases hr
                    exact absurd hlt hc2
                · exact ih (idx + 1) none res h (fun b hb => by cases hb)
                    (Or.inr ⟨d2, hd2, hred⟩)
            · exact ih (idx + 1) (some b) res h hinv (Or.inl ⟨b, rfl⟩)

end QuantityMath
namespace QuantityMath

theorem getD_mem {α : Type} (d : α) : ∀ (l : List α) (n : Nat), n < l.length → l.getD n d ∈ l := by
  intro l
  induction l with
  | nil => intro n h; simp at h
  | cons a rest ih =>
    intro n h
    cases n with
    | zero => simp
    | succ k =>
      rw [List.getD_cons_succ]
      exact List.mem_cons_of_mem a (ih k (by simpa using h))

/-- C2 (amended): the greedy selection loop runs at most
`dimensionality`-many iterations (the fuel-bounded loop with budget
`remainder.dimensionality` never runs out), and each iteration with a
remainder left, *provided its scan over the basis does not itself raise a
dimension-arithmetic error*, finds a best candidate that strictly reduces
the remainder's dimensionality exactly when some basis unit (in inverted or
direct form, with a successful multiplication) strictly reduces it; in that
case the loop continues on the reduced remainder, and otherwise it raises
`InvalidConversionError`.  (Without the scan-success proviso the dichotomy
is false: `Dimensions.multiply` can raise a plain `QuantityError` for a
custom-dimension overflow, shown in the counterexample.) -/
theorem C2_simplifier_termination (unitArray : List Dimensions) :
    (∀ (fuel : Nat) (rem : Dimensions) (acc : List (Nat × Int)),
      rem.dimensionality ≤ fuel →
      iterReduceFuel unitArray fuel rem acc = some (iterReduce unitArray rem acc)) ∧
    (∀ (rem : Dimensions) (acc : List (Nat × Int)) (ob : Option (Nat × Int × Dimensions)),
      rem.dimensionality ≠ 0 →
      scanUnits rem unitArray 0 none = .ok ob →
      ((∃ i inv br, ob = some (i, inv, br) ∧ br.dimensionality < rem.dimensionality) ↔
        ∃ d ∈ unitArray,
          (∃ r, rem.multiply d.invert = .ok r ∧ r.dimensionality < rem.dimensionality) ∨
          (∃ r, rem.multiply d = .ok r ∧ r.dimensionality < rem.dimensionality)) ∧
      (∀ i inv br, ob = some (i, inv, br) → br.dimensionality < rem.dimensionality →
        iterReduce unitArray rem acc = iterReduce unitArray br (mergePower acc i inv)) ∧
      ((¬ ∃ i inv br, ob = some (i, inv, br) ∧ br.dimensionality < rem.dimensionality) →
        iterReduce unitArray rem acc = .error .invalidConversionError)) := by
  refine ⟨iterReduceFuel_adequate unitArray, ?_⟩
  intro rem acc ob h0 hscan
  refine ⟨⟨?_, ?_⟩, ?_, ?_⟩
  · rintro ⟨i, inv, br, hob, hlt⟩
    subst hob
    rcases scanUnits_ok_provenance rem unitArray 0 none i inv br hscan with hl | hr
    · cases hl
    · obtain ⟨_, hilen, hcase⟩ := hr
      simp only [Nat.sub_zero] at hilen hcase
      refine ⟨unitArray.getD i Dimensionless, getD_mem Dimensionless unitArray i hilen, ?_⟩
      rcases hcase with ⟨_, hm⟩ | ⟨_, hm⟩
      · exact Or.inl ⟨br, hm, hlt⟩
      · exact Or.inr ⟨br, hm, hlt⟩
  · intro hex
    exact scanUnits_ok_best_strict rem unitArray 0 none ob hscan
      (fun b hb => by cases hb) (Or.inr hex)
  · intro i inv br hob hlt
    subst hob
    rw [iterReduce_unfold, if_neg h0, hscan]
    simp only
    rw [if_pos hlt]
  · intro hne
    rw [iterReduce_unfold, if_neg h0, hscan]
    rcases ob with _ | ⟨i, inv, br⟩
    · rfl
    · simp only
      rw [if_neg fun hlt => hne ⟨i, inv, br, rfl, hlt⟩]

/-- C2 counterexample: an iteration need not raise `InvalidConversionError`
when no basis unit strictly reduces the remainder — the scan itself can
throw first.  A target with four custom dimensions against the single
custom basis unit `_e` makes every candidate multiplication fail with the
custom-dimension overflow `QuantityError` (five names), so
`pickUnitsFromList` propagates that error, which is not
`InvalidConversionError`, even though no basis unit strictly reduces the
remainder (both candidate multiplications fail). -/
theorem C2_simplifier_termination_counterexample :
    pickUnitsFromList ⟨List.replicate 9 0, [("a", 1), ("b", 1), ("c", 1), ("d", 1)]⟩
        [⟨none, "_e"⟩] =
      .error (.quantityError "Cannot have more than 4 custom dimensions.") ∧
    QuantityError.quantityError "Cannot have more than 4 custom dimensions." ≠
      QuantityError.invalidConversionError ∧
    Dimensions.multiply ⟨List.replicate 9 0, [("a", 1), ("b", 1), ("c", 1), ("d", 1)]⟩
        (Dimensions.invert ⟨List.replicate 9 0, [("_e", 1)]⟩) =
      .error (.quantityError "Cannot have more than 4 custom dimensions.") ∧
    Dimensions.multiply ⟨List.replicate 9 0, [("a", 1), ("b", 1), ("c", 1), ("d", 1)]⟩
        ⟨List.replicate 9 0, [("_e", 1)]⟩ =
      .error (.quantityError "Cannot have more than 4 custom dimensions.") := by
  refine ⟨?_, by decide, by decide, by decide⟩
  unfold pickUnitsFromList
  rw [show ([⟨none, "_e"⟩] : List PreferredUnit).mapM
      (fun u => (getUnitData u.unit).map fun ud => ud.d) =
      .ok [⟨List.replicate 9 0, [("_e", 1)]⟩] from by decide]
  rw [except_ok_bind]
  rw [iterReduce_unfold, if_neg (by decide)]
  rw [show scanUnits ⟨List.replicate 9 0, [("a", 1), ("b", 1), ("c", 1), ("d", 1)]⟩
      [⟨List.replicate 9 0, [("_e", 1)]⟩] 0 none =
      .error (.quantityError "Cannot have more than 4 custom dimensions.") from by decide]
  rfl

end QuantityMath
namespace QuantityMath

/-- C2 witness: reducing the mass dimension against the basis `[mass]`.
The budget of `dimensionality = 1` iteration suffices, the scan finds the
inverted mass unit (index 0, power `+1`) leaving a zero remainder, the
strict-reduction characterization is witnessed by the mass unit itself,
and the iteration continues on the reduced remainder. -/
theorem C2_simplifier_termination_witness :
    MASS_DIMENSION.dimensionality ≤ 1 ∧
    MASS_DIMENSION.dimensionality ≠ 0 ∧
    iterReduceFuel [MASS_DIMENSION] 1 MASS_DIMENSION [] =
      some (iterReduce [MASS_DIMENSION] MASS_DIMENSION []) ∧
    scanUnits MASS_DIMENSION [MASS_DIMENSION] 0 none =
      .ok (some (0, 1, ⟨[0, 0, 0, 0, 0, 0, 0, 0, 0], []⟩)) ∧
    (⟨[0, 0, 0, 0, 0, 0, 0, 0, 0], []⟩ : Dimensions).dimensionality <
      MASS_DIMENSION.dimensionality ∧
    (∃ d ∈ [MASS_DIMENSION],
      (∃ r, MASS_DIMENSION.multiply d.invert = .ok r ∧
        r.dimensionality < MASS_DIMENSION.dimensionality) ∨
      (∃ r, MASS_DIMENSION.multiply d = .ok r ∧
        r.dimensionality < MASS_DIMENSION.dimensionality)) ∧
    iterReduce [MASS_DIMENSION] MASS_DIMENSION [] =
      iterReduce [MASS_DIMENSION] ⟨[0, 0, 0, 0, 0, 0, 0, 0, 0], []⟩ (mergePower [] 0 1) := by
  obtain ⟨hfuel, hstep⟩ := C2_simplifier_termination [MASS_DIMENSION]
  have hscan : scanUnits MASS_DIMENSION [MASS_DIMENSION] 0 none =
      .ok (some (0, 1, ⟨[0, 0, 0, 0, 0, 0, 0, 0, 0], []⟩)) := by decide
  obtain ⟨hiff, hcont, _⟩ := hstep MASS_DIMENSION [] _ (by decide) hscan
  refine ⟨by decide, by decide, hfuel 1 MASS_DIMENSION [] (by decide), hscan, by decide,
    ?_, ?_⟩
  · exact hiff.mp ⟨0, 1, ⟨[0, 0, 0, 0, 0, 0, 0, 0, 0], []⟩, rfl, by decide⟩
  · exact hcont 0 1 ⟨[0, 0, 0, 0, 0, 0, 0, 0, 0], []⟩ rfl (by decide)

end QuantityMath
namespace QuantityMath

theorem invert_base_length (d : Dimensions) : d.invert.base.length = d.base.length := by
  simp [Dimensions.invert]

theorem pow_base_length {d : Dimensions} (h : d.base.length = numBasicDimensions) (n : Int) :
    (d.pow n).base.length = numBasicDimensions := by
  unfold Dimensions.pow
  split
  · simp [Dimensionless]
  · simpa using h

theorem namesOf_length (d : Dimensions) : (namesOf d).length = d.customs.length := by
  simp [namesOf]

theorem getD_base_length {unitArray : List Dimensions}
    (hU : ∀ d ∈ unitArray, d.base.length = numBasicDimensions) (i : Nat) :
    (unitArray.getD i Dimensionless).base.length = numBasicDimensions := by
  by_cases h : i < unitArray.length
  · exact hU _ (getD_mem Dimensionless unitArray i h)
  · rw [List.getD_eq_default _ _ (by omega)]
    simp [Dimensionless]

theorem semBase_dimensionless (i : Nat) : semBase Dimensionless i = 0 :=
  dimensionality_zero_semBase (by decide) i

theorem lookupCustom_dimensionless (n : String) : lookupCustom Dimensionless n = 0 :=
  dimensionality_zero_lookupCustom (by decide) n

theorem namesOf_dimensionless : namesOf Dimensionless = [] := rfl

theorem nodup_subset_length_le {l N : List String} (h : l.Nodup) (hs : l ⊆ N) :
    l.length ≤ N.length :=
  (List.subperm_of_subset h hs).length_le

/-- A multiplication whose operands' custom names all lie in a set of at
most four names succeeds. -/
theorem multiply_ok_of_names_le {x y : Dimensions} {N : List String}
    (h4 : N.length ≤ 4) (hx : namesOf x ⊆ N) (hy : namesOf y ⊆ N) :
    ∃ z, x.multiply y = .ok z := by
  unfold Dimensions.multiply
  split
  · exact ⟨_, rfl⟩
  · rw [if_neg ?_]
    · exact ⟨_, rfl⟩
    · have h1 : (combineCustomDimensionNames x y).length =
          ((x.customs.map Prod.fst ++ y.customs.map Prod.fst).dedup).length :=
        (sortStr_perm _).length_eq
      have h2 : ((x.customs.map Prod.fst ++ y.customs.map Prod.fst).dedup).length ≤
          N.length := by
        refine nodup_subset_length_le (List.nodup_dedup _) ?_
        intro a ha
        rcases List.mem_append.mp (List.dedup_subset _ ha) with hm | hm
        · exact hx hm
        · exact hy hm
      omega

/-- The signed sum a chosen `(index, power)` list contributes to one
dimension coordinate (`f` reads that coordinate). -/
def accSem (unitArray : List Dimensions) (acc : List (Nat × Int)) (f : Dimensions → Int) : Int :=
  (acc.map fun p => p.2 * f (unitArray.getD p.1 Dimensionless)).sum

theorem accSem_nil (unitArray : List Dimensions) (f : Dimensions → Int) :
    accSem unitArray [] f = 0 := rfl

theorem accSem_cons (unitArray : List Dimensions) (e : Nat × Int) (acc : List (Nat × Int))
    (f : Dimensions → Int) :
    accSem unitArray (e :: acc) f =
      e.2 * f (unitArray.getD e.1 Dimensionless) + accSem unitArray acc f := by
  simp [accSem]

theorem accSem_mergePower (unitArray : List Dimensions) (f : Dimensions → Int) :
    ∀ (acc : List (Nat × Int)) (i : Nat) (p : Int),
      accSem unitArray (mergePower acc i p) f =
        accSem unitArray acc f + p * f (unitArray.getD i Dimensionless) := by
  intro acc
  induction acc with
  | nil =>
    intro i p
    simp [accSem, mergePower]
  | cons e rest ih =>
    intro i p
    rcases e with ⟨j, q⟩
    simp only [mergePower]
    by_cases hj : j = i
    · rw [if_pos hj]
      subst hj
      simp only [accSem_cons]
      ring
    · rw [if_neg hj]
      simp only [accSem_cons, ih]
      ring

theorem mergePower_fst_pred {P : Nat → Prop} :
    ∀ (acc : List (Nat × Int)) (i : Nat) (p : Int),
      (∀ e ∈ acc, P e.1) → P i → ∀ e ∈ mergePower acc i p, P e.1 := by
  intro acc
  induction acc with
  | nil =>
    intro i p _ hi e he
    simp only [mergePower, List.mem_singleton] at he
    subst he
    exact hi
  | cons a rest ih =>
    intro i p hacc hi e he
    rcases a with ⟨j, q⟩
    simp only [mergePower] at he
    by_cases hj : j = i
    · rw [if_pos hj] at he
      rcases List.mem_cons.mp he with he | he
      · subst he
        exact hacc (j, q) (List.mem_cons_self _ _)
      · exact hacc e (List.mem_cons_of_mem _ he)
    · rw [if_neg hj] at he
      rcases List.mem_cons.mp he with he | he
      · subst he
        exact hacc (j, q) (List.mem_cons_self _ _)
      · exact ih i p (fun e2 he2 => hacc e2 (List.mem_cons_of_mem _ he2)) hi e he

end QuantityMath
namespace QuantityMath

/-- The loop invariant of the iterative reduction, read off a successful
run: some final remainder of dimensionality 0 exists such that, coordinate
by coordinate, the chosen units' signed contributions plus the final
remainder equal the starting remainder plus the already-chosen
contributions; the final remainder's custom names extend the starting
ones, every chosen index is in range, and every chosen unit's custom names
lie inside the final remainder's. -/
theorem iterReduce_ok_invariant (unitArray : List Dimensions)
    (hU : ∀ d ∈ unitArray, d.base.length = numBasicDimensions) :
    ∀ (n : Nat) (rem : Dimensions), rem.dimensionality ≤ n →
      rem.base.length = numBasicDimensions →
      (namesOf rem).Nodup → rem.customs.length ≤ 4 →
      ∀ (acc res : List (Nat × Int)),
      (∀ e ∈ acc, e.1 < unitArray.length ∧
        namesOf (unitArray.getD e.1 Dimensionless) ⊆ namesOf rem) →
      iterReduce unitArray rem acc = .ok res →
      ∃ remf : Dimensions,
        remf.dimensionality = 0 ∧
        remf.base.length = numBasicDimensions ∧
        (namesOf remf).Nodup ∧ remf.customs.length ≤ 4 ∧
        namesOf rem ⊆ namesOf remf ∧
        (∀ k, semBase remf k + accSem unitArray res (fun d => semBase d k) =
              semBase rem k + accSem unitArray acc (fun d => semBase d k)) ∧
        (∀ m, lookupCustom remf m + accSem unitArray res (fun d => lookupCustom d m) =
              lookupCustom rem m + accSem unitArray acc (fun d => lookupCustom d m)) ∧
        (∀ e ∈ res, e.1 < unitArray.length ∧
          namesOf (unitArray.getD e.1 Dimensionless) ⊆ namesOf remf) := by
  intro n
  induction n with
  | zero =>
    intro rem hle h9 hnd h4 acc res hacc hiter
    have h0 : rem.dimensionality = 0 := by omega
    rw [iterReduce_unfold, if_pos h0] at hiter
    cases hiter
    exact ⟨rem, h0, h9, hnd, h4, fun a ha => ha, fun k => rfl, fun m => rfl, hacc⟩
  | succ n ih =>
    intro rem hle h9 hnd h4 acc res hacc hiter
    by_cases h0 : rem.dimensionality = 0
    · rw [iterReduce_unfold, if_pos h0] at hiter
      cases hiter
      exact ⟨rem, h0, h9, hnd, h4, fun a ha => ha, fun k => rfl, fun m => rfl, hacc⟩
    · rw [iterReduce_unfold, if_neg h0] at hiter
      rcases hscan : scanUnits rem unitArray 0 none with e | ob
      · rw [hscan] at hiter
        cases hiter
      · rw [hscan] at hiter
        rcases ob with _ | ⟨i, inv, br⟩
        · cases hiter
        · simp only at hiter
          by_cases hlt : br.dimensionality < rem.dimensionality
          · rw [if_pos hlt] at hiter
            rcases scanUnits_ok_provenance rem unitArray 0 none i inv br hscan
              with hcontra | hprov
            · cases hcontra
            · obtain ⟨_, hilen, hcase⟩ := hprov
              simp only [Nat.sub_zero] at hilen hcase
              have hd9 : (unitArray.getD i Dimensionless).base.length = numBasicDimensions :=
                getD_base_length hU i
              have hbr : br.base.length = numBasicDimensions ∧
                  (∀ k, semBase br k =
                    semBase rem k - inv * semBase (unitArray.getD i Dimensionless) k) ∧
                  (∀ m, lookupCustom br m =
                    lookupCustom rem m -
                      inv * lookupCustom (unitArray.getD i Dimensionless) m) ∧
                  (∀ nm, nm ∈ namesOf br ↔
                    nm ∈ namesOf rem ∨ nm ∈ namesOf (unitArray.getD i Dimensionless)) ∧
                  (namesOf br).Nodup ∧ br.customs.length ≤ 4 := by
                rcases hcase with ⟨hinv1, hm⟩ | ⟨hinv1, hm⟩
                · subst hinv1
                  refine ⟨multiply_ok_base_length hm h9
                      (by rw [invert_base_length]; exact hd9), ?_, ?_, ?_,
                    multiply_ok_names_nodup hm, multiply_ok_customs_le4 hm⟩
                  · intro k
                    have hs := multiply_ok_semBase hm h9
                      (by rw [invert_base_length]; exact hd9) k
                    rw [invert_semBase] at hs
                    omega
                  · intro m
                    have hs := multiply_ok_lookupCustom hm m
                    rw [invert_lookupCustom] at hs
                    omega
                  · intro nm
                    rw [multiply_ok_mem_names hm nm, invert_namesOf]
                · subst hinv1
                  refine ⟨multiply_ok_base_length hm h9 hd9, ?_, ?_, ?_,
                    multiply_ok_names_nodup hm, multiply_ok_customs_le4 hm⟩
                  · intro k
                    have hs := multiply_ok_semBase hm h9 hd9 k
                    omega
                  · intro m
                    have hs := multiply_ok_lookupCustom hm m
                    omega
                  · intro nm
                    exact multiply_ok_mem_names hm nm
              obtain ⟨hbr9, hbrB, hbrC, hbrN, hbrND, hbr4⟩ := hbr
              have hremsub : namesOf rem ⊆ namesOf br :=
                fun a ha => (hbrN a).mpr (Or.inl ha)
              have hdsub : namesOf (unitArray.getD i Dimensionless) ⊆ namesOf br :=
                fun a ha => (hbrN a).mpr (Or.inr ha)
              have hmerge : ∀ e ∈ mergePower acc i inv, e.1 < unitArray.length ∧
                  namesOf (unitArray.getD e.1 Dimensionless) ⊆ namesOf br := by
                refine mergePower_fst_pred (P := fun j => j < unitArray.length ∧
                  namesOf (unitArray.getD j Dimensionless) ⊆ namesOf br) acc i inv ?_
                  ⟨hilen, hdsub⟩
                intro e he
                obtain ⟨he1, he2⟩ := hacc e he
                exact ⟨he1, fun a ha => hremsub (he2 ha)⟩
              obtain ⟨remf, hf0, hf9, hfnd, hf4, hfsub, hfsemB, hfsemC, hfres⟩ :=
                ih br (by omega) hbr9 hbrND hbr4 (mergePower acc i inv) res hmerge hiter
              refine ⟨remf, hf0, hf9, hfnd, hf4,
                fun a ha => hfsub (hremsub ha), ?_, ?_, hfres⟩
              · intro k
                have h1 := hfsemB k
                rw [accSem_mergePower] at h1
                have h2 := hbrB k
                linarith [h1, h2]
              · intro m
                have h1 := hfsemC m
                rw [accSem_mergePower] at h1
                have h2 := hbrC m
                linarith [h1, h2]
          · rw [if_neg hlt] at hiter
            cases hiter

end QuantityMath
namespace QuantityMath

/-- Folding the chosen units' powered dimensions into a running product
succeeds whenever all the custom names in sight fit in one ≤4-name set,
and the result's coordinates are the start's plus the signed
contributions. -/
theorem foldProduct_ok (unitArray : List Dimensions)
    (hU : ∀ d ∈ unitArray, d.base.length = numBasicDimensions)
    (N : List String) (h4 : N.length ≤ 4) :
    ∀ (pairs : List (Nat × Int)) (P : Dimensions),
      P.base.length = numBasicDimensions → namesOf P ⊆ N →
      (∀ e ∈ pairs, namesOf (unitArray.getD e.1 Dimensionless) ⊆ N) →
      ∃ prod,
        pairs.foldlM
          (fun d p => d.multiply ((unitArray.getD p.1 Dimensionless).pow p.2)) P =
          .ok prod ∧
        prod.base.length = numBasicDimensions ∧
        (∀ k, semBase prod k = semBase P k + accSem unitArray pairs (fun d => semBase d k)) ∧
        (∀ m, lookupCustom prod m =
          lookupCustom P m + accSem unitArray pairs (fun d => lookupCustom d m)) := by
  intro pairs
  induction pairs with
  | nil =>
    intro P h9 hsub _
    exact ⟨P, rfl, h9, fun k => by simp [accSem_nil], fun m => by simp [accSem_nil]⟩
  | cons e rest ih =>
    intro P h9 hsub hpairs
    have hd9 : (unitArray.getD e.1 Dimensionless).base.length = numBasicDimensions :=
      getD_base_length hU e.1
    have hdN : namesOf ((unitArray.getD e.1 Dimensionless).pow e.2) ⊆ N :=
      fun a ha => hpairs e (List.mem_cons_self _ _) (pow_namesOf_subset _ _ ha)
    obtain ⟨z, hz⟩ := multiply_ok_of_names_le h4 hsub hdN
    have hz9 : z.base.length = numBasicDimensions :=
      multiply_ok_base_length hz h9 (pow_base_length hd9 e.2)
    have hzN : namesOf z ⊆ N := by
      intro a ha
      rcases (multiply_ok_mem_names hz a).mp ha with hm | hm
      · exact hsub hm
      · exact hdN hm
    obtain ⟨prod, hfold, hp9, hpB, hpC⟩ := ih z hz9 hzN
      (fun e2 he2 => hpairs e2 (List.mem_cons_of_mem _ he2))
    refine ⟨prod, ?_, hp9, ?_, ?_⟩
    · rw [List.foldlM_cons, hz]
      simp only [except_ok_bind, except_bind_ok]
      exact hfold
    · intro k
      have h1 := hpB k
      have h2 := multiply_ok_semBase hz h9 (pow_base_length hd9 e.2) k
      rw [pow_semBase] at h2
      rw [accSem_cons]
      linarith [h1, h2]
    · intro m
      have h1 := hpC m
      have h2 := multiply_ok_lookupCustom hz m
      rw [pow_lookupCustom] at h2
      rw [accSem_cons]
      linarith [h1, h2]

end QuantityMath
namespace QuantityMath

theorem mapM_units_spec : ∀ (l : List PreferredUnit) (res : List Dimensions),
    l.mapM (fun u => (getUnitData u.unit).map fun ud => ud.d) = .ok res →
    res.length = l.length ∧
    (∀ d ∈ res, ∃ u ud, u ∈ l ∧ getUnitData u.unit = .ok ud ∧ d = ud.d) ∧
    (∀ i, i < l.length →
      ∃ ud, getUnitData ((l.getD i ⟨none, ""⟩).unit) = .ok ud ∧
        res.getD i Dimensionless = ud.d) := by
  intro l
  induction l with
  | nil =>
    intro res h
    simp only [List.mapM_nil] at h
    cases h
    refine ⟨rfl, by simp, ?_⟩
    intro i hi
    simp at hi
  | cons u rest ih =>
    intro res h
    rw [List.mapM_cons] at h
    rcases hud : getUnitData u.unit with e | ud
    · rw [hud] at h
      cases h
    · rw [hud] at h
      rcases hr : rest.mapM (fun u => (getUnitData u.unit).map fun ud => ud.d) with e | ds
      · rw [hr] at h
        cases h
      · rw [hr] at h
        cases h
        obtain ⟨ihlen, ihmem, ihget⟩ := ih ds hr
        refine ⟨by simp [ihlen], ?_, ?_⟩
        · intro d hd
          rcases List.mem_cons.mp hd with hd | hd
          · exact ⟨u, ud, List.mem_cons_self _ _, hud, hd⟩
          · obtain ⟨u2, ud2, hu2, hud2, hd2⟩ := ihmem d hd
            exact ⟨u2, ud2, List.mem_cons_of_mem _ hu2, hud2, hd2⟩
        · intro i hi
          cases i with
          | zero => exact ⟨ud, hud, rfl⟩
          | succ k =>
            rw [List.getD_cons_succ, List.getD_cons_succ]
            exact ihget k (by simpa using hi)

theorem findDimensionlessIdx_spec :
    ∀ (l : List Dimensions) (i0 i : Nat),
      findDimensionlessIdx l i0 = some i →
      i0 ≤ i ∧ i - i0 < l.length ∧
        (l.getD (i - i0) Dimensionless).isDimensionless = true := by
  intro l
  induction l with
  | nil =>
    intro i0 i h
    simp [findDimensionlessIdx] at h
  | cons d rest ih =>
    intro i0 i h
    simp only [findDimensionlessIdx] at h
    by_cases hd : d.isDimensionless = true
    · rw [if_pos hd] at h
      cases h
      refine ⟨le_refl _, by simp, ?_⟩
      simpa using hd
    · rw [if_neg hd] at h
      obtain ⟨h1, h2, h3⟩ := ih (i0 + 1) i h
      have hk : i - i0 = (i - (i0 + 1)) + 1 := by omega
      refine ⟨by omega, by simp only [List.length_cons]; omega, ?_⟩
      rw [hk, List.getD_cons_succ]
      exact h3

end QuantityMath
namespace QuantityMath

/-- Mapping the chosen `(index, power)` pairs back to `ParsedUnit`s and
resolving them again through the registry computes the same dimension
product as folding the resolved dimension array directly. -/
theorem parsed_fold_eq (unitList : List PreferredUnit) (unitArray : List Dimensions)
    (hmap : unitList.mapM (fun u => (getUnitData u.unit).map fun ud => ud.d) = .ok unitArray) :
    ∀ (pairs : List (Nat × Int)) (P : Dimensions),
      (∀ e ∈ pairs, e.1 < unitArray.length) →
      (pairs.map fun p =>
        (⟨(unitList.getD p.1 ⟨none, ""⟩).pfx, (unitList.getD p.1 ⟨none, ""⟩).unit, p.2⟩ :
          ParsedUnit)).foldlM
        (fun d u => do
          let ud ← getUnitData u.unit
          d.multiply (ud.d.pow u.power)) P =
      pairs.foldlM (fun d p => d.multiply ((unitArray.getD p.1 Dimensionless).pow p.2)) P := by
  obtain ⟨hlen, _, hgetD⟩ := mapM_units_spec unitList unitArray hmap
  intro pairs
  induction pairs with
  | nil => intro P _; rfl
  | cons e rest ihp =>
    intro P hidx
    obtain ⟨ud, hud, hd⟩ := hgetD e.1 (by rw [← hlen]; exact hidx e (List.mem_cons_self _ _))
    simp only [List.map_cons, List.foldlM_cons]
    rw [hud]
    simp only [except_ok_bind, except_bind_ok]
    rw [hd]
    rcases hm : P.multiply (ud.d.pow e.2) with e2 | z
    · rfl
    · simp only [except_ok_bind, except_bind_ok]
      exact ihp z (fun e2 he2 => hidx e2 (List.mem_cons_of_mem _ he2))

end QuantityMath
namespace QuantityMath

/-- C1: whenever the unit-selection algorithm returns a result rather than
raising an error, the returned `(prefix, unit, power)` entries reproduce
the target dimensions exactly: resolving the returned units through the
registry and multiplying their dimensions raised to the chosen powers
succeeds and is `equalTo` the target (the dimensionless special-case entry
contributes nothing and cannot break this). -/
theorem C1_pickUnits_reproduces_dimensions (dims : Dimensions) (unitList : List PreferredUnit)
    (units : List ParsedUnit) (hv : dims.Valid)
    (h : pickUnitsFromList dims unitList = .ok units) :
    ∃ prod, parsedProduct units = .ok prod ∧ prod.equalTo dims = true := by
  obtain ⟨h9, hsort, h4⟩ := hv
  have hnd : (namesOf dims).Nodup := namesStrictSorted_nodup hsort
  unfold pickUnitsFromList at h
  rcases hmap : unitList.mapM (fun u => (getUnitData u.unit).map fun ud => ud.d)
    with e | unitArray
  · rw [hmap] at h
    simp only [except_error_bind, except_bind_error] at h
    cases h
  · rw [hmap] at h
    simp only [except_ok_bind, except_bind_ok] at h
    obtain ⟨hlen, hmem, hgetD⟩ := mapM_units_spec unitList unitArray hmap
    have hval : ∀ d ∈ unitArray, d.Valid := by
      intro d hd
      obtain ⟨u, ud, _, hud, rfl⟩ := hmem d hd
      exact getUnitData_valid hud
    have hU : ∀ d ∈ unitArray, d.base.length = numBasicDimensions :=
      fun d hd => (hval d hd).1
    rcases hiter : iterReduce unitArray dims [] with e | pairs
    · rw [hiter] at h
      simp only [except_error_bind, except_bind_error] at h
      cases h
    · rw [hiter] at h
      simp only [except_ok_bind, except_bind_ok] at h
      obtain ⟨remf, hf0, hf9, hfnd, hf4, hfsub, hfB, hfC, hfres⟩ :=
        iterReduce_ok_invariant unitArray hU dims.dimensionality dims (le_refl _) h9 hnd h4
          [] pairs (by simp) hiter
      have hB : ∀ k, accSem unitArray pairs (fun d => semBase d k) = semBase dims k := by
        intro k
        have h1 := hfB k
        rw [accSem_nil] at h1
        have h2 := dimensionality_zero_semBase hf0 k
        omega
      have hC : ∀ m, accSem unitArray pairs (fun d => lookupCustom d m) =
          lookupCustom dims m := by
        intro m
        have h1 := hfC m
        rw [accSem_nil] at h1
        have h2 := dimensionality_zero_lookupCustom hf0 m
        omega
      by_cases hsp : unitList.length = 1 ∧ pairs = []
      · rw [if_pos hsp] at h
        obtain ⟨_, hpairs⟩ := hsp
        subst hpairs
        have hdims0 : ∀ k, semBase dims k = 0 := by
          intro k
          have h1 := hB k
          rw [accSem_nil] at h1
          omega
        have hdimsC : ∀ m, lookupCustom dims m = 0 := by
          intro m
          have h1 := hC m
          rw [accSem_nil] at h1
          omega
        rcases hfind : findDimensionlessIdx unitArray 0 with _ | i
        · rw [hfind] at h
          cases h
          refine ⟨Dimensionless, rfl, ?_⟩
          rw [equalTo_iff_sem (by simp [Dimensionless]) h9]
          exact ⟨fun k => by rw [semBase_dimensionless, hdims0],
            fun m => by rw [lookupCustom_dimensionless, hdimsC]⟩
        · rw [hfind] at h
          simp only [List.map_cons, List.map_nil] at h
          cases h
          obtain ⟨_, hilen, hidim⟩ := findDimensionlessIdx_spec unitArray 0 i hfind
          simp only [Nat.sub_zero] at hilen hidim
          have hd0 : (unitArray.getD i Dimensionless).dimensionality = 0 := by
            have := hidim
            unfold Dimensions.isDimensionless at this
            simpa using this
          have hdval : (unitArray.getD i Dimensionless).Valid :=
            hval _ (getD_mem Dimensionless unitArray i hilen)
          obtain ⟨prod, hfold, hp9, hpB, hpC⟩ :=
            foldProduct_ok unitArray hU (namesOf (unitArray.getD i Dimensionless))
              (by rw [namesOf_length]; exact hdval.2.2) [(i, 1)] Dimensionless
              (by simp [Dimensionless]) (by simp [namesOf_dimensionless])
              (by intro e he; simp only [List.mem_singleton] at he; subst he; exact fun a ha => ha)
          refine ⟨prod, ?_, ?_⟩
          · unfold parsedProduct
            have hlink := parsed_fold_eq unitList unitArray hmap [(i, 1)] Dimensionless
              (by intro e he; simp only [List.mem_singleton] at he; subst he; exact hilen)
            simp only [List.map_cons, List.map_nil] at hlink
            rw [hlink]
            exact hfold
          · rw [equalTo_iff_sem hp9 h9]
            constructor
            · intro k
              have h1 := hpB k
              rw [semBase_dimensionless, accSem_cons, accSem_nil] at h1
              have h2 := dimensionality_zero_semBase hd0 k
              rw [hdims0 k]
              simp only [h2] at h1
              omega
            · intro m
              have h1 := hpC m
              rw [lookupCustom_dimensionless, accSem_cons, accSem_nil] at h1
              have h2 := dimensionality_zero_lookupCustom hd0 m
              rw [hdimsC m]
              simp only [h2] at h1
              omega
      · rw [if_neg hsp] at h
        cases h
        obtain ⟨prod, hfold, hp9, hpB, hpC⟩ :=
          foldProduct_ok unitArray hU (namesOf remf)
            (by rw [namesOf_length]; exact hf4) pairs Dimensionless
            (by simp [Dimensionless]) (by simp [namesOf_dimensionless])
            (fun e he => (hfres e he).2)
        refine ⟨prod, ?_, ?_⟩
        · unfold parsedProduct
          rw [parsed_fold_eq unitList unitArray hmap pairs Dimensionless
            (fun e he => (hfres e he).1)]
          exact hfold
        · rw [equalTo_iff_sem hp9 h9]
          constructor
          · intro k
            have h1 := hpB k
            rw [semBase_dimensionless, hB k] at h1
            omega
          · intro m
            have h1 := hpC m
            rw [lookupCustom_dimensionless, hC m] at h1
            omega

end QuantityMath
namespace QuantityMath

/-- C1 witness: picking units for the energy dimension from the basis
`[J]` returns `[J^1]`, whose registry product is defined and `equalTo` the
energy dimension. -/
theorem C1_pickUnits_reproduces_dimensions_witness :
    (NRGY_DIMENSIONS.Valid) ∧
    pickUnitsFromList NRGY_DIMENSIONS [⟨none, "J"⟩] = .ok [⟨none, "J", 1⟩] ∧
    ∃ prod, parsedProduct [⟨none, "J", 1⟩] = .ok prod ∧
      prod.equalTo NRGY_DIMENSIONS = true := by
  have hred : iterReduce [NRGY_DIMENSIONS] NRGY_DIMENSIONS [] = .ok [(0, 1)] := by
    rw [iterReduce_unfold, if_neg (by decide)]
    rw [show scanUnits NRGY_DIMENSIONS [NRGY_DIMENSIONS] 0 none =
        .ok (some (0, 1, ⟨[0, 0, 0, 0, 0, 0, 0, 0, 0], []⟩)) from by decide]
    simp only
    rw [if_pos (by decide)]
    rw [iterReduce_unfold, if_pos (by decide)]
    rfl
  have hpick : pickUnitsFromList NRGY_DIMENSIONS [⟨none, "J"⟩] = .ok [⟨none, "J", 1⟩] := by
    unfold pickUnitsFromList
    rw [show ([⟨none, "J"⟩] : List PreferredUnit).mapM
        (fun u => (getUnitData u.unit).map fun ud => ud.d) =
        .ok [NRGY_DIMENSIONS] from by decide, except_ok_bind]
    rw [hred, except_ok_bind]
    decide
  exact ⟨by decide, hpick,
    C1_pickUnits_reproduces_dimensions NRGY_DIMENSIONS [⟨none, "J"⟩] [⟨none, "J", 1⟩]
      (by decide) hpick⟩

end QuantityMath
